import Mathlib

/-!
# Grid transfer operators of `AMReX_Interp_2D_C.H`

A shallow embedding of the 2-D inter-level interpolation kernels
(`pcinterp_interp`, `nodebilin_slopes`, `nodebilin_interp`,
`facediv_face_interp`, `facediv_int`, `ccprotect_2d`, `ccquartic_interp`)
together with theorems about them.

* `Real` is an arbitrary linearly ordered field `K` (exact arithmetic);
  every definition is computable and can be run at `K := ℚ`.
* `int` is `Int`; no index computation in these kernels relies on wrap-around.
* An `Array4<T>` is a total function of `(i, j, k, n)` with its index bounds;
  a write `a(i,j,k,n) = v` is the functional update `Array4.set`.
* A `for` loop is `forLe lo hi body s`, the state-passing iteration of `body`
  over `lo, lo+1, ..., hi`.
-/

namespace amrex

/-! ## Data model -/

/-- Three integer coordinates, the result of `lbound` / `ubound`. -/
structure Dim3 where
  x : Int
  y : Int
  z : Int
deriving DecidableEq, Repr

/-- A 2-D integer vector (`IntVect` in a 2-D build); `ratio[0]` is `x`, `ratio[1]` is `y`. -/
structure IntVect where
  x : Int
  y : Int
deriving DecidableEq, Repr

/-- An axis-aligned index rectangle `[smallEnd, bigEnd]`. -/
structure Box where
  smallEnd : IntVect
  bigEnd : IntVect
deriving DecidableEq, Repr

/-- Lower corner of a box as a `Dim3` (`amrex::lbound(bx)`, `z = 0` in 2-D). -/
def lbound (bx : Box) : Dim3 := ⟨bx.smallEnd.x, bx.smallEnd.y, 0⟩

/-- Upper corner of a box as a `Dim3` (`amrex::ubound(bx)`, `z = 0` in 2-D). -/
def ubound (bx : Box) : Dim3 := ⟨bx.bigEnd.x, bx.bigEnd.y, 0⟩

/-- Modelled from the spec: the `GridView` (`Array4<T>`), whose declaration is not part of
the sources at hand: a view addressed by `(i, j, k, component)`, with the inclusive index
bounds `lo` and `hi` of the region it covers. -/
structure Array4 (T : Type) where
  dat : Int → Int → Int → Int → T
  lo : Dim3
  hi : Dim3

/-- Upper index bound of a view (`amrex::ubound(a)`). -/
def Array4.ubound {T : Type} (a : Array4 T) : Dim3 := a.hi

/-- The write `a(i,j,k,n) = v`. -/
def Array4.set {T : Type} (a : Array4 T) (i j k n : Int) (v : T) : Array4 T :=
  { a with dat := fun i' j' k' n' =>
      if i' = i ∧ j' = j ∧ k' = k ∧ n' = n then v else a.dat i' j' k' n' }

/-- Modelled from the spec: `amrex::coarsen(i, ratio)`, whose definition is not part of the
sources at hand: "coarsening of an index is floor-division by the corresponding ratio
entry". -/
def coarsen (i ratio : Int) : Int := Int.fdiv i ratio

/-! ## Loops -/

/-- Runs `body i`, `body (i+1)`, ... for `cnt` consecutive indices. -/
def loopFrom {σ : Type} (body : Int → σ → σ) : Nat → Int → σ → σ
  | 0, _, s => s
  | cnt + 1, i, s => loopFrom body cnt (i + 1) (body i s)

/-- The loop `for (int i = lo; i <= hi; ++i) body`. -/
def forLe {σ : Type} (lo hi : Int) (body : Int → σ → σ) (s : σ) : σ :=
  loopFrom body (hi + 1 - lo).toNat lo s

/-- The loop `for (int i = lo; i < n; ++i) body`. -/
def forLt {σ : Type} (lo n : Int) (body : Int → σ → σ) (s : σ) : σ :=
  forLe lo (n - 1) body s

/-! ## `pcinterp_interp` -/

/-- Piecewise-constant interpolation, `pcinterp_interp`. -/
def pcinterp_interp {T : Type} (bx : Box) (fine : Array4 T) (fcomp ncomp : Int)
    (crse : Array4 T) (ccomp : Int) (ratio : IntVect) : Array4 T :=
  let lo := lbound bx
  let hi := ubound bx
  forLt 0 ncomp (fun n fine =>
    forLe lo.y hi.y (fun j fine =>
      let jc := coarsen j ratio.y
      forLe lo.x hi.x (fun i fine =>
        let ic := coarsen i ratio.x
        fine.set i j 0 (n + fcomp) (crse.dat ic jc 0 (n + ccomp))) fine) fine) fine

/-! ## Bilinear nodal interpolation -/

section RealKernels

variable {K : Type} [LinearOrderedField K]

/-- Slope-buffer slot of the x-slope. -/
def ix : Int := 0
/-- Slope-buffer slot of the y-slope. -/
def iy : Int := 1
/-- Slope-buffer slot of the cross slope. -/
def ixy : Int := 2

/-- Slope pass of the bilinear nodal interpolation, `nodebilin_slopes`. -/
def nodebilin_slopes (bx : Box) (slope : Array4 K) (u : Array4 K)
    (icomp ncomp : Int) (ratio : IntVect) : Array4 K :=
  let lo := lbound bx
  let hi := ubound bx
  let rx : K := 1 / (ratio.x : K)
  let ry : K := 1 / (ratio.y : K)
  forLt 0 ncomp (fun n slope =>
    forLe lo.y hi.y (fun j slope =>
      forLe lo.x hi.x (fun i slope =>
        let dx0 := u.dat (i + 1) j 0 (n + icomp) - u.dat i j 0 (n + icomp)
        let d0x := u.dat i (j + 1) 0 (n + icomp) - u.dat i j 0 (n + icomp)
        let dx1 := u.dat (i + 1) (j + 1) 0 (n + icomp) - u.dat i (j + 1) 0 (n + icomp)
        let slope := slope.set i j 0 (n + ncomp * ix) (rx * dx0)
        let slope := slope.set i j 0 (n + ncomp * iy) (ry * d0x)
        slope.set i j 0 (n + ncomp * ixy) (rx * ry * (dx1 - dx0))) slope) slope) slope

/-- Evaluation pass of the bilinear nodal interpolation, `nodebilin_interp`. -/
def nodebilin_interp (bx : Box) (fine : Array4 K) (fcomp ncomp : Int)
    (slope : Array4 K) (crse : Array4 K) (ccomp : Int) (ratio : IntVect) : Array4 K :=
  let lo := lbound bx
  let hi := ubound bx
  let chi := slope.ubound
  forLt 0 ncomp (fun n fine =>
    forLe lo.y hi.y (fun j fine =>
      let jc := min (coarsen j ratio.y) chi.y
      let fy : K := ((j - jc * ratio.y : Int) : K)
      forLe lo.x hi.x (fun i fine =>
        let ic := min (coarsen i ratio.x) chi.x
        let fx : K := ((i - ic * ratio.x : Int) : K)
        fine.set i j 0 (n + fcomp)
          (crse.dat ic jc 0 (n + ccomp)
            + fx * slope.dat ic jc 0 (n + ncomp * ix)
            + fy * slope.dat ic jc 0 (n + ncomp * iy)
            + fx * fy * slope.dat ic jc 0 (n + ncomp * ixy))) fine) fine) fine

/-! ## Divergence-preserving face interpolation -/

/-- The test `if (mask) { if (!mask(ci,cj,0,nc)) return; }`: a mask that is present and
zero at the coarse face blocks the write; an absent mask never does. -/
def maskBlocks (mask : Option (Array4 Int)) (ci cj nc : Int) : Bool :=
  match mask with
  | some m => m.dat ci cj 0 nc == 0
  | none => false

/-- Fine boundary faces of a coarse face, `facediv_face_interp`. -/
def facediv_face_interp (ci cj _ck nc nf idir : Int) (crse : Array4 K) (fine : Array4 K)
    (mask : Option (Array4 Int)) (ratio : IntVect) : Array4 K :=
  if maskBlocks mask ci cj nc then fine
  else
    let fi := ci * ratio.x
    let fj := cj * ratio.y
    if idir = 0 then
      let neg := crse.dat ci (cj - 1) 0 nc
      let cen := crse.dat ci cj 0 nc
      let pos := crse.dat ci (cj + 1) 0 nc
      let fine := fine.set fi fj 0 nf (0.125 * (8 * cen + neg - pos))
      fine.set fi (fj + 1) 0 nf (0.125 * (8 * cen + pos - neg))
    else if idir = 1 then
      let neg := crse.dat (ci - 1) cj 0 nc
      let cen := crse.dat ci cj 0 nc
      let pos := crse.dat (ci + 1) cj 0 nc
      let fine := fine.set fi fj 0 nf (0.125 * (8 * cen + neg - pos))
      fine.set (fi + 1) fj 0 nf (0.125 * (8 * cen + pos - neg))
    else fine

/-- Fine faces interior to a coarse cell, `facediv_int`; `fine` is the pair of the
x-face and the y-face arrays, `cellSize` the pair of cell sizes. -/
def facediv_int (ci cj _ck nf : Int) (fine : Array4 K × Array4 K) (ratio : IntVect)
    (cellSize : K × K) : Array4 K × Array4 K :=
  let fi := ci * ratio.x
  let fj := cj * ratio.y
  let umm := fine.1.dat fi fj 0 nf
  let ump := fine.1.dat fi (fj + 1) 0 nf
  let upm := fine.1.dat (fi + 2) fj 0 nf
  let upp := fine.1.dat (fi + 2) (fj + 1) 0 nf
  let vmm := fine.2.dat fi fj 0 nf
  let vmp := fine.2.dat (fi + 1) fj 0 nf
  let vpm := fine.2.dat fi (fj + 2) 0 nf
  let vpp := fine.2.dat (fi + 1) (fj + 2) 0 nf
  let dxdy := cellSize.1 / cellSize.2
  let x_corr := 0.25 * dxdy * (vpp + vmm - vmp - vpm)
  let y_corr := 0.25 / dxdy * (upp + umm - ump - upm)
  let fine0 := fine.1.set (fi + 1) fj 0 nf (0.5 * (umm + upm) + x_corr)
  let fine0 := fine0.set (fi + 1) (fj + 1) 0 nf (0.5 * (ump + upp) + x_corr)
  let fine1 := fine.2.set fi (fj + 1) 0 nf (0.5 * (vmm + vpm) + y_corr)
  let fine1 := fine1.set (fi + 1) (fj + 1) 0 nf (0.5 * (vmp + vpp) + y_corr)
  (fine0, fine1)

/-! ## Conservative positivity correction -/

/-- Modelled from the spec: the "two-valued coordinate-system tag (planar vs.
cylindrical-radial)" of the geometry context, whose declaration is not part of the
sources at hand. -/
inductive CoordSys where
  | cartesian
  | RZ
deriving DecidableEq, Repr

/-- Modelled from the spec: the `GeometryContext` (`GeometryData`), whose declaration is
not part of the sources at hand: "cell size per axis, domain lower corner per axis, and a
two-valued coordinate-system tag". -/
structure GeometryData (K : Type) where
  coord : CoordSys
  CellSize : K × K
  ProbLo : K × K

/-- Coarse cell volume computed by `ccprotect_2d` (`cvol`). -/
def ccprotect_cvol (cs_geomdata : GeometryData K) (ic : Int) : K :=
  let cs_dx := cs_geomdata.CellSize
  if cs_geomdata.coord = CoordSys.cartesian then
    cs_dx.1 * cs_dx.2
  else
    let cs_problo := cs_geomdata.ProbLo
    let rp := cs_problo.1 + ((ic : K) + 0.5) * cs_dx.1
    let rm := cs_problo.1 + ((ic : K) - 0.5) * cs_dx.1
    (rp * rp - rm * rm) * cs_dx.2

/-- Fine cell volume computed by `ccprotect_2d` (`fvol`) for the fine column `i`. -/
def ccprotect_fvol (fn_geomdata : GeometryData K) (i : Int) : K :=
  let fn_dx := fn_geomdata.CellSize
  if fn_geomdata.coord = CoordSys.cartesian then
    fn_dx.1 * fn_dx.2
  else
    let fn_problo := fn_geomdata.ProbLo
    let rp := fn_problo.1 + ((i : K) + 0.5) * fn_dx.1
    let rm := fn_problo.1 + ((i : K) - 0.5) * fn_dx.1
    (rp * rp - rm * rm) * fn_dx.2

/-- The three accumulators of the aggregate pass of `ccprotect_2d`. -/
structure Sums (K : Type) where
  crseTot : K
  SumN : K
  SumP : K

/-- Detection pass of `ccprotect_2d` for component `n`: the flag `redo_me`. -/
def ccprotect_redo_me (ilo ihi jlo jhi n : Int) (fine fine_state : Array4 K) : Bool :=
  forLe jlo jhi (fun j redo_me =>
    forLe ilo ihi (fun i redo_me =>
      if fine_state.dat i j 0 n + fine.dat i j 0 n < 0 then true else redo_me) redo_me) false

/-- Aggregate pass of `ccprotect_2d` for component `n`: `crseTot`, `SumN`, `SumP`. -/
def ccprotect_sums (ilo ihi jlo jhi n : Int) (fn_geomdata : GeometryData K)
    (fine fine_state : Array4 K) : Sums K :=
  forLe jlo jhi (fun j acc =>
    forLe ilo ihi (fun i acc =>
      let fvol := ccprotect_fvol fn_geomdata i
      let acc := { acc with crseTot := acc.crseTot + fvol * fine.dat i j 0 n }
      if fine_state.dat i j 0 n ≤ 0 then
        { acc with SumN := acc.SumN + fvol * fine_state.dat i j 0 n }
      else
        { acc with SumP := acc.SumP + fvol * fine_state.dat i j 0 n }) acc) ⟨0, 0, 0⟩

/-- Repair of one fine cell in special case 1 of `ccprotect_2d`. -/
def ccprotect_case1 (i j n : Int) (crseTot SumN SumP cvol : K) (fine_state : Array4 K)
    (fine : Array4 K) : Array4 K :=
  let fine :=
    if fine_state.dat i j 0 n < 0 then fine.set i j 0 n (-fine_state.dat i j 0 n) else fine
  if SumP > 0 then
    if fine_state.dat i j 0 n > 0 then
      let alpha := (crseTot - |SumN|) / SumP
      fine.set i j 0 n (alpha * fine_state.dat i j 0 n)
    else fine
  else
    let posVal := (crseTot - |SumN|) / cvol
    fine.set i j 0 n (fine.dat i j 0 n + posVal)

/-- Repair of one fine cell in special case 2 of `ccprotect_2d`. -/
def ccprotect_case2 (i j n : Int) (crseTot SumN : K) (fine_state : Array4 K)
    (fine : Array4 K) : Array4 K :=
  let alpha := crseTot / |SumN|
  if fine_state.dat i j 0 n < 0 then
    fine.set i j 0 n (alpha * |fine_state.dat i j 0 n|)
  else
    fine.set i j 0 n 0

/-- Repair of one fine cell in special case 3 of `ccprotect_2d`. The division by `cvol` is
that of the field: it is the code's division for `cvol ≠ 0` only (at `cvol = 0` the code
divides a floating-point number by zero). -/
def ccprotect_case3 (i j n : Int) (crseTot SumN SumP cvol : K) (fine_state : Array4 K)
    (fine : Array4 K) : Array4 K :=
  let negVal := (SumP + SumN + crseTot) / cvol
  fine.set i j 0 n (negVal - fine_state.dat i j 0 n)

/-- Repair of one fine cell in special case 4 of `ccprotect_2d`. -/
def ccprotect_case4 (i j n : Int) (crseTot SumN SumP : K) (fine_state : Array4 K)
    (fine : Array4 K) : Array4 K :=
  if fine_state.dat i j 0 n < 0 then
    fine.set i j 0 n (-fine_state.dat i j 0 n)
  else
    let alpha := (crseTot + SumN) / SumP
    fine.set i j 0 n (alpha * fine_state.dat i j 0 n)

/-- Repair of one fine cell in special case 5 of `ccprotect_2d`. -/
def ccprotect_case5 (i j n : Int) (crseTot SumN SumP : K) (fine_state : Array4 K)
    (fine : Array4 K) : Array4 K :=
  if fine_state.dat i j 0 n > 0 then
    fine.set i j 0 n (-fine_state.dat i j 0 n)
  else
    let alpha := (crseTot + SumP) / SumN
    fine.set i j 0 n (alpha * fine_state.dat i j 0 n)

/-- Body of the component loop of `ccprotect_2d`: detection, aggregation and the
dispatch on the five special cases for component `n`. -/
def ccprotect_comp (ic ilo ihi jlo jhi : Int) (cs_geomdata fn_geomdata : GeometryData K)
    (fine_state : Array4 K) (n : Int) (fine : Array4 K) : Array4 K :=
  let redo_me := ccprotect_redo_me ilo ihi jlo jhi n fine fine_state
  if redo_me then
    let cvol := ccprotect_cvol cs_geomdata ic
    let sums := ccprotect_sums ilo ihi jlo jhi n fn_geomdata fine fine_state
    let crseTot := sums.crseTot
    let SumN := sums.SumN
    let SumP := sums.SumP
    if crseTot > 0 ∧ crseTot > |SumN| then
      forLe jlo jhi (fun j fine =>
        forLe ilo ihi (fun i fine =>
          ccprotect_case1 i j n crseTot SumN SumP cvol fine_state fine) fine) fine
    else if crseTot > 0 ∧ crseTot < |SumN| then
      forLe jlo jhi (fun j fine =>
        forLe ilo ihi (fun i fine =>
          ccprotect_case2 i j n crseTot SumN fine_state fine) fine) fine
    else if crseTot < 0 ∧ |crseTot| > SumP then
      forLe jlo jhi (fun j fine =>
        forLe ilo ihi (fun i fine =>
          ccprotect_case3 i j n crseTot SumN SumP cvol fine_state fine) fine) fine
    else if crseTot < 0 ∧ |crseTot| < SumP ∧ SumP + SumN + crseTot > 0 then
      forLe jlo jhi (fun j fine =>
        forLe ilo ihi (fun i fine =>
          ccprotect_case4 i j n crseTot SumN SumP fine_state fine) fine) fine
    else if crseTot < 0 ∧ |crseTot| < SumP ∧ SumP + SumN + crseTot < 0 then
      forLe jlo jhi (fun j fine =>
        forLe ilo ihi (fun i fine =>
          ccprotect_case5 i j n crseTot SumN SumP fine_state fine) fine) fine
    else fine
  else fine

/-- Closing pass of `ccprotect_2d`: component 0 becomes the sum of components
`1 .. nvar-2`. -/
def ccprotect_closure (ilo ihi jlo jhi nvar : Int) (fine : Array4 K) : Array4 K :=
  forLe jlo jhi (fun j fine =>
    forLe ilo ihi (fun i fine =>
      let fine := fine.set i j 0 0 0
      forLt 1 (nvar - 1) (fun n fine =>
        fine.set i j 0 0 (fine.dat i j 0 0 + fine.dat i j 0 n)) fine) fine) fine

/-- Lower x-bound of the clipped footprint (`ilo`). -/
def ccprotect_ilo (ic : Int) (fine_bx : Box) (ratio : IntVect) : Int :=
  max (ratio.x * ic) (lbound fine_bx).x
/-- Upper x-bound of the clipped footprint (`ihi`). -/
def ccprotect_ihi (ic : Int) (fine_bx : Box) (ratio : IntVect) : Int :=
  min (ratio.x * ic + (ratio.x - 1)) (ubound fine_bx).x
/-- Lower y-bound of the clipped footprint (`jlo`). -/
def ccprotect_jlo (jc : Int) (fine_bx : Box) (ratio : IntVect) : Int :=
  max (ratio.y * jc) (lbound fine_bx).y
/-- Upper y-bound of the clipped footprint (`jhi`). -/
def ccprotect_jhi (jc : Int) (fine_bx : Box) (ratio : IntVect) : Int :=
  min (ratio.y * jc + (ratio.y - 1)) (ubound fine_bx).y

/-- The conservative positivity correction `ccprotect_2d`. -/
def ccprotect_2d (ic jc _kc nvar : Int) (fine_bx : Box) (ratio : IntVect)
    (cs_geomdata fn_geomdata : GeometryData K) (fine : Array4 K) (fine_state : Array4 K) :
    Array4 K :=
  let ilo := ccprotect_ilo ic fine_bx ratio
  let ihi := ccprotect_ihi ic fine_bx ratio
  let jlo := ccprotect_jlo jc fine_bx ratio
  let jhi := ccprotect_jhi jc fine_bx ratio
  let fine := forLt 1 (nvar - 1) (fun n fine =>
    ccprotect_comp ic ilo ihi jlo jhi cs_geomdata fn_geomdata fine_state n fine) fine
  ccprotect_closure ilo ihi jlo jhi nvar fine

/-! ## Quartic cell interpolation -/

/-- The stencil coefficients `cL(-2..2)` of `ccquartic_interp`. -/
def cL (ii : Int) : K :=
  if ii = -2 then -0.01171875
  else if ii = -1 then 0.0859375
  else if ii = 0 then 0.5
  else if ii = 1 then -0.0859375
  else if ii = 2 then 0.01171875
  else 0

/-- The scratch buffer `ctmp(-2..2)` of `ccquartic_interp` after its loop. -/
def ccquartic_ctmp (ic jc jry n : Int) (crse : Array4 K) : Int → K :=
  forLe (-2) 2 (fun ii ctmp =>
    let ctmp := Function.update ctmp ii
      (2 * (cL (-2) * crse.dat (ic + ii) (jc - 2) 0 n
          + cL (-1) * crse.dat (ic + ii) (jc - 1) 0 n
          + cL 0 * crse.dat (ic + ii) jc 0 n
          + cL 1 * crse.dat (ic + ii) (jc + 1) 0 n
          + cL 2 * crse.dat (ic + ii) (jc + 2) 0 n))
    if jry ≠ 0 then
      Function.update ctmp ii (2 * crse.dat (ic + ii) jc 0 n - ctmp ii)
    else ctmp) (fun _ => 0)

/-- The quartic cell interpolation `ccquartic_interp` (ratio 2). -/
def ccquartic_interp (i j _k n : Int) (crse : Array4 K) (fine : Array4 K) : Array4 K :=
  let ic := coarsen i 2
  let jc := coarsen j 2
  let irx := i - 2 * ic
  let jry := j - 2 * jc
  let ctmp := ccquartic_ctmp ic jc jry n crse
  let ftmp := 2 * (cL (-2) * ctmp (-2)
                 + cL (-1) * ctmp (-1)
                 + cL 0 * ctmp 0
                 + cL 1 * ctmp 1
                 + cL 2 * ctmp 2)
  let ftmp := if irx ≠ 0 then 2 * ctmp 0 - ftmp else ftmp
  fine.set i j 0 n ftmp

end RealKernels

/-! ## Linear face interpolation (`AMReX_Interp_C.H`) -/

/-- A 3-D integer vector (`IntVect` in a 3-D build), used by the kernel that only exists
meaningfully there; `ratio[2]` is `z`. -/
structure IntVect3 where
  x : Int
  y : Int
  z : Int
deriving DecidableEq, Repr

/-- Replication onto the fine x-faces overlapping a coarse x-face,
`face_linear_face_interp_x` in the 2-D build (`fj = cj*ratio[1]`, `fk = 0`). The code
evaluates `mask(ci,cj,ck,n)` without testing whether the mask view is present: with an
absent mask the read has no defined result, which is `none`. -/
def face_linear_face_interp_x {T : Type} (ci cj ck n : Int) (fine : Array4 T)
    (crse : Array4 T) (mask : Option (Array4 Int)) (ratio : IntVect) : Option (Array4 T) :=
  let fi := ci * ratio.x
  let fj := cj * ratio.y
  let fk := 0
  match mask with
  | none => none
  | some m =>
    if m.dat ci cj ck n = 0 then some fine
    else
      let fine := fine.set fi fj fk n (crse.dat ci cj ck n)
      let fine := fine.set fi (fj + 1) fk n (crse.dat ci cj ck n)
      some fine

/-- Replication onto the fine y-faces overlapping a coarse y-face,
`face_linear_face_interp_y` in the 2-D build (`fk = 0`); an absent mask is read all the
same, with no defined result (`none`). -/
def face_linear_face_interp_y {T : Type} (ci cj ck n : Int) (fine : Array4 T)
    (crse : Array4 T) (mask : Option (Array4 Int)) (ratio : IntVect) : Option (Array4 T) :=
  let fi := ci * ratio.x
  let fj := cj * ratio.y
  let fk := 0
  match mask with
  | none => none
  | some m =>
    if m.dat ci cj ck n = 0 then some fine
    else
      let fine := fine.set fi fj fk n (crse.dat ci cj ck n)
      let fine := fine.set (fi + 1) fj fk n (crse.dat ci cj ck n)
      some fine

/-- Replication onto the fine z-faces overlapping a coarse z-face,
`face_linear_face_interp_z` (it reads `ratio[2]`, so the ratio is that of a 3-D build);
an absent mask is read all the same, with no defined result (`none`). -/
def face_linear_face_interp_z {T : Type} (ci cj ck n : Int) (fine : Array4 T)
    (crse : Array4 T) (mask : Option (Array4 Int)) (ratio : IntVect3) : Option (Array4 T) :=
  let fi := ci * ratio.x
  let fj := cj * ratio.y
  let fk := ck * ratio.z
  match mask with
  | none => none
  | some m =>
    if m.dat ci cj ck n = 0 then some fine
    else
      let fine := fine.set fi fj fk n (crse.dat ci cj ck n)
      let fine := fine.set (fi + 1) fj fk n (crse.dat ci cj ck n)
      let fine := fine.set fi (fj + 1) fk n (crse.dat ci cj ck n)
      let fine := fine.set (fi + 1) (fj + 1) fk n (crse.dat ci cj ck n)
      some fine

/-- Linear fill along x between coarse-aligned faces, `face_linear_interp_x`. -/
def face_linear_interp_x {K : Type} [LinearOrderedField K] (i j k n : Int) (fine : Array4 K)
    (ratio : IntVect) : Array4 K :=
  let ci := coarsen i ratio.x
  if i - ci * ratio.x ≠ 0 then
    let w : K := ((i - ci * ratio.x : Int) : K) * (1 / (ratio.x : K))
    let i1 := ci * ratio.x
    let i2 := (ci + 1) * ratio.x
    fine.set i j k n ((1 - w) * fine.dat i1 j k n + w * fine.dat i2 j k n)
  else fine

/-- Linear fill along y between coarse-aligned faces, `face_linear_interp_y`. -/
def face_linear_interp_y {K : Type} [LinearOrderedField K] (i j k n : Int) (fine : Array4 K)
    (ratio : IntVect) : Array4 K :=
  let cj := coarsen j ratio.y
  if j - cj * ratio.y ≠ 0 then
    let w : K := ((j - cj * ratio.y : Int) : K) * (1 / (ratio.y : K))
    let j1 := cj * ratio.y
    let j2 := (cj + 1) * ratio.y
    fine.set i j k n ((1 - w) * fine.dat i j1 k n + w * fine.dat i j2 k n)
  else fine

/-! ## Concrete data for worked instances -/

/-- The all-zero rational view with the given bounds. -/
def zeroArray4 (lo hi : Dim3) : Array4 ℚ := ⟨fun _ _ _ _ => 0, lo, hi⟩

/-- Node data sampling `1 + 2 I + 3 J + 4 I J`. -/
def bilinearSample : Array4 ℚ :=
  ⟨fun I J _ _ => 1 + 2 * (I : ℚ) + 3 * (J : ℚ) + 4 * (I : ℚ) * (J : ℚ), ⟨0, 0, 0⟩, ⟨2, 2, 0⟩⟩

/-! ## The face pipeline -/

/-- The face pipeline for the coarse cell `(ci, cj)` at ratio `(2, 2)` without mask:
`facediv_face_interp` fills the fine boundary x-faces from the coarse faces `(ci, cj)` and
`(ci+1, cj)` of `U` (`idir = 0`) and the fine boundary y-faces from the coarse faces
`(ci, cj)` and `(ci, cj+1)` of `V` (`idir = 1`); then `facediv_int` fills the interior
faces, with cell sizes `(hx, hy)`. -/
def facediv_pipeline {K : Type} [LinearOrderedField K] (ci cj ck nc nf : Int)
    (U V : Array4 K) (u v : Array4 K) (hx hy : K) : Array4 K × Array4 K :=
  let u := facediv_face_interp ci cj ck nc nf 0 U u none ⟨2, 2⟩
  let u := facediv_face_interp (ci + 1) cj ck nc nf 0 U u none ⟨2, 2⟩
  let v := facediv_face_interp ci cj ck nc nf 1 V v none ⟨2, 2⟩
  let v := facediv_face_interp ci (cj + 1) ck nc nf 1 V v none ⟨2, 2⟩
  facediv_int ci cj ck nf (u, v) ⟨2, 2⟩ (hx, hy)

/-- Discrete divergence of a fine face field on the fine cell `(i, j)`. -/
def fineDiv {K : Type} [LinearOrderedField K] (uv : Array4 K × Array4 K) (nf : Int)
    (hx hy : K) (i j : Int) : K :=
  (uv.1.dat (i + 1) j 0 nf - uv.1.dat i j 0 nf) / hx
    + (uv.2.dat i (j + 1) 0 nf - uv.2.dat i j 0 nf) / hy

/-- Discrete divergence of the coarse face field on the coarse cell `(ci, cj)`, whose
cell sizes are `2 hx` and `2 hy`. -/
def crseDiv {K : Type} [LinearOrderedField K] (U V : Array4 K) (nc : Int)
    (hx hy : K) (ci cj : Int) : K :=
  (U.dat (ci + 1) cj 0 nc - U.dat ci cj 0 nc) / (2 * hx)
    + (V.dat ci (cj + 1) 0 nc - V.dat ci cj 0 nc) / (2 * hy)

/-! ## Vocabulary of the statements -/

section Vocabulary

variable {T : Type} {K : Type} [LinearOrderedField K]

/-- The predicate `Upd I f W g`: on states satisfying `I`, the transformer `f` keeps `I` and the index
bounds, replaces the entry at every position in the write set `W` by `g` of the old
entry, and leaves every other entry alone. -/
def Upd (I : Array4 T → Prop) (f : Array4 T → Array4 T)
    (W : Int → Int → Int → Int → Prop) (g : Int → Int → Int → Int → T → T) : Prop :=
  ∀ s, I s → I (f s) ∧ (f s).lo = s.lo ∧ (f s).hi = s.hi ∧
    ∀ i j k n, (W i j k n → (f s).dat i j k n = g i j k n (s.dat i j k n)) ∧
      (¬ W i j k n → (f s).dat i j k n = s.dat i j k n)

/-- The value `nodebilin_slopes` stores at slot `m` of node `(i, j)`. -/
def slopeValue (u : Array4 K) (icomp ncomp : Int) (ratio : IntVect) (i j m : Int) : K :=
  if m < ncomp then
    1 / (ratio.x : K) * (u.dat (i + 1) j 0 (m + icomp) - u.dat i j 0 (m + icomp))
  else if m < 2 * ncomp then
    1 / (ratio.y : K) * (u.dat i (j + 1) 0 (m - ncomp + icomp) - u.dat i j 0 (m - ncomp + icomp))
  else
    1 / (ratio.x : K) * (1 / (ratio.y : K)) *
      ((u.dat (i + 1) (j + 1) 0 (m - 2 * ncomp + icomp) - u.dat i (j + 1) 0 (m - 2 * ncomp + icomp))
        - (u.dat (i + 1) j 0 (m - 2 * ncomp + icomp) - u.dat i j 0 (m - 2 * ncomp + icomp)))

/-- One pass of the 5-point stencil of `ccquartic_interp` along a line of five values
`c (-2), ..., c 2`, with the reflection `2 * c 0 - result` for odd parity. -/
def quarticLine (c : Int → K) (odd : Prop) [Decidable odd] : K :=
  if odd then
    2 * c 0 - 2 * (cL (-2) * c (-2) + cL (-1) * c (-1) + cL 0 * c 0 + cL 1 * c 1 + cL 2 * c 2)
  else 2 * (cL (-2) * c (-2) + cL (-1) * c (-1) + cL 0 * c 0 + cL 1 * c 1 + cL 2 * c 2)

/-- The polynomial `Σ a k l x^k y^l` of degree at most 4 in each variable. -/
def poly2 (a : Fin 5 → Fin 5 → K) (x y : K) : K :=
  ∑ k : Fin 5, ∑ l : Fin 5, a k l * x ^ (k : Nat) * y ^ (l : Nat)

/-- Mean of `x^k` over `[x0, x1]`, through the antiderivative `x^(k+1)/(k+1)`. -/
def monoMean (k : Nat) (x0 x1 : K) : K :=
  (x1 ^ (k + 1) - x0 ^ (k + 1)) / (((k : K) + 1) * (x1 - x0))

/-- Mean of the polynomial `Σ a k l x^k y^l` over the rectangle `[x0, x1] × [y0, y1]`. -/
def polyMean (a : Fin 5 → Fin 5 → K) (x0 x1 y0 y1 : K) : K :=
  ∑ k : Fin 5, ∑ l : Fin 5, a k l * monoMean (k : Nat) x0 x1 * monoMean (l : Nat) y0 y1

/-- The cell `(i, j)` lies in the footprint of the coarse cell `(ic, jc)` clipped to
`fine_bx`. -/
def inFootprint (ic jc : Int) (fine_bx : Box) (ratio : IntVect) (i j : Int) : Prop :=
  (ratio.x * ic ≤ i ∧ i ≤ ratio.x * ic + (ratio.x - 1) ∧
    fine_bx.smallEnd.x ≤ i ∧ i ≤ fine_bx.bigEnd.x) ∧
  (ratio.y * jc ≤ j ∧ j ≤ ratio.y * jc + (ratio.y - 1) ∧
    fine_bx.smallEnd.y ≤ j ∧ j ≤ fine_bx.bigEnd.y)

/-- The correction `ccprotect_2d` leaves in a footprint cell of a repaired component, as
a function of the aggregates, the coarse volume, the cell's `fine_state` value `st` and
its incoming correction `x`. -/
def ccprotect_newval (crseTot SumN SumP cvol st x : K) : K :=
  if crseTot > 0 ∧ crseTot > |SumN| then
    if SumP > 0 then
      if st > 0 then (crseTot - |SumN|) / SumP * st
      else if st < 0 then -st else x
    else (if st < 0 then -st else x) + (crseTot - |SumN|) / cvol
  else if crseTot > 0 ∧ crseTot < |SumN| then
    if st < 0 then crseTot / |SumN| * |st| else 0
  else if crseTot < 0 ∧ |crseTot| > SumP then
    (SumP + SumN + crseTot) / cvol - st
  else if crseTot < 0 ∧ |crseTot| < SumP ∧ SumP + SumN + crseTot > 0 then
    if st < 0 then -st else (crseTot + SumN) / SumP * st
  else if crseTot < 0 ∧ |crseTot| < SumP ∧ SumP + SumN + crseTot < 0 then
    if st > 0 then -st else (crseTot + SumP) / SumN * st
  else x

/-- Whether detection triggers for component `n` on the clipped footprint of the coarse
cell `(ic, jc)`: the flag `redo_me` of `ccprotect_2d`. -/
def ccprotect_detects (ic jc : Int) (fine_bx : Box) (ratio : IntVect) (n : Int)
    (fine fine_state : Array4 K) : Bool :=
  ccprotect_redo_me (ccprotect_ilo ic fine_bx ratio) (ccprotect_ihi ic fine_bx ratio)
    (ccprotect_jlo jc fine_bx ratio) (ccprotect_jhi jc fine_bx ratio) n fine fine_state

/-- The aggregates `crseTot`, `SumN`, `SumP` that `ccprotect_2d` computes for component
`n` on the clipped footprint of the coarse cell `(ic, jc)`. -/
def ccprotect_aggregates (ic jc : Int) (fine_bx : Box) (ratio : IntVect)
    (fn_geomdata : GeometryData K) (n : Int) (fine fine_state : Array4 K) : Sums K :=
  ccprotect_sums (ccprotect_ilo ic fine_bx ratio) (ccprotect_ihi ic fine_bx ratio)
    (ccprotect_jlo jc fine_bx ratio) (ccprotect_jhi jc fine_bx ratio) n fn_geomdata
    fine fine_state

/-- Sum of `f i j` over the cells `(i, j)` of the clipped footprint of the coarse cell
`(ic, jc)`. -/
def footprintSum (ic jc : Int) (fine_bx : Box) (ratio : IntVect) (f : Int → Int → K) : K :=
  ∑ j in Finset.Icc (ccprotect_jlo jc fine_bx ratio) (ccprotect_jhi jc fine_bx ratio),
    ∑ i in Finset.Icc (ccprotect_ilo ic fine_bx ratio) (ccprotect_ihi ic fine_bx ratio), f i j

/-- Dispatch condition of special case 1 (Case A) of `ccprotect_2d`. -/
@[reducible] def ccprotect_condA (crseTot SumN : K) : Prop := crseTot > 0 ∧ crseTot > |SumN|

/-- Dispatch condition of special case 2 (Case B) of `ccprotect_2d`. -/
@[reducible] def ccprotect_condB (crseTot SumN : K) : Prop := crseTot > 0 ∧ crseTot < |SumN|

/-- Dispatch condition of special case 3 (Case C) of `ccprotect_2d`. -/
@[reducible] def ccprotect_condC (crseTot SumP : K) : Prop := crseTot < 0 ∧ |crseTot| > SumP

/-- Dispatch condition of special case 4 (Case D) of `ccprotect_2d`. -/
@[reducible] def ccprotect_condD (crseTot SumN SumP : K) : Prop :=
  crseTot < 0 ∧ |crseTot| < SumP ∧ SumP + SumN + crseTot > 0

/-- Dispatch condition of special case 5 (Case E) of `ccprotect_2d`. -/
@[reducible] def ccprotect_condE (crseTot SumN SumP : K) : Prop :=
  crseTot < 0 ∧ |crseTot| < SumP ∧ SumP + SumN + crseTot < 0

/-- The coarse-aligned fine index at or below `i`: `r * ⌊i / r⌋`. -/
def alignedBelow (i r : Int) : Int := r * ⌊(i : ℚ) / (r : ℚ)⌋

/-- The anchor coarse node of a fine node along one axis: `min(⌊i / r⌋, hi)`, with `hi`
the upper bound of the slope buffer. -/
def anchorIndex (i r hi : Int) : Int := min ⌊(i : ℚ) / (r : ℚ)⌋ hi

/-- The fractional offset of a fine node from its anchor `c` along one axis:
`(i - r * c) / r`. -/
def anchorOffset (i r c : Int) : K := ((i - r * c : Int) : K) / (r : K)

/-- Mean of the quadratic `a + b y + c y^2` over `[y0, y1]`, through the antiderivative. -/
def quadMean (a b c y0 y1 : K) : K :=
  a * monoMean 0 y0 y1 + b * monoMean 1 y0 y1 + c * monoMean 2 y0 y1

/-- Following the words of the separability statement, not the code: the 5-point stencil
with odd-parity reflection applied first along x to the five rows `jc-2 .. jc+2` of the
coarse data (`rtmp`), then along y. -/
def ccquartic_xfirst (i j n : Int) (crse : Array4 K) : K :=
  let ic := coarsen i 2
  let jc := coarsen j 2
  let irx := i - 2 * ic
  let jry := j - 2 * jc
  let rtmp : Int → K := fun jj =>
    let r := 2 * (cL (-2) * crse.dat (ic - 2) (jc + jj) 0 n
                + cL (-1) * crse.dat (ic - 1) (jc + jj) 0 n
                + cL 0 * crse.dat ic (jc + jj) 0 n
                + cL 1 * crse.dat (ic + 1) (jc + jj) 0 n
                + cL 2 * crse.dat (ic + 2) (jc + jj) 0 n)
    if irx ≠ 0 then 2 * crse.dat ic (jc + jj) 0 n - r else r
  let ftmp := 2 * (cL (-2) * rtmp (-2)
                 + cL (-1) * rtmp (-1)
                 + cL 0 * rtmp 0
                 + cL 1 * rtmp 1
                 + cL 2 * rtmp 2)
  if jry ≠ 0 then 2 * rtmp 0 - ftmp else ftmp

end Vocabulary

/-- Coarse cell data sampling `x^2` at the cell centres `I + 1/2`. -/
def squareSample : Array4 ℚ := ⟨fun I _ _ _ => ((I : ℚ) + 1 / 2) ^ 2, ⟨-2, -2, 0⟩, ⟨2, 2, 0⟩⟩

/-- Coefficients of the polynomial `x^2`. -/
def squareCoeff : Fin 5 → Fin 5 → ℚ := fun k l => if k = 2 ∧ l = 0 then 1 else 0

/-- Cartesian geometry with unit cell sizes. -/
def unitGeom : GeometryData ℚ := ⟨CoordSys.cartesian, (1, 1), (0, 0)⟩

/-- Fine data on the `2 × 2` footprint of the coarse cell `(0, 0)`: the value `a` in the
cell `(0, 0)` and `b` in the other three cells, in every component. -/
def cellData (a b : ℚ) : Array4 ℚ :=
  ⟨fun i j _ _ => if i = 0 ∧ j = 0 then a else b, ⟨0, 0, 0⟩, ⟨1, 1, 0⟩⟩

/-- The fine box `[0, 1] × [0, 1]`. -/
def unitBlock : Box := ⟨⟨0, 0⟩, ⟨1, 1⟩⟩

/-- Cartesian geometry of the coarse level at ratio `(2, 2)` over `unitGeom`: cell sizes
`(2, 2)`. -/
def coarseGeom : GeometryData ℚ := ⟨CoordSys.cartesian, (2, 2), (0, 0)⟩

/-- A mask view holding the value `v` everywhere. -/
def constMask (v : Int) : Array4 Int := ⟨fun _ _ _ _ => v, ⟨0, 0, 0⟩, ⟨1, 1, 0⟩⟩

/-- Coarse face data `I + 10 J`. -/
def faceSample : Array4 ℚ := ⟨fun I J _ _ => (I : ℚ) + 10 * (J : ℚ), ⟨-1, -1, 0⟩, ⟨2, 2, 0⟩⟩

/-- Coarse face data holding the means of `1 + 2 y + 3 y^2` over `[J, J+1]`. -/
def quadFaceSample : Array4 ℚ :=
  ⟨fun _ J _ _ => quadMean 1 2 3 (J : ℚ) ((J : ℚ) + 1), ⟨-1, -1, 0⟩, ⟨2, 2, 0⟩⟩

/-- Cylindrical (RZ) geometry of a fine level: cell sizes `(1, 1)`, lower corner `(0, 0)`. -/
def rzFineGeom : GeometryData ℚ := ⟨CoordSys.RZ, (1, 1), (0, 0)⟩

/-- Cylindrical (RZ) geometry of the coarse level at ratio `(2, 2)` over `rzFineGeom`: cell
sizes `(2, 2)`, the same lower corner. -/
def rzCoarseGeom : GeometryData ℚ := ⟨CoordSys.RZ, (2, 2), (0, 0)⟩

/-- The fine box `[2, 3] × [0, 1]`, the footprint of the coarse cell `(1, 0)` at ratio
`(2, 2)`. -/
def rzBlock : Box := ⟨⟨2, 0⟩, ⟨3, 1⟩⟩

/-- Fine data holding the value `c` in every cell and component, on `[2, 3] × [0, 1]`. -/
def constData (c : ℚ) : Array4 ℚ := ⟨fun _ _ _ _ => c, ⟨2, 0, 0⟩, ⟨3, 1, 0⟩⟩

/-! ## Generic facts about loops and writes -/

section LoopLemmas

variable {σ : Type}

/-- Loop invariant rule for `loopFrom`. -/
theorem loopFrom_inv (body : Int → σ → σ) (Inv : Int → σ → Prop) :
    ∀ (cnt : Nat) (i : Int) (s : σ), Inv i s →
      (∀ k s, i ≤ k → k < i + cnt → Inv k s → Inv (k + 1) (body k s)) →
      Inv (i + cnt) (loopFrom body cnt i s) := by
  intro cnt
  induction cnt with
  | zero => intro i s h _; simpa [loopFrom] using h
  | succ c ih =>
    intro i s h hstep
    have h1 : Inv (i + 1) (body i s) := hstep i s le_rfl (by push_cast; omega) h
    have := ih (i + 1) (body i s) h1
      (fun k s hk hk2 hI => hstep k s (by omega) (by push_cast; omega) hI)
    simp only [loopFrom]
    have e : i + ((c + 1 : Nat) : Int) = i + 1 + (c : Int) := by push_cast; ring
    rw [e]; exact this

/-- A property preserved by every iteration is preserved by the loop. -/
theorem forLe_preserves (lo hi : Int) (body : Int → σ → σ) (Q : σ → Prop)
    (hstep : ∀ k s, lo ≤ k → k ≤ hi → Q s → Q (body k s)) (s : σ) (h : Q s) :
    Q (forLe lo hi body s) := by
  unfold forLe
  exact loopFrom_inv body (fun _ s => Q s) _ lo s h
    (fun k s hk hk2 hq => hstep k s hk (by omega) hq)

/-- A loop over an empty range does nothing. -/
theorem forLe_empty (lo hi : Int) (body : Int → σ → σ) (s : σ) (h : hi < lo) :
    forLe lo hi body s = s := by
  unfold forLe
  have : (hi + 1 - lo).toNat = 0 := by omega
  rw [this]; rfl

/-- Peeling the first iteration off a non-empty loop. -/
theorem forLe_first (lo hi : Int) (body : Int → σ → σ) (s : σ) (h : lo ≤ hi) :
    forLe lo hi body s = forLe (lo + 1) hi body (body lo s) := by
  unfold forLe
  have : (hi + 1 - lo).toNat = (hi + 1 - (lo + 1)).toNat + 1 := by omega
  rw [this]; rfl

end LoopLemmas

section ArrayLemmas

variable {T : Type}

@[simp] theorem Array4.set_lo (a : Array4 T) (i j k n : Int) (v : T) :
    (a.set i j k n v).lo = a.lo := rfl

@[simp] theorem Array4.set_hi (a : Array4 T) (i j k n : Int) (v : T) :
    (a.set i j k n v).hi = a.hi := rfl

theorem Array4.set_dat (a : Array4 T) (i j k n : Int) (v : T) (i' j' k' n' : Int) :
    (a.set i j k n v).dat i' j' k' n' =
      if i' = i ∧ j' = j ∧ k' = k ∧ n' = n then v else a.dat i' j' k' n' := rfl

theorem Array4.set_dat_self (a : Array4 T) (i j k n : Int) (v : T) :
    (a.set i j k n v).dat i j k n = v := by
  simp [Array4.set_dat]

theorem Array4.set_dat_other (a : Array4 T) (i j k n : Int) (v : T) (i' j' k' n' : Int)
    (h : ¬ (i' = i ∧ j' = j ∧ k' = k ∧ n' = n)) :
    (a.set i j k n v).dat i' j' k' n' = a.dat i' j' k' n' := by
  simp [Array4.set_dat, h]

/-- A loop whose iterations update pairwise disjoint write sets updates their union. -/
theorem Upd.forLe {I : Array4 T → Prop} {body : Int → Array4 T → Array4 T}
    {W : Int → Int → Int → Int → Int → Prop} {g : Int → Int → Int → Int → T → T}
    (lo hi : Int)
    (hbody : ∀ q, lo ≤ q → q ≤ hi → Upd I (body q) (W q) g)
    (hdisj : ∀ q q' i j k n, lo ≤ q → q ≤ hi → lo ≤ q' → q' ≤ hi →
      W q i j k n → W q' i j k n → q = q') :
    Upd I (amrex.forLe lo hi body)
      (fun i j k n => ∃ q, lo ≤ q ∧ q ≤ hi ∧ W q i j k n) g := by
  intro s hs
  by_cases hle : lo ≤ hi
  swap
  · rw [forLe_empty lo hi body s (by omega)]
    refine ⟨hs, rfl, rfl, fun i j k n => ⟨?_, fun _ => rfl⟩⟩
    rintro ⟨q, h1, h2, _⟩; omega
  -- generalise the start of the range
  suffices H : ∀ (cnt : Nat) (a : Int) (s : Array4 T), lo ≤ a → a + cnt = hi + 1 → I s →
      I (loopFrom body cnt a s) ∧ (loopFrom body cnt a s).lo = s.lo ∧
      (loopFrom body cnt a s).hi = s.hi ∧
      ∀ i j k n, ((∃ q, a ≤ q ∧ q ≤ hi ∧ W q i j k n) →
          (loopFrom body cnt a s).dat i j k n = g i j k n (s.dat i j k n)) ∧
        ((¬ ∃ q, a ≤ q ∧ q ≤ hi ∧ W q i j k n) →
          (loopFrom body cnt a s).dat i j k n = s.dat i j k n) by
    have := H (hi + 1 - lo).toNat lo s le_rfl (by omega) hs
    exact this
  intro cnt
  induction cnt with
  | zero =>
    intro a s _ ha hs
    refine ⟨hs, rfl, rfl, fun i j k n => ⟨?_, fun _ => rfl⟩⟩
    rintro ⟨q, h1, h2, _⟩
    simp at ha; omega
  | succ c ih =>
    intro a s hla ha hs
    have hahi : a ≤ hi := by push_cast at ha; omega
    obtain ⟨hI1, hlo1, hhi1, hd1⟩ := hbody a hla hahi s hs
    obtain ⟨hI2, hlo2, hhi2, hd2⟩ := ih (a + 1) (body a s) (by omega)
      (by push_cast at ha; omega) hI1
    simp only [loopFrom]
    refine ⟨hI2, hlo2.trans hlo1, hhi2.trans hhi1, fun i j k n => ⟨?_, ?_⟩⟩
    · rintro ⟨q, hq1, hq2, hW⟩
      by_cases hqa : q = a
      · subst hqa
        have hno : ¬ ∃ q', q + 1 ≤ q' ∧ q' ≤ hi ∧ W q' i j k n := by
          rintro ⟨q', h1, h2, hW'⟩
          have := hdisj q q' i j k n hla hahi (by omega) h2 hW hW'
          omega
        rw [(hd2 i j k n).2 hno, (hd1 i j k n).1 hW]
      · have hnW : ¬ W a i j k n := fun hWa =>
          hqa (hdisj q a i j k n (by omega) hq2 hla hahi hW hWa)
        rw [(hd2 i j k n).1 ⟨q, by omega, hq2, hW⟩, (hd1 i j k n).2 hnW]
    · intro hno
      have hnW : ¬ W a i j k n := fun hWa => hno ⟨a, le_rfl, hahi, hWa⟩
      have hno2 : ¬ ∃ q', a + 1 ≤ q' ∧ q' ≤ hi ∧ W q' i j k n := by
        rintro ⟨q', h1, h2, hW'⟩
        exact hno ⟨q', by omega, h2, hW'⟩
      rw [(hd2 i j k n).2 hno2, (hd1 i j k n).2 hnW]

/-- A single write is an update of a one-point write set. -/
theorem Upd.set {I : Array4 T → Prop} (i j k n : Int) (v : Array4 T → T)
    (g : Int → Int → Int → Int → T → T)
    (hI : ∀ s, I s → I (s.set i j k n (v s)))
    (hv : ∀ s, I s → v s = g i j k n (s.dat i j k n)) :
    Upd I (fun s => s.set i j k n (v s))
      (fun i' j' k' n' => i' = i ∧ j' = j ∧ k' = k ∧ n' = n) g := by
  intro s hs
  refine ⟨hI s hs, rfl, rfl, fun i' j' k' n' => ⟨?_, ?_⟩⟩
  · rintro ⟨rfl, rfl, rfl, rfl⟩
    rw [Array4.set_dat_self, hv s hs]
  · intro h
    exact Array4.set_dat_other _ _ _ _ _ _ _ _ _ _ h

/-- Write sets and updates may be replaced by equivalent ones. -/
theorem Upd.congr {I : Array4 T → Prop} {f : Array4 T → Array4 T}
    {W W' : Int → Int → Int → Int → Prop} {g g' : Int → Int → Int → Int → T → T}
    (h : Upd I f W g) (hW : ∀ i j k n, W' i j k n ↔ W i j k n)
    (hg : ∀ i j k n x, W i j k n → g i j k n x = g' i j k n x) : Upd I f W' g' := by
  intro s hs
  obtain ⟨h1, h2, h3, h4⟩ := h s hs
  refine ⟨h1, h2, h3, fun i j k n => ⟨fun hw => ?_, fun hw => ?_⟩⟩
  · rw [(h4 i j k n).1 ((hW i j k n).1 hw), hg i j k n _ ((hW i j k n).1 hw)]
  · exact (h4 i j k n).2 (fun h' => hw ((hW i j k n).2 h'))

end ArrayLemmas

/-! ## Coarsening -/

theorem coarsen_eq_ediv (i r : Int) (hr : 0 < r) : coarsen i r = i / r :=
  Int.fdiv_eq_ediv i hr.le

/-- Coarsening is the floor of the exact quotient. -/
theorem coarsen_eq_floor (i r : Int) (hr : 0 < r) :
    coarsen i r = ⌊(i : ℚ) / (r : ℚ)⌋ := by
  rw [coarsen_eq_ediv i r hr]
  symm
  rw [Int.floor_eq_iff]
  have hr' : (0 : ℚ) < (r : ℚ) := by exact_mod_cast hr
  have h1 := Int.ediv_add_emod i r
  have h2 := Int.emod_nonneg i hr.ne'
  have h3 := Int.emod_lt_of_pos i hr
  have e : (i : ℚ) = (r : ℚ) * ((i / r : Int) : ℚ) + ((i % r : Int) : ℚ) := by
    exact_mod_cast h1.symm
  have h2' : (0 : ℚ) ≤ ((i % r : Int) : ℚ) := by exact_mod_cast h2
  have h3' : ((i % r : Int) : ℚ) < (r : ℚ) := by exact_mod_cast h3
  constructor
  · rw [le_div_iff₀ hr']
    nlinarith
  · rw [div_lt_iff₀ hr']
    nlinarith

/-- Every fine index of the footprint `[r*c, r*c + r - 1]` coarsens to `c`. -/
theorem coarsen_footprint (i r c : Int) (hr : 0 < r) (h1 : r * c ≤ i)
    (h2 : i ≤ r * c + r - 1) : coarsen i r = c := by
  rw [coarsen_eq_ediv i r hr]
  have := (Int.ediv_emod_unique (a := i) (r := i - r * c) (q := c) hr).2
    ⟨by ring, by omega, by omega⟩
  exact this.1

/-- The fine index splits into anchor and offset: `i = r * coarsen i r + (i mod r)`. -/
theorem coarsen_bounds (i r : Int) (hr : 0 < r) :
    r * coarsen i r ≤ i ∧ i < r * coarsen i r + r := by
  rw [coarsen_eq_ediv i r hr]
  have h1 := Int.ediv_add_emod i r
  have h2 := Int.emod_nonneg i hr.ne'
  have h3 := Int.emod_lt_of_pos i hr
  constructor <;> omega

/-! ## `pcinterp_interp` -/

section PC

variable {T : Type}

/-- Pointwise description of `pcinterp_interp`. -/
theorem pcinterp_interp_upd (bx : Box) (fcomp ncomp : Int) (crse : Array4 T) (ccomp : Int)
    (ratio : IntVect) :
    Upd (fun _ => True)
      (fun fine => pcinterp_interp bx fine fcomp ncomp crse ccomp ratio)
      (fun i j k m => ∃ n, 0 ≤ n ∧ n ≤ ncomp - 1 ∧ ∃ q, bx.smallEnd.y ≤ q ∧ q ≤ bx.bigEnd.y ∧
        ∃ p, bx.smallEnd.x ≤ p ∧ p ≤ bx.bigEnd.x ∧ i = p ∧ j = q ∧ k = 0 ∧ m = n + fcomp)
      (fun i j _ m _ => crse.dat (coarsen i ratio.x) (coarsen j ratio.y) 0 (m - fcomp + ccomp)) := by
  unfold pcinterp_interp forLt
  simp only [lbound, ubound]
  refine Upd.forLe 0 (ncomp - 1) (fun n _ _ => ?_) ?_
  · refine Upd.forLe _ _ (fun q _ _ => ?_) ?_
    · refine Upd.forLe _ _ (fun p _ _ => ?_) ?_
      · refine Upd.set p q 0 (n + fcomp) _ _ (fun _ _ => trivial) (fun _ _ => ?_)
        congr 1; ring
      · rintro p p' i j k m _ _ _ _ ⟨h1, _⟩ ⟨h2, _⟩; omega
    · rintro q q' i j k m _ _ _ _ ⟨_, _, _, _, h1, _⟩ ⟨_, _, _, _, h2, _⟩; omega
  · rintro n n' i j k m _ _ _ _ ⟨_, _, _, _, _, _, _, _, _, h1⟩ ⟨_, _, _, _, _, _, _, _, _, h2⟩
    omega

/-- Claim C1. `pcinterp_interp`: for ratio entries `≥ 1`, every fine index `(i, j)` of the
box (negative ones included) and every `n` in `[0, ncomp)`, the result holds
`crse(⌊i/rx⌋, ⌊j/ry⌋, n+ccomp)` at `(i, j, n+fcomp)`; consequently every fine cell of a
coarse cell's footprint `[rx*ic, rx*ic+rx-1] × [ry*jc, ry*jc+ry-1]` lying inside the box
holds `crse(ic, jc, n+ccomp)`. -/
theorem pcinterp_interp_exact (bx : Box) (fine : Array4 T) (fcomp ncomp : Int)
    (crse : Array4 T) (ccomp : Int) (ratio : IntVect)
    (hrx : 1 ≤ ratio.x) (hry : 1 ≤ ratio.y) :
    (∀ i j n : Int, bx.smallEnd.x ≤ i → i ≤ bx.bigEnd.x → bx.smallEnd.y ≤ j →
      j ≤ bx.bigEnd.y → 0 ≤ n → n < ncomp →
      (pcinterp_interp bx fine fcomp ncomp crse ccomp ratio).dat i j 0 (n + fcomp) =
        crse.dat ⌊(i : ℚ) / (ratio.x : ℚ)⌋ ⌊(j : ℚ) / (ratio.y : ℚ)⌋ 0 (n + ccomp)) ∧
    (∀ ic jc n : Int, bx.smallEnd.x ≤ ratio.x * ic → ratio.x * ic + ratio.x - 1 ≤ bx.bigEnd.x →
      bx.smallEnd.y ≤ ratio.y * jc → ratio.y * jc + ratio.y - 1 ≤ bx.bigEnd.y →
      0 ≤ n → n < ncomp →
      ∀ i j : Int, ratio.x * ic ≤ i → i ≤ ratio.x * ic + ratio.x - 1 →
        ratio.y * jc ≤ j → j ≤ ratio.y * jc + ratio.y - 1 →
        (pcinterp_interp bx fine fcomp ncomp crse ccomp ratio).dat i j 0 (n + fcomp) =
          crse.dat ic jc 0 (n + ccomp)) := by
  have key : ∀ i j n : Int, bx.smallEnd.x ≤ i → i ≤ bx.bigEnd.x → bx.smallEnd.y ≤ j →
      j ≤ bx.bigEnd.y → 0 ≤ n → n < ncomp →
      (pcinterp_interp bx fine fcomp ncomp crse ccomp ratio).dat i j 0 (n + fcomp) =
        crse.dat (coarsen i ratio.x) (coarsen j ratio.y) 0 (n + ccomp) := by
    intro i j n h1 h2 h3 h4 h5 h6
    have h := ((pcinterp_interp_upd bx fcomp ncomp crse ccomp ratio fine trivial).2.2.2
      i j 0 (n + fcomp)).1 ⟨n, h5, by omega, j, h3, h4, i, h1, h2, rfl, rfl, rfl, rfl⟩
    rw [h]; simp
  refine ⟨fun i j n h1 h2 h3 h4 h5 h6 => ?_, fun ic jc n a1 a2 a3 a4 h5 h6 i j b1 b2 b3 b4 => ?_⟩
  · rw [key i j n h1 h2 h3 h4 h5 h6, coarsen_eq_floor i _ (by omega),
      coarsen_eq_floor j _ (by omega)]
  · rw [key i j n (by omega) (by omega) (by omega) (by omega) h5 h6,
      coarsen_footprint i _ ic (by omega) b1 b2, coarsen_footprint j _ jc (by omega) b3 b4]

/-- Witness for C1: the fine box `[-2, 1] × [-2, 1]`, ratio `(2, 2)`, coarse data
`I + 10 J`, at the fine cell `(-1, 1)`, which lies in the footprint of the coarse cell
`(-1, 0)`. -/
theorem pcinterp_interp_exact_witness :
    (pcinterp_interp ⟨⟨-2, -2⟩, ⟨1, 1⟩⟩ (zeroArray4 ⟨-2, -2, 0⟩ ⟨1, 1, 0⟩) 0 1
        ⟨fun I J _ _ => (I : ℚ) + 10 * (J : ℚ), ⟨-1, -1, 0⟩, ⟨0, 0, 0⟩⟩ 0 ⟨2, 2⟩).dat
        (-1) 1 0 (0 + 0) =
      (⟨fun I J _ _ => (I : ℚ) + 10 * (J : ℚ), ⟨-1, -1, 0⟩, ⟨0, 0, 0⟩⟩ : Array4 ℚ).dat
        ⌊((-1 : Int) : ℚ) / (((⟨2, 2⟩ : IntVect).x : Int) : ℚ)⌋
        ⌊((1 : Int) : ℚ) / (((⟨2, 2⟩ : IntVect).y : Int) : ℚ)⌋ 0 (0 + 0) ∧
    (pcinterp_interp ⟨⟨-2, -2⟩, ⟨1, 1⟩⟩ (zeroArray4 ⟨-2, -2, 0⟩ ⟨1, 1, 0⟩) 0 1
        ⟨fun I J _ _ => (I : ℚ) + 10 * (J : ℚ), ⟨-1, -1, 0⟩, ⟨0, 0, 0⟩⟩ 0 ⟨2, 2⟩).dat
        (-1) 1 0 (0 + 0) =
      (⟨fun I J _ _ => (I : ℚ) + 10 * (J : ℚ), ⟨-1, -1, 0⟩, ⟨0, 0, 0⟩⟩ : Array4 ℚ).dat
        (-1) 0 0 (0 + 0) :=
  ⟨(pcinterp_interp_exact ⟨⟨-2, -2⟩, ⟨1, 1⟩⟩ (zeroArray4 ⟨-2, -2, 0⟩ ⟨1, 1, 0⟩) 0 1
      ⟨fun I J _ _ => (I : ℚ) + 10 * (J : ℚ), ⟨-1, -1, 0⟩, ⟨0, 0, 0⟩⟩ 0 ⟨2, 2⟩
      (by decide) (by decide)).1 (-1) 1 0
      (by decide) (by decide) (by decide) (by decide) (by decide) (by decide),
   (pcinterp_interp_exact ⟨⟨-2, -2⟩, ⟨1, 1⟩⟩ (zeroArray4 ⟨-2, -2, 0⟩ ⟨1, 1, 0⟩) 0 1
      ⟨fun I J _ _ => (I : ℚ) + 10 * (J : ℚ), ⟨-1, -1, 0⟩, ⟨0, 0, 0⟩⟩ 0 ⟨2, 2⟩
      (by decide) (by decide)).2 (-1) 0 0
      (by decide) (by decide) (by decide) (by decide) (by decide) (by decide)
      (-1) 1 (by decide) (by decide) (by decide) (by decide)⟩

end PC

/-! ## Bilinear nodal interpolation -/

section Bilinear

variable {K : Type} [LinearOrderedField K]

/-- Pointwise description of `nodebilin_slopes`. -/
theorem nodebilin_slopes_upd (bx : Box) (u : Array4 K) (icomp ncomp : Int) (ratio : IntVect) :
    Upd (fun _ => True)
      (fun slope => nodebilin_slopes bx slope u icomp ncomp ratio)
      (fun i j k m => ∃ n, 0 ≤ n ∧ n ≤ ncomp - 1 ∧ ∃ q, bx.smallEnd.y ≤ q ∧ q ≤ bx.bigEnd.y ∧
        ∃ p, bx.smallEnd.x ≤ p ∧ p ≤ bx.bigEnd.x ∧ i = p ∧ j = q ∧ k = 0 ∧
          (m = n ∨ m = n + ncomp ∨ m = n + 2 * ncomp))
      (fun i j _ m _ => slopeValue u icomp ncomp ratio i j m) := by
  unfold nodebilin_slopes forLt
  simp only [lbound, ubound]
  refine Upd.forLe 0 (ncomp - 1) (fun n hn0 hn1 => ?_) ?_
  · refine Upd.forLe _ _ (fun q _ _ => ?_) ?_
    · refine Upd.forLe _ _ (fun p _ _ => ?_) ?_
      · intro s _
        refine ⟨trivial, rfl, rfl, fun i j k m => ⟨?_, ?_⟩⟩
        · rintro ⟨rfl, rfl, rfl, h | h | h⟩ <;> rw [h]
          · have e1 : ¬ (n = n + ncomp * 2) := by omega
            have e2 : ¬ (n = n + ncomp * 1) := by omega
            have e3 : n < ncomp := by omega
            simp only [ix, iy, ixy, Array4.set_dat, slopeValue, e1, e2, e3, and_false, and_true,
              if_false, if_true, mul_zero, add_zero, true_and]
          · have e1 : ¬ (n + ncomp = n + ncomp * 2) := by omega
            have e2 : n + ncomp * 1 = n + ncomp := by omega
            have e3 : ¬ (n + ncomp < ncomp) := by omega
            have e4 : n + ncomp < 2 * ncomp := by omega
            have e5 : n + ncomp - ncomp = n := by omega
            simp only [ix, iy, ixy, Array4.set_dat, slopeValue, e1, e2, e3, e4, e5, and_false,
              and_true, if_false, if_true, true_and]
          · have e1 : n + ncomp * 2 = n + 2 * ncomp := by omega
            have e3 : ¬ (n + 2 * ncomp < ncomp) := by omega
            have e4 : ¬ (n + 2 * ncomp < 2 * ncomp) := by omega
            have e5 : n + 2 * ncomp - 2 * ncomp = n := by omega
            simp only [ix, iy, ixy, Array4.set_dat, slopeValue, e1, e3, e4, e5, and_true,
              if_false, if_true, true_and]
        · intro h
          have e1 : ¬ (i = p ∧ j = q ∧ k = 0 ∧ m = n + ncomp * ixy) := by
            rintro ⟨h1, h2, h3, h4⟩
            exact h ⟨h1, h2, h3, Or.inr (Or.inr (by simp only [ixy] at h4; omega))⟩
          have e2 : ¬ (i = p ∧ j = q ∧ k = 0 ∧ m = n + ncomp * iy) := by
            rintro ⟨h1, h2, h3, h4⟩
            exact h ⟨h1, h2, h3, Or.inr (Or.inl (by simp only [iy] at h4; omega))⟩
          have e3 : ¬ (i = p ∧ j = q ∧ k = 0 ∧ m = n + ncomp * ix) := by
            rintro ⟨h1, h2, h3, h4⟩
            exact h ⟨h1, h2, h3, Or.inl (by simp only [ix] at h4; omega)⟩
          simp only [Array4.set_dat, e1, e2, e3, if_false]
      · rintro p p' i j k m _ _ _ _ ⟨h1, _⟩ ⟨h2, _⟩; omega
    · rintro q q' i j k m _ _ _ _ ⟨_, _, _, _, h1, _⟩ ⟨_, _, _, _, h2, _⟩; omega
  · rintro n n' i j k m h1 h2 h3 h4 ⟨_, _, _, _, _, _, _, _, _, h5⟩
      ⟨_, _, _, _, _, _, _, _, _, h6⟩
    omega

/-- Pointwise description of `nodebilin_interp`. -/
theorem nodebilin_interp_upd (bx : Box) (fcomp ncomp : Int) (slope crse : Array4 K)
    (ccomp : Int) (ratio : IntVect) :
    Upd (fun _ => True)
      (fun fine => nodebilin_interp bx fine fcomp ncomp slope crse ccomp ratio)
      (fun i j k m => ∃ n, 0 ≤ n ∧ n ≤ ncomp - 1 ∧ ∃ q, bx.smallEnd.y ≤ q ∧ q ≤ bx.bigEnd.y ∧
        ∃ p, bx.smallEnd.x ≤ p ∧ p ≤ bx.bigEnd.x ∧ i = p ∧ j = q ∧ k = 0 ∧ m = n + fcomp)
      (fun i j _ m _ =>
        crse.dat (min (coarsen i ratio.x) slope.hi.x) (min (coarsen j ratio.y) slope.hi.y) 0
            (m - fcomp + ccomp)
          + ((i - min (coarsen i ratio.x) slope.hi.x * ratio.x : Int) : K) *
            slope.dat (min (coarsen i ratio.x) slope.hi.x) (min (coarsen j ratio.y) slope.hi.y) 0
              (m - fcomp + ncomp * ix)
          + ((j - min (coarsen j ratio.y) slope.hi.y * ratio.y : Int) : K) *
            slope.dat (min (coarsen i ratio.x) slope.hi.x) (min (coarsen j ratio.y) slope.hi.y) 0
              (m - fcomp + ncomp * iy)
          + ((i - min (coarsen i ratio.x) slope.hi.x * ratio.x : Int) : K) *
            ((j - min (coarsen j ratio.y) slope.hi.y * ratio.y : Int) : K) *
            slope.dat (min (coarsen i ratio.x) slope.hi.x) (min (coarsen j ratio.y) slope.hi.y) 0
              (m - fcomp + ncomp * ixy)) := by
  unfold nodebilin_interp forLt
  simp only [lbound, ubound, Array4.ubound]
  refine Upd.forLe 0 (ncomp - 1) (fun n _ _ => ?_) ?_
  · refine Upd.forLe _ _ (fun q _ _ => ?_) ?_
    · refine Upd.forLe _ _ (fun p _ _ => ?_) ?_
      · refine Upd.set p q 0 (n + fcomp) _ _ (fun _ _ => trivial) (fun _ _ => ?_)
        simp
      · rintro p p' i j k m _ _ _ _ ⟨h1, _⟩ ⟨h2, _⟩; omega
    · rintro q q' i j k m _ _ _ _ ⟨_, _, _, _, h1, _⟩ ⟨_, _, _, _, h2, _⟩; omega
  · rintro n n' i j k m _ _ _ _ ⟨_, _, _, _, _, _, _, _, _, h1⟩ ⟨_, _, _, _, _, _, _, _, _, h2⟩
    omega

/-- The three slopes stored by `nodebilin_slopes` at a node of its box. -/
theorem nodebilin_slopes_values (bx : Box) (slope u : Array4 K) (icomp ncomp : Int)
    (ratio : IntVect) (n : Int) (hn0 : 0 ≤ n) (hn1 : n < ncomp) (i j : Int)
    (hi0 : bx.smallEnd.x ≤ i) (hi1 : i ≤ bx.bigEnd.x)
    (hj0 : bx.smallEnd.y ≤ j) (hj1 : j ≤ bx.bigEnd.y) :
    (nodebilin_slopes bx slope u icomp ncomp ratio).dat i j 0 (n + ncomp * ix) =
        1 / (ratio.x : K) * (u.dat (i + 1) j 0 (n + icomp) - u.dat i j 0 (n + icomp)) ∧
    (nodebilin_slopes bx slope u icomp ncomp ratio).dat i j 0 (n + ncomp * iy) =
        1 / (ratio.y : K) * (u.dat i (j + 1) 0 (n + icomp) - u.dat i j 0 (n + icomp)) ∧
    (nodebilin_slopes bx slope u icomp ncomp ratio).dat i j 0 (n + ncomp * ixy) =
        1 / (ratio.x : K) * (1 / (ratio.y : K)) *
          ((u.dat (i + 1) (j + 1) 0 (n + icomp) - u.dat i (j + 1) 0 (n + icomp))
            - (u.dat (i + 1) j 0 (n + icomp) - u.dat i j 0 (n + icomp))) := by
  have hd := (nodebilin_slopes_upd bx u icomp ncomp ratio slope trivial).2.2.2
  have e0 : n + ncomp * ix = n := by simp [ix]
  have e1 : n + ncomp * iy = n + ncomp := by simp [iy]
  have e2 : n + ncomp * ixy = n + 2 * ncomp := by simp only [ixy]; ring
  rw [e0, e1, e2]
  refine ⟨?_, ?_, ?_⟩
  · rw [(hd i j 0 n).1 ⟨n, hn0, by omega, j, hj0, hj1, i, hi0, hi1, rfl, rfl, rfl, Or.inl rfl⟩]
    simp only [slopeValue, hn1, if_true]
  · rw [(hd i j 0 (n + ncomp)).1
      ⟨n, hn0, by omega, j, hj0, hj1, i, hi0, hi1, rfl, rfl, rfl, Or.inr (Or.inl rfl)⟩]
    have e3 : ¬ (n + ncomp < ncomp) := by omega
    have e4 : n + ncomp < 2 * ncomp := by omega
    have e5 : n + ncomp - ncomp = n := by omega
    simp only [slopeValue, e3, e4, e5, if_true, if_false]
  · rw [(hd i j 0 (n + 2 * ncomp)).1
      ⟨n, hn0, by omega, j, hj0, hj1, i, hi0, hi1, rfl, rfl, rfl, Or.inr (Or.inr rfl)⟩]
    have e3 : ¬ (n + 2 * ncomp < ncomp) := by omega
    have e4 : ¬ (n + 2 * ncomp < 2 * ncomp) := by omega
    have e5 : n + 2 * ncomp - 2 * ncomp = n := by omega
    simp only [slopeValue, e3, e4, e5, if_false]

/-- The slope pass keeps the bounds of the slope buffer. -/
theorem nodebilin_slopes_hi (bx : Box) (slope u : Array4 K) (icomp ncomp : Int)
    (ratio : IntVect) : (nodebilin_slopes bx slope u icomp ncomp ratio).hi = slope.hi :=
  (nodebilin_slopes_upd bx u icomp ncomp ratio slope trivial).2.2.1

/-- The value `nodebilin_interp` writes at a fine node of its box. -/
theorem nodebilin_interp_value (bx : Box) (fine : Array4 K) (fcomp ncomp : Int)
    (slope crse : Array4 K) (ccomp : Int) (ratio : IntVect) (n : Int) (hn0 : 0 ≤ n)
    (hn1 : n < ncomp) (i j : Int)
    (hi0 : bx.smallEnd.x ≤ i) (hi1 : i ≤ bx.bigEnd.x)
    (hj0 : bx.smallEnd.y ≤ j) (hj1 : j ≤ bx.bigEnd.y) :
    (nodebilin_interp bx fine fcomp ncomp slope crse ccomp ratio).dat i j 0 (n + fcomp) =
      crse.dat (min (coarsen i ratio.x) slope.hi.x) (min (coarsen j ratio.y) slope.hi.y) 0
          (n + ccomp)
        + ((i - min (coarsen i ratio.x) slope.hi.x * ratio.x : Int) : K) *
          slope.dat (min (coarsen i ratio.x) slope.hi.x) (min (coarsen j ratio.y) slope.hi.y) 0
            (n + ncomp * ix)
        + ((j - min (coarsen j ratio.y) slope.hi.y * ratio.y : Int) : K) *
          slope.dat (min (coarsen i ratio.x) slope.hi.x) (min (coarsen j ratio.y) slope.hi.y) 0
            (n + ncomp * iy)
        + ((i - min (coarsen i ratio.x) slope.hi.x * ratio.x : Int) : K) *
          ((j - min (coarsen j ratio.y) slope.hi.y * ratio.y : Int) : K) *
          slope.dat (min (coarsen i ratio.x) slope.hi.x) (min (coarsen j ratio.y) slope.hi.y) 0
            (n + ncomp * ixy) := by
  have hd := (nodebilin_interp_upd bx fcomp ncomp slope crse ccomp ratio fine trivial).2.2.2
  rw [(hd i j 0 (n + fcomp)).1 ⟨n, hn0, by omega, j, hj0, hj1, i, hi0, hi1, rfl, rfl, rfl, rfl⟩]
  have e : n + fcomp - fcomp = n := by omega
  simp only [e]

/-- Claim C2. Bilinear exactness: if the coarse node data of a component is
`u(I, J) = a + b*I + c*J + d*I*J`, `nodebilin_slopes` fills the whole slope buffer (box `sbx`) from
`u`, and `nodebilin_interp` is then run with `crse = u` over a fine box, then at every
fine node `(i, j)` of the box whose anchor (clamped to the slope buffer's upper bound or
not) is not below the slope buffer's lower bound, the result is
`a + b*(i/rx) + c*(j/ry) + d*(i/rx)*(j/ry)`, for ratio entries `rx, ry ≥ 1`. -/
theorem nodebilin_exact (sbx bx : Box) (slope fine u : Array4 K) (icomp fcomp ncomp : Int)
    (ratio : IntVect) (a b c d : K) (hrx : 1 ≤ ratio.x) (hry : 1 ≤ ratio.y)
    (hsx0 : sbx.smallEnd.x = slope.lo.x) (hsy0 : sbx.smallEnd.y = slope.lo.y)
    (hsx1 : sbx.bigEnd.x = slope.hi.x) (hsy1 : sbx.bigEnd.y = slope.hi.y)
    (n : Int) (hn0 : 0 ≤ n) (hn1 : n < ncomp)
    (hu : ∀ I J : Int, u.dat I J 0 (n + icomp) = a + b * I + c * J + d * I * J)
    (i j : Int) (hi0 : bx.smallEnd.x ≤ i) (hi1 : i ≤ bx.bigEnd.x)
    (hj0 : bx.smallEnd.y ≤ j) (hj1 : j ≤ bx.bigEnd.y)
    (hax : slope.lo.x ≤ min (coarsen i ratio.x) slope.hi.x)
    (hay : slope.lo.y ≤ min (coarsen j ratio.y) slope.hi.y) :
    (nodebilin_interp bx fine fcomp ncomp (nodebilin_slopes sbx slope u icomp ncomp ratio)
        u icomp ratio).dat i j 0 (n + fcomp) =
      a + b * ((i : K) / (ratio.x : K)) + c * ((j : K) / (ratio.y : K))
        + d * ((i : K) / (ratio.x : K)) * ((j : K) / (ratio.y : K)) := by
  rw [nodebilin_interp_value bx fine fcomp ncomp _ u icomp ratio n hn0 hn1 i j hi0 hi1 hj0 hj1,
    nodebilin_slopes_hi]
  obtain ⟨s1, s2, s3⟩ := nodebilin_slopes_values sbx slope u icomp ncomp ratio n hn0 hn1
    (min (coarsen i ratio.x) slope.hi.x) (min (coarsen j ratio.y) slope.hi.y)
    (by rw [hsx0]; exact hax) (by rw [hsx1]; exact min_le_right _ _)
    (by rw [hsy0]; exact hay) (by rw [hsy1]; exact min_le_right _ _)
  rw [s1, s2, s3]
  simp only [hu]
  have hx : (ratio.x : K) ≠ 0 := by
    have : (0 : K) < (ratio.x : K) := by exact_mod_cast (by omega : (0 : Int) < ratio.x)
    exact this.ne'
  have hy : (ratio.y : K) ≠ 0 := by
    have : (0 : K) < (ratio.y : K) := by exact_mod_cast (by omega : (0 : Int) < ratio.y)
    exact this.ne'
  push_cast
  field_simp
  ring

/-- Witness for C2: `u(I, J) = 1 + 2 I + 3 J + 4 I J`, ratio `(2, 2)`, slope buffer
`[0, 1] × [0, 1]`, at the fine node `(4, 1)`, whose anchor is clamped. -/
theorem nodebilin_exact_witness :
    (nodebilin_interp ⟨⟨0, 0⟩, ⟨4, 4⟩⟩ (zeroArray4 ⟨0, 0, 0⟩ ⟨4, 4, 0⟩) 0 1
        (nodebilin_slopes ⟨⟨0, 0⟩, ⟨1, 1⟩⟩ (zeroArray4 ⟨0, 0, 0⟩ ⟨1, 1, 0⟩) bilinearSample
          0 1 ⟨2, 2⟩)
        bilinearSample 0 ⟨2, 2⟩).dat 4 1 0 (0 + 0) =
      1 + 2 * (((4 : Int) : ℚ) / ((2 : Int) : ℚ)) + 3 * (((1 : Int) : ℚ) / ((2 : Int) : ℚ))
        + 4 * (((4 : Int) : ℚ) / ((2 : Int) : ℚ)) * (((1 : Int) : ℚ) / ((2 : Int) : ℚ)) :=
  nodebilin_exact ⟨⟨0, 0⟩, ⟨1, 1⟩⟩ ⟨⟨0, 0⟩, ⟨4, 4⟩⟩ (zeroArray4 ⟨0, 0, 0⟩ ⟨1, 1, 0⟩)
    (zeroArray4 ⟨0, 0, 0⟩ ⟨4, 4, 0⟩) bilinearSample
    0 0 1 ⟨2, 2⟩ 1 2 3 4 (by decide) (by decide) rfl rfl rfl rfl 0 (by decide) (by decide)
    (fun _ _ => rfl) 4 1 (by decide) (by decide) (by decide) (by decide)
    (by decide) (by decide)

end Bilinear

/-! ## Quartic cell interpolation -/

section Quartic

variable {K : Type} [LinearOrderedField K]

/-- The scratch buffer holds one stencil pass along `y` for each of the five columns. -/
theorem ccquartic_ctmp_eq (ic jc jry n : Int) (crse : Array4 K) (ii : Int)
    (h0 : -2 ≤ ii) (h1 : ii ≤ 2) :
    ccquartic_ctmp ic jc jry n crse ii =
      quarticLine (fun l => crse.dat (ic + ii) (jc + l) 0 n) (jry ≠ 0) := by
  have hcases : ii = -2 ∨ ii = -1 ∨ ii = 0 ∨ ii = 1 ∨ ii = 2 := by omega
  have e : ((2 : Int) + 1 - (-2)).toNat = 5 := by decide
  unfold ccquartic_ctmp forLe
  rw [e]
  simp only [loopFrom, quarticLine]
  by_cases hj : jry = 0
  · rcases hcases with rfl | rfl | rfl | rfl | rfl <;>
      simp [Function.update, sub_eq_add_neg, hj]
  · rcases hcases with rfl | rfl | rfl | rfl | rfl <;>
      simp [Function.update, sub_eq_add_neg, hj]

/-- The value written by `ccquartic_interp`: a stencil pass along `y` on each of
five columns followed by a stencil pass along `x`. -/
theorem ccquartic_interp_eq (i j k n : Int) (crse fine : Array4 K) :
    (ccquartic_interp i j k n crse fine).dat i j 0 n =
      quarticLine (fun m =>
        quarticLine (fun l => crse.dat (coarsen i 2 + m) (coarsen j 2 + l) 0 n)
          (j - 2 * coarsen j 2 ≠ 0)) (i - 2 * coarsen i 2 ≠ 0) := by
  unfold ccquartic_interp
  simp only [Array4.set_dat_self]
  rw [ccquartic_ctmp_eq _ _ _ _ _ (-2) (by decide) (by decide),
    ccquartic_ctmp_eq _ _ _ _ _ (-1) (by decide) (by decide),
    ccquartic_ctmp_eq _ _ _ _ _ 0 (by decide) (by decide),
    ccquartic_ctmp_eq _ _ _ _ _ 1 (by decide) (by decide),
    ccquartic_ctmp_eq _ _ _ _ _ 2 (by decide) (by decide)]
  unfold quarticLine
  split_ifs <;> rfl

/-- A fine index is twice its coarsened index, or one more. -/
theorem coarsen_two_cases (i : Int) : i = 2 * coarsen i 2 ∨ i = 2 * coarsen i 2 + 1 := by
  have := coarsen_bounds i 2 (by decide)
  omega

theorem quarticLine_add (f g : Int → K) (odd : Prop) [Decidable odd] :
    quarticLine (fun m => f m + g m) odd = quarticLine f odd + quarticLine g odd := by
  unfold quarticLine; split_ifs <;> ring

theorem quarticLine_smul (c : K) (f : Int → K) (odd : Prop) [Decidable odd] :
    quarticLine (fun m => c * f m) odd = c * quarticLine f odd := by
  unfold quarticLine; split_ifs <;> ring

theorem quarticLine_zero (odd : Prop) [Decidable odd] :
    quarticLine (fun _ => (0 : K)) odd = 0 := by
  unfold quarticLine; split_ifs <;> ring

theorem quarticLine_sum {ι : Type} (s : Finset ι) (f : ι → Int → K) (odd : Prop)
    [Decidable odd] :
    quarticLine (fun m => ∑ k in s, f k m) odd = ∑ k in s, quarticLine (f k) odd := by
  classical
  induction s using Finset.induction_on with
  | empty => simp [quarticLine_zero]
  | insert hk ih =>
    simp only [Finset.sum_insert hk]
    rw [quarticLine_add, ih]

/-- One stencil pass maps the means of `x^k` (`k ≤ 4`) over five consecutive coarse cells
to the mean of `x^k` over the fine half cell. -/
theorem quarticLine_monoMean (k : Nat) (hk : k ≤ 4) (c i : Int)
    (hi : i = 2 * c ∨ i = 2 * c + 1) :
    quarticLine (fun m => monoMean k ((c + m : Int) : K) (((c + m : Int) : K) + 1))
        (i - 2 * c ≠ 0) =
      monoMean k ((i : K) / 2) (((i : K) + 1) / 2) := by
  have e1 : ∀ x : K, x + 1 - x = 1 := fun x => by ring
  have e2 : ∀ x : K, (x + 1) / 2 - x / 2 = 1 / 2 := fun x => by ring
  rcases hi with rfl | rfl
  · have h0 : ¬ ((2 * c - 2 * c : Int) ≠ 0) := by simp
    simp only [quarticLine, h0, if_false, monoMean, e1, e2, cL]
    interval_cases k <;> · norm_num; ring
  · have h0 : ((2 * c + 1 - 2 * c : Int) ≠ 0) := by simp
    simp only [quarticLine, h0, if_true, monoMean, e1, e2, cL]
    interval_cases k <;> · norm_num; ring

/-- One stencil pass maps centre samples of an affine function on five consecutive
coarse cells to its value at the fine cell centre. -/
theorem quarticLine_affine (α β : K) (c i : Int) (hi : i = 2 * c ∨ i = 2 * c + 1) :
    quarticLine (fun m => α + β * (((c + m : Int) : K) + 1 / 2)) (i - 2 * c ≠ 0) =
      α + β * (((i : K) + 1 / 2) / 2) := by
  rcases hi with rfl | rfl
  · have h0 : ¬ ((2 * c - 2 * c : Int) ≠ 0) := by simp
    simp only [quarticLine, h0, if_false, cL]
    norm_num; ring
  · have h0 : ((2 * c + 1 - 2 * c : Int) ≠ 0) := by simp
    simp only [quarticLine, h0, if_true, cL]
    norm_num; ring

/-- Claim C4. Quartic exactness for cell averages: if `crse(I, J)` is the mean of a
polynomial of degree at most 4 in each variable over the coarse cell
`[I, I+1] × [J, J+1]`, then `ccquartic_interp` writes at every fine index `(i, j)`
(negative ones included) the mean of the polynomial over the fine cell
`[i/2, (i+1)/2] × [j/2, (j+1)/2]`. -/
theorem ccquartic_interp_exact_means (a : Fin 5 → Fin 5 → K) (crse fine : Array4 K)
    (i j k n : Int)
    (hcrse : ∀ I J : Int, crse.dat I J 0 n = polyMean a (I : K) ((I : K) + 1) (J : K) ((J : K) + 1)) :
    (ccquartic_interp i j k n crse fine).dat i j 0 n =
      polyMean a ((i : K) / 2) (((i : K) + 1) / 2) ((j : K) / 2) (((j : K) + 1) / 2) := by
  rw [ccquartic_interp_eq]
  simp only [hcrse, polyMean]
  have inner : ∀ m : Int,
      quarticLine (fun l : Int => ∑ p : Fin 5, ∑ q : Fin 5,
          a p q * monoMean (p : Nat) ((coarsen i 2 + m : Int) : K) (((coarsen i 2 + m : Int) : K) + 1)
            * monoMean (q : Nat) ((coarsen j 2 + l : Int) : K) (((coarsen j 2 + l : Int) : K) + 1))
          (j - 2 * coarsen j 2 ≠ 0) =
        ∑ p : Fin 5, ∑ q : Fin 5,
          a p q * monoMean (q : Nat) ((j : K) / 2) (((j : K) + 1) / 2)
            * monoMean (p : Nat) ((coarsen i 2 + m : Int) : K) (((coarsen i 2 + m : Int) : K) + 1) := by
    intro m
    rw [quarticLine_sum]
    refine Finset.sum_congr rfl (fun p _ => ?_)
    rw [quarticLine_sum]
    refine Finset.sum_congr rfl (fun q _ => ?_)
    rw [quarticLine_smul, quarticLine_monoMean (q : Nat) (by omega) _ j (coarsen_two_cases j)]
    ring
  simp only [inner]
  rw [quarticLine_sum]
  refine Finset.sum_congr rfl (fun p _ => ?_)
  rw [quarticLine_sum]
  refine Finset.sum_congr rfl (fun q _ => ?_)
  rw [quarticLine_smul, quarticLine_monoMean (p : Nat) (by omega) _ i (coarsen_two_cases i)]
  ring

/-- Witness for C4: the cell means of `x^2`, at the fine index `(-3, 1)`. -/
theorem ccquartic_interp_exact_means_witness :
    (ccquartic_interp (-3) 1 0 0
        (⟨fun I J _ _ => polyMean squareCoeff (I : ℚ) ((I : ℚ) + 1) (J : ℚ) ((J : ℚ) + 1),
          ⟨-4, -4, 0⟩, ⟨4, 4, 0⟩⟩)
        (zeroArray4 ⟨-4, -4, 0⟩ ⟨4, 4, 0⟩)).dat (-3) 1 0 0 =
      polyMean squareCoeff (((-3 : Int) : ℚ) / 2) ((((-3 : Int) : ℚ) + 1) / 2)
        (((1 : Int) : ℚ) / 2) ((((1 : Int) : ℚ) + 1) / 2) :=
  ccquartic_interp_exact_means squareCoeff
    ⟨fun I J _ _ => polyMean squareCoeff (I : ℚ) ((I : ℚ) + 1) (J : ℚ) ((J : ℚ) + 1),
      ⟨-4, -4, 0⟩, ⟨4, 4, 0⟩⟩
    (zeroArray4 ⟨-4, -4, 0⟩ ⟨4, 4, 0⟩) (-3) 1 0 0 (fun _ _ => rfl)

/-- Claim C3. (as stated, refuted) Sampling `x^2` at the coarse cell centres, the value
`ccquartic_interp` writes at the fine index `(0, 0)` is `0`, not the value `1/16` of
`x^2` at the fine cell centre `1/4`: the operator does not reproduce sampled values of
every polynomial of degree at most 4. -/
theorem ccquartic_interp_samples_not_exact :
    ¬ ∀ (a : Fin 5 → Fin 5 → ℚ) (crse fine : Array4 ℚ) (i j k n : Int),
      (∀ I J : Int, crse.dat I J 0 n = poly2 a ((I : ℚ) + 1 / 2) ((J : ℚ) + 1 / 2)) →
      (ccquartic_interp i j k n crse fine).dat i j 0 n =
        poly2 a (((i : ℚ) + 1 / 2) / 2) (((j : ℚ) + 1 / 2) / 2) := by
  intro h
  have h1 := h squareCoeff squareSample (zeroArray4 ⟨0, 0, 0⟩ ⟨1, 1, 0⟩) 0 0 0 0
    (by intro I J; simp [squareSample, poly2, squareCoeff, Fin.sum_univ_five])
  rw [ccquartic_interp_eq] at h1
  have e : coarsen 0 2 = 0 := by decide
  rw [e] at h1
  simp [quarticLine, cL, squareSample, poly2, squareCoeff, Fin.sum_univ_five] at h1
  norm_num at h1

/-- Claim C3. (amended) Exactness for sampled values holds for polynomials of degree at most
1 in each variable: if `crse(I, J) = p(I + 1/2, J + 1/2)` with
`p(x, y) = a + b x + c y + d x y`, then `ccquartic_interp` writes at every fine index
`(i, j)` (negative ones included) the value `p((i + 1/2)/2, (j + 1/2)/2)`. -/
theorem ccquartic_interp_exact_samples_bilinear (a b c d : K) (crse fine : Array4 K)
    (i j k n : Int)
    (hcrse : ∀ I J : Int, crse.dat I J 0 n =
      a + b * ((I : K) + 1 / 2) + c * ((J : K) + 1 / 2)
        + d * ((I : K) + 1 / 2) * ((J : K) + 1 / 2)) :
    (ccquartic_interp i j k n crse fine).dat i j 0 n =
      a + b * (((i : K) + 1 / 2) / 2) + c * (((j : K) + 1 / 2) / 2)
        + d * (((i : K) + 1 / 2) / 2) * (((j : K) + 1 / 2) / 2) := by
  rw [ccquartic_interp_eq]
  simp only [hcrse]
  have inner : ∀ m : Int,
      quarticLine (fun l : Int =>
          a + b * (((coarsen i 2 + m : Int) : K) + 1 / 2) + c * (((coarsen j 2 + l : Int) : K) + 1 / 2)
            + d * (((coarsen i 2 + m : Int) : K) + 1 / 2) * (((coarsen j 2 + l : Int) : K) + 1 / 2))
          (j - 2 * coarsen j 2 ≠ 0) =
        (a + c * (((j : K) + 1 / 2) / 2))
          + (b + d * (((j : K) + 1 / 2) / 2)) * (((coarsen i 2 + m : Int) : K) + 1 / 2) := by
    intro m
    have e : (fun l : Int =>
          a + b * (((coarsen i 2 + m : Int) : K) + 1 / 2) + c * (((coarsen j 2 + l : Int) : K) + 1 / 2)
            + d * (((coarsen i 2 + m : Int) : K) + 1 / 2) * (((coarsen j 2 + l : Int) : K) + 1 / 2)) =
        (fun l : Int => (a + b * (((coarsen i 2 + m : Int) : K) + 1 / 2))
          + (c + d * (((coarsen i 2 + m : Int) : K) + 1 / 2))
            * (((coarsen j 2 + l : Int) : K) + 1 / 2)) := by
      funext l; ring
    rw [e, quarticLine_affine _ _ _ j (coarsen_two_cases j)]
    ring
  simp only [inner]
  rw [quarticLine_affine _ _ _ i (coarsen_two_cases i)]
  ring

/-- Witness for the amended C3: samples of `1 + 2 x + 3 y + 4 x y`, fine index `(-3, 1)`. -/
theorem ccquartic_interp_exact_samples_bilinear_witness :
    (ccquartic_interp (-3) 1 0 0
        (⟨fun I J _ _ => 1 + 2 * ((I : ℚ) + 1 / 2) + 3 * ((J : ℚ) + 1 / 2)
          + 4 * ((I : ℚ) + 1 / 2) * ((J : ℚ) + 1 / 2), ⟨-4, -4, 0⟩, ⟨4, 4, 0⟩⟩)
        (zeroArray4 ⟨-4, -4, 0⟩ ⟨4, 4, 0⟩)).dat (-3) 1 0 0 =
      1 + 2 * ((((-3 : Int) : ℚ) + 1 / 2) / 2) + 3 * ((((1 : Int) : ℚ) + 1 / 2) / 2)
        + 4 * ((((-3 : Int) : ℚ) + 1 / 2) / 2) * ((((1 : Int) : ℚ) + 1 / 2) / 2) :=
  ccquartic_interp_exact_samples_bilinear 1 2 3 4
    ⟨fun I J _ _ => 1 + 2 * ((I : ℚ) + 1 / 2) + 3 * ((J : ℚ) + 1 / 2)
      + 4 * ((I : ℚ) + 1 / 2) * ((J : ℚ) + 1 / 2), ⟨-4, -4, 0⟩, ⟨4, 4, 0⟩⟩
    (zeroArray4 ⟨-4, -4, 0⟩ ⟨4, 4, 0⟩) (-3) 1 0 0 (fun _ _ => rfl)

end Quartic

/-! ## Divergence-preserving face interpolation -/

section FaceDiv

variable {K : Type} [LinearOrderedField K]

theorem Array4.set_dat_eq {T : Type} (a : Array4 T) (i j k n : Int) (v : T) (i' j' k' n' : Int)
    (h : i' = i ∧ j' = j ∧ k' = k ∧ n' = n) :
    (a.set i j k n v).dat i' j' k' n' = v := by
  simp [Array4.set_dat, h]

/-- Claim C5. Divergence preservation of the face pipeline (ratio `(2, 2)`, no mask, fine
cell sizes `hx, hy > 0`): on each of the four fine cells of the coarse cell `(ci, cj)` the
discrete divergence of the fine face field equals the coarse discrete divergence
`(U(ci+1,cj) - U(ci,cj))/(2hx) + (V(ci,cj+1) - V(ci,cj))/(2hy)`; in particular it is zero
when the coarse field is discretely divergence-free. -/
theorem facediv_pipeline_divergence (ci cj ck nc nf : Int) (U V u v : Array4 K) (hx hy : K)
    (hhx : 0 < hx) (hhy : 0 < hy) (a b : Int) (ha : a = 0 ∨ a = 1) (hb : b = 0 ∨ b = 1) :
    fineDiv (facediv_pipeline ci cj ck nc nf U V u v hx hy) nf hx hy (2 * ci + a) (2 * cj + b)
        = crseDiv U V nc hx hy ci cj ∧
      (crseDiv U V nc hx hy ci cj = 0 →
        fineDiv (facediv_pipeline ci cj ck nc nf U V u v hx hy) nf hx hy
          (2 * ci + a) (2 * cj + b) = 0) := by
  have key : fineDiv (facediv_pipeline ci cj ck nc nf U V u v hx hy) nf hx hy
      (2 * ci + a) (2 * cj + b) = crseDiv U V nc hx hy ci cj := by
    have hx0 : hx ≠ 0 := hhx.ne'
    have hy0 : hy ≠ 0 := hhy.ne'
    unfold fineDiv crseDiv facediv_pipeline facediv_int facediv_face_interp
    simp only [maskBlocks, if_false, if_true, Bool.false_eq_true, one_ne_zero]
    rcases ha with rfl | rfl <;> rcases hb with rfl | rfl <;>
    · simp (disch := omega) only [Array4.set_dat_eq, Array4.set_dat_other]
      field_simp
      ring
  exact ⟨key, fun h => key.trans h⟩

/-- Witness for C5: the coarse faces `U(I, J) = I + 3 J^2`, `V(I, J) = I J`, coarse cell
`(0, 0)`, fine cell sizes `1` and `1/2`, fine cell `(1, 0)` of the block. -/
theorem facediv_pipeline_divergence_witness :
    fineDiv (facediv_pipeline 0 0 0 0 0
          (⟨fun I J _ _ => (I : ℚ) + 3 * (J : ℚ) ^ 2, ⟨-1, -1, 0⟩, ⟨2, 2, 0⟩⟩)
          (⟨fun I J _ _ => (I : ℚ) * (J : ℚ), ⟨-1, -1, 0⟩, ⟨2, 2, 0⟩⟩)
          (zeroArray4 ⟨0, 0, 0⟩ ⟨2, 1, 0⟩) (zeroArray4 ⟨0, 0, 0⟩ ⟨1, 2, 0⟩) 1 (1 / 2))
        0 1 (1 / 2) (2 * 0 + 1) (2 * 0 + 0)
        = crseDiv (⟨fun I J _ _ => (I : ℚ) + 3 * (J : ℚ) ^ 2, ⟨-1, -1, 0⟩, ⟨2, 2, 0⟩⟩)
            (⟨fun I J _ _ => (I : ℚ) * (J : ℚ), ⟨-1, -1, 0⟩, ⟨2, 2, 0⟩⟩) 0 1 (1 / 2) 0 0 ∧
      (crseDiv (⟨fun I J _ _ => (I : ℚ) + 3 * (J : ℚ) ^ 2, ⟨-1, -1, 0⟩, ⟨2, 2, 0⟩⟩)
            (⟨fun I J _ _ => (I : ℚ) * (J : ℚ), ⟨-1, -1, 0⟩, ⟨2, 2, 0⟩⟩) 0 1 (1 / 2) 0 0 = 0 →
        fineDiv (facediv_pipeline 0 0 0 0 0
          (⟨fun I J _ _ => (I : ℚ) + 3 * (J : ℚ) ^ 2, ⟨-1, -1, 0⟩, ⟨2, 2, 0⟩⟩)
          (⟨fun I J _ _ => (I : ℚ) * (J : ℚ), ⟨-1, -1, 0⟩, ⟨2, 2, 0⟩⟩)
          (zeroArray4 ⟨0, 0, 0⟩ ⟨2, 1, 0⟩) (zeroArray4 ⟨0, 0, 0⟩ ⟨1, 2, 0⟩) 1 (1 / 2))
        0 1 (1 / 2) (2 * 0 + 1) (2 * 0 + 0) = 0) :=
  facediv_pipeline_divergence 0 0 0 0 0
    (⟨fun I J _ _ => (I : ℚ) + 3 * (J : ℚ) ^ 2, ⟨-1, -1, 0⟩, ⟨2, 2, 0⟩⟩)
    (⟨fun I J _ _ => (I : ℚ) * (J : ℚ), ⟨-1, -1, 0⟩, ⟨2, 2, 0⟩⟩)
    (zeroArray4 ⟨0, 0, 0⟩ ⟨2, 1, 0⟩) (zeroArray4 ⟨0, 0, 0⟩ ⟨1, 2, 0⟩) 1 (1 / 2)
    (by norm_num) (by norm_num) 1 0 (Or.inr rfl) (Or.inl rfl)

end FaceDiv

/-! ## Conservative positivity correction: the closing pass -/

section Closure

variable {K : Type} [LinearOrderedField K]

/-- Splitting the first term off a sum over an integer interval. -/
theorem sum_Icc_first (f : Int → K) (lo hi : Int) (h : lo ≤ hi) :
    ∑ n in Finset.Icc lo hi, f n = f lo + ∑ n in Finset.Icc (lo + 1) hi, f n := by
  have e : Finset.Icc lo hi = insert lo (Finset.Icc (lo + 1) hi) := by
    ext x
    simp only [Finset.mem_Icc, Finset.mem_insert]
    omega
  rw [e, Finset.sum_insert]
  simp only [Finset.mem_Icc, not_and, not_le]
  intro h'; omega

/-- The accumulation `fine(i,j,0,0) += fine(i,j,0,n)` over `n = a, ..., hi` with `a ≥ 1`
adds the sum of the components to component 0 and changes nothing else. -/
theorem accumulate_loop (i j hi : Int) :
    ∀ (cnt : Nat) (a : Int) (s : Array4 K), 1 ≤ a → a + cnt = hi + 1 →
      let r := loopFrom (fun n (fine : Array4 K) =>
        fine.set i j 0 0 (fine.dat i j 0 0 + fine.dat i j 0 n)) cnt a s
      r.lo = s.lo ∧ r.hi = s.hi ∧
      r.dat i j 0 0 = s.dat i j 0 0 + ∑ n in Finset.Icc a hi, s.dat i j 0 n ∧
      ∀ i' j' k' n', ¬ (i' = i ∧ j' = j ∧ k' = 0 ∧ n' = 0) → r.dat i' j' k' n' = s.dat i' j' k' n' := by
  intro cnt
  induction cnt with
  | zero =>
    intro a s _ ha
    have : Finset.Icc a hi = ∅ := by
      apply Finset.Icc_eq_empty
      simp at ha; omega
    simp [loopFrom, this]
  | succ c ih =>
    intro a s ha1 ha
    have hle : a ≤ hi := by push_cast at ha; omega
    obtain ⟨h1, h2, h3, h4⟩ := ih (a + 1)
      (s.set i j 0 0 (s.dat i j 0 0 + s.dat i j 0 a)) (by omega) (by push_cast at ha; omega)
    simp only [loopFrom]
    refine ⟨h1, h2, ?_, ?_⟩
    · rw [h3, Array4.set_dat_self, sum_Icc_first _ a hi hle, add_assoc]
      congr 1
      congr 1
      refine Finset.sum_congr rfl (fun n hn => ?_)
      rw [Finset.mem_Icc] at hn
      exact Array4.set_dat_other _ _ _ _ _ _ _ _ _ _ (by omega)
    · intro i' j' k' n' hne
      rw [h4 i' j' k' n' hne]
      exact Array4.set_dat_other _ _ _ _ _ _ _ _ _ _ hne

/-- Pointwise description of the closing pass relative to its input `F`: component 0 of
every footprint cell becomes the sum of the components `1 .. nvar-2`. -/
theorem ccprotect_closure_upd (ilo ihi jlo jhi nvar : Int) (F : Array4 K) :
    Upd (fun s => ∀ i j k n, n ≠ 0 → s.dat i j k n = F.dat i j k n)
      (ccprotect_closure ilo ihi jlo jhi nvar)
      (fun i j k n => ∃ q, jlo ≤ q ∧ q ≤ jhi ∧ ∃ p, ilo ≤ p ∧ p ≤ ihi ∧
        i = p ∧ j = q ∧ k = 0 ∧ n = 0)
      (fun i j _ _ _ => ∑ n in Finset.Icc 1 (nvar - 2), F.dat i j 0 n) := by
  unfold ccprotect_closure
  refine Upd.forLe _ _ (fun q _ _ => ?_) ?_
  · refine Upd.forLe _ _ (fun p _ _ => ?_) ?_
    · intro s hs
      by_cases hN : 1 ≤ nvar - 1 - 1
      · obtain ⟨h1, h2, h3, h4⟩ := accumulate_loop p q (nvar - 1 - 1)
          (nvar - 1 - 1 + 1 - 1).toNat 1 (s.set p q 0 0 0) le_rfl (by omega)
        refine ⟨fun i j k n hn => ?_, h1, h2, fun i j k n => ⟨?_, ?_⟩⟩
        · unfold forLt amrex.forLe
          rw [h4 i j k n (by omega), Array4.set_dat_other _ _ _ _ _ _ _ _ _ _ (by omega)]
          exact hs i j k n hn
        · rintro ⟨rfl, rfl, rfl, rfl⟩
          unfold forLt amrex.forLe
          rw [h3, Array4.set_dat_self, zero_add]
          have e : nvar - 1 - 1 = nvar - 2 := by ring
          rw [e]
          refine Finset.sum_congr rfl (fun n hn => ?_)
          rw [Finset.mem_Icc] at hn
          rw [Array4.set_dat_other _ _ _ _ _ _ _ _ _ _ (by omega)]
          exact hs _ _ _ _ (by omega)
        · intro hne
          unfold forLt amrex.forLe
          rw [h4 i j k n hne]
          exact Array4.set_dat_other _ _ _ _ _ _ _ _ _ _ hne
      · have e : forLt 1 (nvar - 1) (fun n (fine : Array4 K) =>
            fine.set p q 0 0 (fine.dat p q 0 0 + fine.dat p q 0 n)) (s.set p q 0 0 0)
            = s.set p q 0 0 0 := forLe_empty _ _ _ _ (by omega)
        simp only [e]
        have hempty : Finset.Icc 1 (nvar - 2) = ∅ := Finset.Icc_eq_empty (by omega)
        refine ⟨fun i j k n hn => ?_, rfl, rfl, fun i j k n => ⟨?_, ?_⟩⟩
        · rw [Array4.set_dat_other _ _ _ _ _ _ _ _ _ _ (by omega)]
          exact hs i j k n hn
        · rintro ⟨rfl, rfl, rfl, rfl⟩
          rw [Array4.set_dat_self, hempty, Finset.sum_empty]
        · intro hne
          exact Array4.set_dat_other _ _ _ _ _ _ _ _ _ _ hne
    · rintro p p' i j k m _ _ _ _ ⟨h1, _⟩ ⟨h2, _⟩; omega
  · rintro q q' i j k m _ _ _ _ ⟨_, _, _, _, _, h1, _⟩ ⟨_, _, _, _, _, h2, _⟩; omega

end Closure

/-! ## Conservative positivity correction: one component -/

section Protect

variable {K : Type} [LinearOrderedField K]

/-- Loops with pointwise equal bodies are equal. -/
theorem forLe_congr {σ : Type} (lo hi : Int) (body body' : Int → σ → σ)
    (h : ∀ k, lo ≤ k → k ≤ hi → ∀ s, body k s = body' k s) (s : σ) :
    forLe lo hi body s = forLe lo hi body' s := by
  unfold forLe
  suffices H : ∀ (cnt : Nat) (a : Int) (s : σ), lo ≤ a → a + cnt ≤ hi + 1 →
      loopFrom body cnt a s = loopFrom body' cnt a s by
    by_cases hle : lo ≤ hi + 1
    · exact H _ lo s le_rfl (by omega)
    · have : (hi + 1 - lo).toNat = 0 := by omega
      rw [this]; rfl
  intro cnt
  induction cnt with
  | zero => intro a s _ _; rfl
  | succ c ih =>
    intro a s h1 h2
    simp only [loopFrom]
    rw [h a h1 (by push_cast at h2; omega) s]
    exact ih (a + 1) _ (by omega) (by push_cast at h2; omega)

/-- A double loop over the cells of a rectangle whose body updates its own cell of
component `n` updates every cell of the rectangle. -/
theorem cellLoop_upd {T : Type} (ilo ihi jlo jhi n : Int) (cell : Int → Int → Array4 T → Array4 T)
    (g : Int → Int → Int → Int → T → T)
    (hcell : ∀ p q, Upd (fun _ => True) (cell p q)
      (fun i j k m => i = p ∧ j = q ∧ k = 0 ∧ m = n) g) :
    Upd (fun _ => True)
      (forLe jlo jhi (fun j fine => forLe ilo ihi (fun i fine => cell i j fine) fine))
      (fun i j k m => ∃ q, jlo ≤ q ∧ q ≤ jhi ∧ ∃ p, ilo ≤ p ∧ p ≤ ihi ∧
        i = p ∧ j = q ∧ k = 0 ∧ m = n) g := by
  refine Upd.forLe _ _ (fun q _ _ => ?_) ?_
  · refine Upd.forLe _ _ (fun p _ _ => hcell p q) ?_
    rintro p p' i j k m _ _ _ _ ⟨h1, _⟩ ⟨h2, _⟩; omega
  · rintro q q' i j k m _ _ _ _ ⟨_, _, _, _, _, h1, _⟩ ⟨_, _, _, _, _, h2, _⟩; omega

/-- Reading a double cell loop: inside the rectangle the cell holds `g` of its old
value, every other entry is unchanged. -/
theorem cellLoop_dat {T : Type} (ilo ihi jlo jhi n : Int) (cell : Int → Int → Array4 T → Array4 T)
    (g : Int → Int → Int → Int → T → T)
    (hcell : ∀ p q, Upd (fun _ => True) (cell p q)
      (fun i j k m => i = p ∧ j = q ∧ k = 0 ∧ m = n) g)
    (fine : Array4 T) (i j k m : Int) :
    (forLe jlo jhi (fun j fine => forLe ilo ihi (fun i fine => cell i j fine) fine)
        fine).dat i j k m =
      if m = n ∧ k = 0 ∧ ilo ≤ i ∧ i ≤ ihi ∧ jlo ≤ j ∧ j ≤ jhi then
        g i j k m (fine.dat i j k m) else fine.dat i j k m := by
  have h := ((cellLoop_upd ilo ihi jlo jhi n cell g hcell) fine trivial).2.2.2 i j k m
  split_ifs with hc
  · obtain ⟨h1, h2, h3, h4, h5, h6⟩ := hc
    exact h.1 ⟨j, h5, h6, i, h3, h4, rfl, rfl, h2, h1⟩
  · refine h.2 ?_
    rintro ⟨q, h1, h2, p, h3, h4, rfl, rfl, h5, h6⟩
    exact hc ⟨h6, h5, h3, h4, h1, h2⟩

theorem ccprotect_case1_upd (i j n : Int) (crseTot SumN SumP cvol : K)
    (fine_state : Array4 K) :
    Upd (fun _ => True) (ccprotect_case1 i j n crseTot SumN SumP cvol fine_state)
      (fun i' j' k' m => i' = i ∧ j' = j ∧ k' = 0 ∧ m = n)
      (fun i' j' _ _ x =>
        if SumP > 0 then
          if fine_state.dat i' j' 0 n > 0 then (crseTot - |SumN|) / SumP * fine_state.dat i' j' 0 n
          else if fine_state.dat i' j' 0 n < 0 then -fine_state.dat i' j' 0 n else x
        else (if fine_state.dat i' j' 0 n < 0 then -fine_state.dat i' j' 0 n else x)
          + (crseTot - |SumN|) / cvol) := by
  intro s _
  refine ⟨trivial, ?_, ?_, fun i' j' k' m => ⟨?_, ?_⟩⟩
  · unfold ccprotect_case1; simp only; split_ifs <;> rfl
  · unfold ccprotect_case1; simp only; split_ifs <;> rfl
  · rintro ⟨rfl, rfl, rfl, rfl⟩
    unfold ccprotect_case1
    simp only
    split_ifs <;> simp [Array4.set_dat]
  · intro hne
    unfold ccprotect_case1
    simp only
    split_ifs <;> simp [Array4.set_dat, hne]

theorem ccprotect_case2_upd (i j n : Int) (crseTot SumN : K) (fine_state : Array4 K) :
    Upd (fun _ => True) (ccprotect_case2 i j n crseTot SumN fine_state)
      (fun i' j' k' m => i' = i ∧ j' = j ∧ k' = 0 ∧ m = n)
      (fun i' j' _ _ _ =>
        if fine_state.dat i' j' 0 n < 0 then crseTot / |SumN| * |fine_state.dat i' j' 0 n|
        else 0) := by
  intro s _
  refine ⟨trivial, ?_, ?_, fun i' j' k' m => ⟨?_, ?_⟩⟩
  · unfold ccprotect_case2; simp only; split_ifs <;> rfl
  · unfold ccprotect_case2; simp only; split_ifs <;> rfl
  · rintro ⟨rfl, rfl, rfl, rfl⟩
    unfold ccprotect_case2
    simp only
    split_ifs <;> simp [Array4.set_dat]
  · intro hne
    unfold ccprotect_case2
    simp only
    split_ifs <;> simp [Array4.set_dat, hne]

theorem ccprotect_case3_upd (i j n : Int) (crseTot SumN SumP cvol : K)
    (fine_state : Array4 K) :
    Upd (fun _ => True) (ccprotect_case3 i j n crseTot SumN SumP cvol fine_state)
      (fun i' j' k' m => i' = i ∧ j' = j ∧ k' = 0 ∧ m = n)
      (fun i' j' _ _ _ => (SumP + SumN + crseTot) / cvol - fine_state.dat i' j' 0 n) := by
  intro s _
  refine ⟨trivial, rfl, rfl, fun i' j' k' m => ⟨?_, ?_⟩⟩
  · rintro ⟨rfl, rfl, rfl, rfl⟩
    unfold ccprotect_case3
    simp [Array4.set_dat]
  · intro hne
    unfold ccprotect_case3
    simp [Array4.set_dat, hne]

theorem ccprotect_case4_upd (i j n : Int) (crseTot SumN SumP : K) (fine_state : Array4 K) :
    Upd (fun _ => True) (ccprotect_case4 i j n crseTot SumN SumP fine_state)
      (fun i' j' k' m => i' = i ∧ j' = j ∧ k' = 0 ∧ m = n)
      (fun i' j' _ _ _ =>
        if fine_state.dat i' j' 0 n < 0 then -fine_state.dat i' j' 0 n
        else (crseTot + SumN) / SumP * fine_state.dat i' j' 0 n) := by
  intro s _
  refine ⟨trivial, ?_, ?_, fun i' j' k' m => ⟨?_, ?_⟩⟩
  · unfold ccprotect_case4; simp only; split_ifs <;> rfl
  · unfold ccprotect_case4; simp only; split_ifs <;> rfl
  · rintro ⟨rfl, rfl, rfl, rfl⟩
    unfold ccprotect_case4
    simp only
    split_ifs <;> simp [Array4.set_dat]
  · intro hne
    unfold ccprotect_case4
    simp only
    split_ifs <;> simp [Array4.set_dat, hne]

theorem ccprotect_case5_upd (i j n : Int) (crseTot SumN SumP : K) (fine_state : Array4 K) :
    Upd (fun _ => True) (ccprotect_case5 i j n crseTot SumN SumP fine_state)
      (fun i' j' k' m => i' = i ∧ j' = j ∧ k' = 0 ∧ m = n)
      (fun i' j' _ _ _ =>
        if fine_state.dat i' j' 0 n > 0 then -fine_state.dat i' j' 0 n
        else (crseTot + SumP) / SumN * fine_state.dat i' j' 0 n) := by
  intro s _
  refine ⟨trivial, ?_, ?_, fun i' j' k' m => ⟨?_, ?_⟩⟩
  · unfold ccprotect_case5; simp only; split_ifs <;> rfl
  · unfold ccprotect_case5; simp only; split_ifs <;> rfl
  · rintro ⟨rfl, rfl, rfl, rfl⟩
    unfold ccprotect_case5
    simp only
    split_ifs <;> simp [Array4.set_dat]
  · intro hne
    unfold ccprotect_case5
    simp only
    split_ifs <;> simp [Array4.set_dat, hne]

/-- Pointwise description of the body of the component loop: if detection triggers, every
footprint cell of component `n` receives `ccprotect_newval` of the aggregates; every
other entry is unchanged. -/
theorem ccprotect_comp_dat (ic ilo ihi jlo jhi : Int) (cs_geomdata fn_geomdata : GeometryData K)
    (fine_state : Array4 K) (n : Int) (fine : Array4 K) (i j k m : Int) :
    (ccprotect_comp ic ilo ihi jlo jhi cs_geomdata fn_geomdata fine_state n fine).dat i j k m =
      if ccprotect_redo_me ilo ihi jlo jhi n fine fine_state = true ∧
          (m = n ∧ k = 0 ∧ ilo ≤ i ∧ i ≤ ihi ∧ jlo ≤ j ∧ j ≤ jhi) then
        ccprotect_newval
          (ccprotect_sums ilo ihi jlo jhi n fn_geomdata fine fine_state).crseTot
          (ccprotect_sums ilo ihi jlo jhi n fn_geomdata fine fine_state).SumN
          (ccprotect_sums ilo ihi jlo jhi n fn_geomdata fine fine_state).SumP
          (ccprotect_cvol cs_geomdata ic) (fine_state.dat i j 0 n) (fine.dat i j k m)
      else fine.dat i j k m := by
  unfold ccprotect_comp
  by_cases hredo : ccprotect_redo_me ilo ihi jlo jhi n fine fine_state = true
  swap
  · rw [if_neg hredo, if_neg (fun h => hredo h.1)]
  rw [if_pos hredo]
  simp only [hredo, true_and]
  by_cases h1 : (ccprotect_sums ilo ihi jlo jhi n fn_geomdata fine fine_state).crseTot > 0 ∧
      (ccprotect_sums ilo ihi jlo jhi n fn_geomdata fine fine_state).crseTot >
        |(ccprotect_sums ilo ihi jlo jhi n fn_geomdata fine fine_state).SumN|
  · rw [if_pos h1,
      cellLoop_dat _ _ _ _ n _ _ (fun p q => ccprotect_case1_upd p q n _ _ _ _ fine_state)]
    simp only [ccprotect_newval, if_pos h1]
  rw [if_neg h1]
  by_cases h2 : (ccprotect_sums ilo ihi jlo jhi n fn_geomdata fine fine_state).crseTot > 0 ∧
      (ccprotect_sums ilo ihi jlo jhi n fn_geomdata fine fine_state).crseTot <
        |(ccprotect_sums ilo ihi jlo jhi n fn_geomdata fine fine_state).SumN|
  · rw [if_pos h2,
      cellLoop_dat _ _ _ _ n _ _ (fun p q => ccprotect_case2_upd p q n _ _ fine_state)]
    simp only [ccprotect_newval, if_neg h1, if_pos h2]
  rw [if_neg h2]
  by_cases h3 : (ccprotect_sums ilo ihi jlo jhi n fn_geomdata fine fine_state).crseTot < 0 ∧
      |(ccprotect_sums ilo ihi jlo jhi n fn_geomdata fine fine_state).crseTot| >
        (ccprotect_sums ilo ihi jlo jhi n fn_geomdata fine fine_state).SumP
  · rw [if_pos h3,
      cellLoop_dat _ _ _ _ n _ _ (fun p q => ccprotect_case3_upd p q n _ _ _ _ fine_state)]
    simp only [ccprotect_newval, if_neg h1, if_neg h2, if_pos h3]
  rw [if_neg h3]
  by_cases h4 : (ccprotect_sums ilo ihi jlo jhi n fn_geomdata fine fine_state).crseTot < 0 ∧
      |(ccprotect_sums ilo ihi jlo jhi n fn_geomdata fine fine_state).crseTot| <
        (ccprotect_sums ilo ihi jlo jhi n fn_geomdata fine fine_state).SumP ∧
      (ccprotect_sums ilo ihi jlo jhi n fn_geomdata fine fine_state).SumP
        + (ccprotect_sums ilo ihi jlo jhi n fn_geomdata fine fine_state).SumN
        + (ccprotect_sums ilo ihi jlo jhi n fn_geomdata fine fine_state).crseTot > 0
  · rw [if_pos h4,
      cellLoop_dat _ _ _ _ n _ _ (fun p q => ccprotect_case4_upd p q n _ _ _ fine_state)]
    simp only [ccprotect_newval, if_neg h1, if_neg h2, if_neg h3, if_pos h4]
  rw [if_neg h4]
  by_cases h5 : (ccprotect_sums ilo ihi jlo jhi n fn_geomdata fine fine_state).crseTot < 0 ∧
      |(ccprotect_sums ilo ihi jlo jhi n fn_geomdata fine fine_state).crseTot| <
        (ccprotect_sums ilo ihi jlo jhi n fn_geomdata fine fine_state).SumP ∧
      (ccprotect_sums ilo ihi jlo jhi n fn_geomdata fine fine_state).SumP
        + (ccprotect_sums ilo ihi jlo jhi n fn_geomdata fine fine_state).SumN
        + (ccprotect_sums ilo ihi jlo jhi n fn_geomdata fine fine_state).crseTot < 0
  · rw [if_pos h5,
      cellLoop_dat _ _ _ _ n _ _ (fun p q => ccprotect_case5_upd p q n _ _ _ fine_state)]
    simp only [ccprotect_newval, if_neg h1, if_neg h2, if_neg h3, if_neg h4, if_pos h5]
  rw [if_neg h5]
  simp only [ccprotect_newval, if_neg h1, if_neg h2, if_neg h3, if_neg h4, if_neg h5, ite_self]

/-- The detection flag of component `n` only depends on component `n` of the
correction. -/
theorem ccprotect_redo_me_congr (ilo ihi jlo jhi n : Int) (fine fine' fine_state : Array4 K)
    (h : ∀ i j, fine.dat i j 0 n = fine'.dat i j 0 n) :
    ccprotect_redo_me ilo ihi jlo jhi n fine fine_state =
      ccprotect_redo_me ilo ihi jlo jhi n fine' fine_state := by
  unfold ccprotect_redo_me
  refine forLe_congr _ _ _ _ (fun j _ _ s => ?_) _
  refine forLe_congr _ _ _ _ (fun i _ _ s => ?_) _
  rw [h]

/-- The aggregates of component `n` only depend on component `n` of the correction. -/
theorem ccprotect_sums_congr (ilo ihi jlo jhi n : Int) (fn_geomdata : GeometryData K)
    (fine fine' fine_state : Array4 K) (h : ∀ i j, fine.dat i j 0 n = fine'.dat i j 0 n) :
    ccprotect_sums ilo ihi jlo jhi n fn_geomdata fine fine_state =
      ccprotect_sums ilo ihi jlo jhi n fn_geomdata fine' fine_state := by
  unfold ccprotect_sums
  refine forLe_congr _ _ _ _ (fun j _ _ s => ?_) _
  refine forLe_congr _ _ _ _ (fun i _ _ s => ?_) _
  rw [h]

/-- The body of the component loop leaves the other components alone. -/
theorem ccprotect_comp_frame (ic ilo ihi jlo jhi : Int) (cs_geomdata fn_geomdata : GeometryData K)
    (fine_state : Array4 K) (n : Int) (fine : Array4 K) (i j k m : Int) (hm : m ≠ n) :
    (ccprotect_comp ic ilo ihi jlo jhi cs_geomdata fn_geomdata fine_state n fine).dat i j k m =
      fine.dat i j k m := by
  rw [ccprotect_comp_dat, if_neg (fun h => hm h.2.1)]

/-- On component `n`, the body of the component loop only depends on component `n` of
its input. -/
theorem ccprotect_comp_congr (ic ilo ihi jlo jhi : Int) (cs_geomdata fn_geomdata : GeometryData K)
    (fine_state : Array4 K) (n : Int) (fine fine' : Array4 K)
    (h : ∀ i j k, fine.dat i j k n = fine'.dat i j k n) (i j k : Int) :
    (ccprotect_comp ic ilo ihi jlo jhi cs_geomdata fn_geomdata fine_state n fine).dat i j k n =
      (ccprotect_comp ic ilo ihi jlo jhi cs_geomdata fn_geomdata fine_state n fine').dat i j k n := by
  rw [ccprotect_comp_dat, ccprotect_comp_dat,
    ccprotect_redo_me_congr ilo ihi jlo jhi n fine fine' fine_state (fun i j => h i j 0),
    ccprotect_sums_congr ilo ihi jlo jhi n fn_geomdata fine fine' fine_state (fun i j => h i j 0),
    h i j k]

/-- After the component loop, each component `1 .. nvar-2` holds what the loop body
computes for it from the original correction; all other components are unchanged. -/
theorem ccprotect_components (ic ilo ihi jlo jhi nvar : Int)
    (cs_geomdata fn_geomdata : GeometryData K) (fine_state fine : Array4 K) (i j k m : Int) :
    (forLt 1 (nvar - 1) (fun n fine =>
        ccprotect_comp ic ilo ihi jlo jhi cs_geomdata fn_geomdata fine_state n fine) fine).dat
        i j k m =
      if 1 ≤ m ∧ m ≤ nvar - 2 then
        (ccprotect_comp ic ilo ihi jlo jhi cs_geomdata fn_geomdata fine_state m fine).dat i j k m
      else fine.dat i j k m := by
  unfold forLt forLe
  have key := loopFrom_inv
    (fun n fine => ccprotect_comp ic ilo ihi jlo jhi cs_geomdata fn_geomdata fine_state n fine)
    (fun q s => ∀ i j k m, s.dat i j k m =
      if 1 ≤ m ∧ m < q then
        (ccprotect_comp ic ilo ihi jlo jhi cs_geomdata fn_geomdata fine_state m fine).dat i j k m
      else fine.dat i j k m)
    (nvar - 1 - 1 + 1 - 1).toNat 1 fine
    (by
      intro i j k m
      rw [if_neg (by omega)])
    (by
      intro q s hq1 _ hinv i j k m
      by_cases hmq : m = q
      · subst hmq
        rw [if_pos (by omega : 1 ≤ m ∧ m < m + 1)]
        refine ccprotect_comp_congr _ _ _ _ _ _ _ _ _ _ _ (fun i j k => ?_) i j k
        rw [hinv i j k m, if_neg (by omega)]
      · rw [ccprotect_comp_frame _ _ _ _ _ _ _ _ _ _ _ _ _ _ hmq, hinv i j k m]
        by_cases hc : 1 ≤ m ∧ m < q
        · rw [if_pos hc, if_pos (by omega : 1 ≤ m ∧ m < q + 1)]
        · rw [if_neg hc, if_neg (by omega : ¬ (1 ≤ m ∧ m < q + 1))])
  rw [key i j k m]
  by_cases hc : 1 ≤ m ∧ m ≤ nvar - 2
  · rw [if_pos hc, if_pos (by omega)]
  · rw [if_neg hc, if_neg (by omega)]

/-- Membership in the clipped footprint in terms of the loop bounds of `ccprotect_2d`. -/
theorem inFootprint_iff (ic jc : Int) (fine_bx : Box) (ratio : IntVect) (i j : Int) :
    inFootprint ic jc fine_bx ratio i j ↔
      (ccprotect_ilo ic fine_bx ratio ≤ i ∧ i ≤ ccprotect_ihi ic fine_bx ratio) ∧
      (ccprotect_jlo jc fine_bx ratio ≤ j ∧ j ≤ ccprotect_jhi jc fine_bx ratio) := by
  unfold inFootprint ccprotect_ilo ccprotect_ihi ccprotect_jlo ccprotect_jhi lbound ubound
  simp only [max_le_iff, le_min_iff]
  tauto

/-- The result of `ccprotect_2d` on a component `n` in `1 .. nvar-2` is what the body of
the component loop computes for it from the original correction. -/
theorem ccprotect_2d_dat (ic jc kc nvar : Int) (fine_bx : Box) (ratio : IntVect)
    (cs_geomdata fn_geomdata : GeometryData K) (fine fine_state : Array4 K)
    (n : Int) (hn1 : 1 ≤ n) (hn2 : n ≤ nvar - 2) (i j k : Int) :
    (ccprotect_2d ic jc kc nvar fine_bx ratio cs_geomdata fn_geomdata fine fine_state).dat i j k n =
      (ccprotect_comp ic (ccprotect_ilo ic fine_bx ratio) (ccprotect_ihi ic fine_bx ratio)
        (ccprotect_jlo jc fine_bx ratio) (ccprotect_jhi jc fine_bx ratio)
        cs_geomdata fn_geomdata fine_state n fine).dat i j k n := by
  unfold ccprotect_2d
  simp only
  have hU := ccprotect_closure_upd (ccprotect_ilo ic fine_bx ratio) (ccprotect_ihi ic fine_bx ratio)
    (ccprotect_jlo jc fine_bx ratio) (ccprotect_jhi jc fine_bx ratio) nvar
    (forLt 1 (nvar - 1) (fun n fine =>
      ccprotect_comp ic (ccprotect_ilo ic fine_bx ratio) (ccprotect_ihi ic fine_bx ratio)
        (ccprotect_jlo jc fine_bx ratio) (ccprotect_jhi jc fine_bx ratio)
        cs_geomdata fn_geomdata fine_state n fine) fine) _ (fun _ _ _ _ _ => rfl)
  rw [hU.1 i j k n (by omega), ccprotect_components, if_pos ⟨hn1, hn2⟩]

/-- Claim C6. Closure invariant of `ccprotect_2d`: for all inputs, at every cell `(i, j)` of
the coarse cell's footprint clipped to `fine_bx`, component 0 of the result equals the sum
over `n = 1 .. nvar-2` of the components `n` of the result, and it is `0` when that range
is empty. -/
theorem ccprotect_2d_closure (ic jc kc nvar : Int) (fine_bx : Box) (ratio : IntVect)
    (cs_geomdata fn_geomdata : GeometryData K) (fine fine_state : Array4 K) (i j : Int)
    (hfoot : inFootprint ic jc fine_bx ratio i j) :
    (ccprotect_2d ic jc kc nvar fine_bx ratio cs_geomdata fn_geomdata fine fine_state).dat i j 0 0 =
        ∑ n in Finset.Icc 1 (nvar - 2),
          (ccprotect_2d ic jc kc nvar fine_bx ratio cs_geomdata fn_geomdata fine fine_state).dat
            i j 0 n ∧
      (nvar - 2 < 1 →
        (ccprotect_2d ic jc kc nvar fine_bx ratio cs_geomdata fn_geomdata fine fine_state).dat
          i j 0 0 = 0) := by
  have hsum : (ccprotect_2d ic jc kc nvar fine_bx ratio cs_geomdata fn_geomdata fine
      fine_state).dat i j 0 0 = ∑ n in Finset.Icc 1 (nvar - 2),
        (ccprotect_2d ic jc kc nvar fine_bx ratio cs_geomdata fn_geomdata fine fine_state).dat
          i j 0 n := by
    obtain ⟨⟨hi1, hi2⟩, hj1, hj2⟩ := (inFootprint_iff ic jc fine_bx ratio i j).1 hfoot
    unfold ccprotect_2d
    simp only
    have hU := ccprotect_closure_upd (ccprotect_ilo ic fine_bx ratio)
      (ccprotect_ihi ic fine_bx ratio) (ccprotect_jlo jc fine_bx ratio)
      (ccprotect_jhi jc fine_bx ratio) nvar
      (forLt 1 (nvar - 1) (fun n fine =>
        ccprotect_comp ic (ccprotect_ilo ic fine_bx ratio) (ccprotect_ihi ic fine_bx ratio)
          (ccprotect_jlo jc fine_bx ratio) (ccprotect_jhi jc fine_bx ratio)
          cs_geomdata fn_geomdata fine_state n fine) fine) _ (fun _ _ _ _ _ => rfl)
    rw [(hU.2.2.2 i j 0 0).1 ⟨j, hj1, hj2, i, hi1, hi2, rfl, rfl, rfl, rfl⟩]
    refine Finset.sum_congr rfl (fun n hn => ?_)
    rw [Finset.mem_Icc] at hn
    rw [hU.1 i j 0 n (by omega)]
  refine ⟨hsum, fun hempty => ?_⟩
  rw [hsum, Finset.Icc_eq_empty (by omega), Finset.sum_empty]

/-- A loop that adds `f k` to a projection of its state in iteration `k` adds the sum of
`f` over the range. -/
theorem forLe_sum {σ : Type} (proj : σ → K) (lo hi : Int) (body : Int → σ → σ) (f : Int → K)
    (h : ∀ k s, lo ≤ k → k ≤ hi → proj (body k s) = proj s + f k) (s : σ) :
    proj (forLe lo hi body s) = proj s + ∑ k in Finset.Icc lo hi, f k := by
  unfold forLe
  suffices H : ∀ (cnt : Nat) (a : Int) (s : σ), lo ≤ a → a + cnt = hi + 1 →
      proj (loopFrom body cnt a s) = proj s + ∑ k in Finset.Icc a hi, f k by
    by_cases hle : lo ≤ hi + 1
    · exact H _ lo s le_rfl (by omega)
    · have e : (hi + 1 - lo).toNat = 0 := by omega
      rw [e, Finset.Icc_eq_empty (by omega)]
      simp [loopFrom]
  intro cnt
  induction cnt with
  | zero =>
    intro a s _ ha
    rw [Finset.Icc_eq_empty (by simp at ha; omega)]
    simp [loopFrom]
  | succ c ih =>
    intro a s h1 h2
    have hle : a ≤ hi := by push_cast at h2; omega
    simp only [loopFrom]
    rw [ih (a + 1) _ (by omega) (by push_cast at h2; omega), h a s h1 hle,
      sum_Icc_first f a hi hle, add_assoc]

/-- The aggregate `crseTot` is the volume-weighted sum of the correction. -/
theorem ccprotect_sums_crseTot (ilo ihi jlo jhi n : Int) (fn_geomdata : GeometryData K)
    (fine fine_state : Array4 K) :
    (ccprotect_sums ilo ihi jlo jhi n fn_geomdata fine fine_state).crseTot =
      ∑ j in Finset.Icc jlo jhi, ∑ i in Finset.Icc ilo ihi,
        ccprotect_fvol fn_geomdata i * fine.dat i j 0 n := by
  unfold ccprotect_sums
  rw [forLe_sum Sums.crseTot jlo jhi _
    (fun j => ∑ i in Finset.Icc ilo ihi, ccprotect_fvol fn_geomdata i * fine.dat i j 0 n)]
  · simp
  · intro j s _ _
    rw [forLe_sum Sums.crseTot ilo ihi _
      (fun i => ccprotect_fvol fn_geomdata i * fine.dat i j 0 n)]
    intro i s _ _
    simp only
    split_ifs <;> rfl

/-- The aggregate `SumN` is the volume-weighted sum of the non-positive states. -/
theorem ccprotect_sums_SumN (ilo ihi jlo jhi n : Int) (fn_geomdata : GeometryData K)
    (fine fine_state : Array4 K) :
    (ccprotect_sums ilo ihi jlo jhi n fn_geomdata fine fine_state).SumN =
      ∑ j in Finset.Icc jlo jhi, ∑ i in Finset.Icc ilo ihi,
        if fine_state.dat i j 0 n ≤ 0 then ccprotect_fvol fn_geomdata i * fine_state.dat i j 0 n
        else 0 := by
  unfold ccprotect_sums
  rw [forLe_sum Sums.SumN jlo jhi _
    (fun j => ∑ i in Finset.Icc ilo ihi,
      if fine_state.dat i j 0 n ≤ 0 then ccprotect_fvol fn_geomdata i * fine_state.dat i j 0 n
      else 0)]
  · simp
  · intro j s _ _
    rw [forLe_sum Sums.SumN ilo ihi _
      (fun i => if fine_state.dat i j 0 n ≤ 0 then
        ccprotect_fvol fn_geomdata i * fine_state.dat i j 0 n else 0)]
    intro i s _ _
    simp only
    split_ifs <;> simp

/-- The aggregate `SumP` is the volume-weighted sum of the positive states. -/
theorem ccprotect_sums_SumP (ilo ihi jlo jhi n : Int) (fn_geomdata : GeometryData K)
    (fine fine_state : Array4 K) :
    (ccprotect_sums ilo ihi jlo jhi n fn_geomdata fine fine_state).SumP =
      ∑ j in Finset.Icc jlo jhi, ∑ i in Finset.Icc ilo ihi,
        if fine_state.dat i j 0 n ≤ 0 then 0
        else ccprotect_fvol fn_geomdata i * fine_state.dat i j 0 n := by
  unfold ccprotect_sums
  rw [forLe_sum Sums.SumP jlo jhi _
    (fun j => ∑ i in Finset.Icc ilo ihi,
      if fine_state.dat i j 0 n ≤ 0 then 0
      else ccprotect_fvol fn_geomdata i * fine_state.dat i j 0 n)]
  · simp
  · intro j s _ _
    rw [forLe_sum Sums.SumP ilo ihi _
      (fun i => if fine_state.dat i j 0 n ≤ 0 then 0
        else ccprotect_fvol fn_geomdata i * fine_state.dat i j 0 n)]
    intro i s _ _
    simp only
    split_ifs <;> simp

/-- Detection does not trigger when `fine_state + fine` is non-negative on the whole
rectangle. -/
theorem ccprotect_redo_me_false (ilo ihi jlo jhi n : Int) (fine fine_state : Array4 K)
    (h : ∀ i j, ilo ≤ i → i ≤ ihi → jlo ≤ j → j ≤ jhi →
      0 ≤ fine_state.dat i j 0 n + fine.dat i j 0 n) :
    ccprotect_redo_me ilo ihi jlo jhi n fine fine_state = false := by
  unfold ccprotect_redo_me
  refine forLe_preserves _ _ _ (fun b => b = false) (fun j s hj1 hj2 hs => ?_) _ rfl
  refine forLe_preserves _ _ _ (fun b => b = false) (fun i s hi1 hi2 hs => ?_) _ hs
  rw [if_neg (not_lt.2 (h i j hi1 hi2 hj1 hj2))]
  exact hs

/-- The result of `ccprotect_2d` in a footprint cell of a component for which detection
triggers. -/
theorem ccprotect_2d_repaired (ic jc kc nvar : Int) (fine_bx : Box) (ratio : IntVect)
    (cs_geomdata fn_geomdata : GeometryData K) (fine fine_state : Array4 K)
    (n : Int) (hn1 : 1 ≤ n) (hn2 : n ≤ nvar - 2)
    (hredo : ccprotect_detects ic jc fine_bx ratio n fine fine_state = true)
    (i j : Int) (hfoot : inFootprint ic jc fine_bx ratio i j) :
    (ccprotect_2d ic jc kc nvar fine_bx ratio cs_geomdata fn_geomdata fine fine_state).dat i j 0 n =
      ccprotect_newval
        (ccprotect_aggregates ic jc fine_bx ratio fn_geomdata n fine fine_state).crseTot
        (ccprotect_aggregates ic jc fine_bx ratio fn_geomdata n fine fine_state).SumN
        (ccprotect_aggregates ic jc fine_bx ratio fn_geomdata n fine fine_state).SumP
        (ccprotect_cvol cs_geomdata ic) (fine_state.dat i j 0 n) (fine.dat i j 0 n) := by
  obtain ⟨⟨hi1, hi2⟩, hj1, hj2⟩ := (inFootprint_iff ic jc fine_bx ratio i j).1 hfoot
  unfold ccprotect_detects at hredo
  rw [ccprotect_2d_dat _ _ _ _ _ _ _ _ _ _ n hn1 hn2, ccprotect_comp_dat,
    if_pos ⟨hredo, rfl, rfl, hi1, hi2, hj1, hj2⟩]
  rfl

/-! ## Conservative positivity correction: special case 1 -/

/-- Claim C7. Case A zeroing: for a component `n` in `1 .. nvar-2` for which detection
triggers and `crseTot > 0`, `crseTot > |SumN|`, `SumP > 0`, every footprint cell whose
`fine_state` is negative ends with correction `-fine_state`, so that
`fine_state + correction` is exactly `0`. -/
theorem ccprotect_2d_caseA_zeroing (ic jc kc nvar : Int) (fine_bx : Box) (ratio : IntVect)
    (cs_geomdata fn_geomdata : GeometryData K) (fine fine_state : Array4 K)
    (n : Int) (hn1 : 1 ≤ n) (hn2 : n ≤ nvar - 2)
    (hredo : ccprotect_detects ic jc fine_bx ratio n fine fine_state = true)
    (hct : (ccprotect_aggregates ic jc fine_bx ratio fn_geomdata n fine fine_state).crseTot > 0)
    (hct2 : (ccprotect_aggregates ic jc fine_bx ratio fn_geomdata n fine fine_state).crseTot >
      |(ccprotect_aggregates ic jc fine_bx ratio fn_geomdata n fine fine_state).SumN|)
    (hsp : (ccprotect_aggregates ic jc fine_bx ratio fn_geomdata n fine fine_state).SumP > 0)
    (i j : Int) (hfoot : inFootprint ic jc fine_bx ratio i j)
    (hneg : fine_state.dat i j 0 n < 0) :
    (ccprotect_2d ic jc kc nvar fine_bx ratio cs_geomdata fn_geomdata fine fine_state).dat i j 0 n
        = -fine_state.dat i j 0 n ∧
      fine_state.dat i j 0 n +
        (ccprotect_2d ic jc kc nvar fine_bx ratio cs_geomdata fn_geomdata fine fine_state).dat
          i j 0 n = 0 := by
  have e : (ccprotect_2d ic jc kc nvar fine_bx ratio cs_geomdata fn_geomdata fine
      fine_state).dat i j 0 n = -fine_state.dat i j 0 n := by
    rw [ccprotect_2d_repaired ic jc kc nvar fine_bx ratio cs_geomdata fn_geomdata fine fine_state
      n hn1 hn2 hredo i j hfoot]
    unfold ccprotect_newval
    rw [if_pos ⟨hct, hct2⟩, if_pos hsp, if_neg (not_lt.2 hneg.le), if_pos hneg]
  exact ⟨e, by rw [e]; ring⟩

/-- In special case 1 with `SumP > 0`, a footprint cell whose `fine_state` is non-zero
ends with a non-negative `fine_state + correction`. -/
theorem ccprotect_2d_caseA_nonneg_of_ne_zero (ic jc kc nvar : Int) (fine_bx : Box)
    (ratio : IntVect) (cs_geomdata fn_geomdata : GeometryData K) (fine fine_state : Array4 K)
    (n : Int) (hn1 : 1 ≤ n) (hn2 : n ≤ nvar - 2)
    (hredo : ccprotect_detects ic jc fine_bx ratio n fine fine_state = true)
    (hct : (ccprotect_aggregates ic jc fine_bx ratio fn_geomdata n fine fine_state).crseTot > 0)
    (hct2 : (ccprotect_aggregates ic jc fine_bx ratio fn_geomdata n fine fine_state).crseTot >
      |(ccprotect_aggregates ic jc fine_bx ratio fn_geomdata n fine fine_state).SumN|)
    (hsp : (ccprotect_aggregates ic jc fine_bx ratio fn_geomdata n fine fine_state).SumP > 0)
    (i j : Int) (hfoot : inFootprint ic jc fine_bx ratio i j)
    (hnz : fine_state.dat i j 0 n ≠ 0) :
    0 ≤ fine_state.dat i j 0 n +
      (ccprotect_2d ic jc kc nvar fine_bx ratio cs_geomdata fn_geomdata fine fine_state).dat
        i j 0 n := by
  rw [ccprotect_2d_repaired ic jc kc nvar fine_bx ratio cs_geomdata fn_geomdata fine fine_state
    n hn1 hn2 hredo i j hfoot]
  unfold ccprotect_newval
  rw [if_pos ⟨hct, hct2⟩, if_pos hsp]
  rcases lt_or_gt_of_ne hnz with h | h
  · rw [if_neg (not_lt.2 h.le), if_pos h]; simp
  · rw [if_pos h]
    have hα : 0 ≤ ((ccprotect_aggregates ic jc fine_bx ratio fn_geomdata n fine fine_state).crseTot
        - |(ccprotect_aggregates ic jc fine_bx ratio fn_geomdata n fine fine_state).SumN|) /
        (ccprotect_aggregates ic jc fine_bx ratio fn_geomdata n fine fine_state).SumP :=
      div_nonneg (sub_nonneg.2 hct2.le) hsp.le
    have := mul_nonneg hα h.le
    linarith [h.le]

/-- Claim C9. (the code at the failing input) One unit-volume `2 × 2` footprint with
`fine_state = 0` in the cell `(0, 0)` and `1` elsewhere, correction `-1` in the cell
`(0, 0)` and `2` elsewhere: detection triggers, `crseTot = 5 > 0`, `|SumN| = 0 < crseTot`,
`SumP = 3 > 0`, and yet the cell `(0, 0)` keeps its correction `-1`, so that
`fine_state + correction = -1 < 0` there. -/
theorem ccprotect_2d_caseA_zero_state_cell :
    ccprotect_detects 0 0 unitBlock ⟨2, 2⟩ 1 (cellData (-1) 2) (cellData 0 1) = true ∧
    (ccprotect_aggregates 0 0 unitBlock ⟨2, 2⟩ unitGeom 1 (cellData (-1) 2) (cellData 0 1)).crseTot
      = 5 ∧
    (ccprotect_aggregates 0 0 unitBlock ⟨2, 2⟩ unitGeom 1 (cellData (-1) 2) (cellData 0 1)).SumN
      = 0 ∧
    (ccprotect_aggregates 0 0 unitBlock ⟨2, 2⟩ unitGeom 1 (cellData (-1) 2) (cellData 0 1)).SumP
      = 3 ∧
    inFootprint 0 0 unitBlock ⟨2, 2⟩ 0 0 ∧
    (cellData 0 1).dat 0 0 0 1 +
      (ccprotect_2d 0 0 0 3 unitBlock ⟨2, 2⟩ unitGeom unitGeom (cellData (-1) 2)
        (cellData 0 1)).dat 0 0 0 1 = -1 := by
  have hb : ccprotect_ilo 0 unitBlock ⟨2, 2⟩ = 0 ∧ ccprotect_ihi 0 unitBlock ⟨2, 2⟩ = 1 ∧
      ccprotect_jlo 0 unitBlock ⟨2, 2⟩ = 0 ∧ ccprotect_jhi 0 unitBlock ⟨2, 2⟩ = 1 := by decide
  have h1 : ccprotect_detects 0 0 unitBlock ⟨2, 2⟩ 1 (cellData (-1) 2) (cellData 0 1) = true := by
    simp only [ccprotect_detects, hb, ccprotect_redo_me, forLe]
    norm_num [loopFrom, cellData]
  have h2 : (ccprotect_aggregates 0 0 unitBlock ⟨2, 2⟩ unitGeom 1 (cellData (-1) 2)
      (cellData 0 1)).crseTot = 5 := by
    simp only [ccprotect_aggregates, hb, ccprotect_sums, forLe]
    norm_num [loopFrom, cellData, ccprotect_fvol, unitGeom]
  have h3 : (ccprotect_aggregates 0 0 unitBlock ⟨2, 2⟩ unitGeom 1 (cellData (-1) 2)
      (cellData 0 1)).SumN = 0 := by
    simp only [ccprotect_aggregates, hb, ccprotect_sums, forLe]
    norm_num [loopFrom, cellData, ccprotect_fvol, unitGeom]
  have h4 : (ccprotect_aggregates 0 0 unitBlock ⟨2, 2⟩ unitGeom 1 (cellData (-1) 2)
      (cellData 0 1)).SumP = 3 := by
    simp only [ccprotect_aggregates, hb, ccprotect_sums, forLe]
    norm_num [loopFrom, cellData, ccprotect_fvol, unitGeom]
  have h5 : inFootprint 0 0 unitBlock ⟨2, 2⟩ 0 0 := by
    unfold inFootprint unitBlock; decide
  refine ⟨h1, h2, h3, h4, h5, ?_⟩
  rw [ccprotect_2d_repaired 0 0 0 3 unitBlock ⟨2, 2⟩ unitGeom unitGeom (cellData (-1) 2)
    (cellData 0 1) 1 (by decide) (by decide) h1 0 0 h5, h2, h3, h4]
  norm_num [ccprotect_newval, cellData]

/-- Claim C8. Case A conservation: for a component `n` in `1 .. nvar-2` and a footprint with
positive fine cell volumes in which every `fine_state` is non-zero and at least one is
positive, if detection triggers and `crseTot > 0`, `crseTot > |SumN|`, then the
volume-weighted sum over the footprint of `fine_state + correction` after the repair is
the volume-weighted sum of `fine_state` plus `crseTot`; that is, the volume-weighted sum
of the repaired correction is `crseTot`. -/
theorem ccprotect_2d_caseA_conservation (ic jc kc nvar : Int) (fine_bx : Box) (ratio : IntVect)
    (cs_geomdata fn_geomdata : GeometryData K) (fine fine_state : Array4 K)
    (n : Int) (hn1 : 1 ≤ n) (hn2 : n ≤ nvar - 2)
    (hvol : ∀ i j, inFootprint ic jc fine_bx ratio i j → 0 < ccprotect_fvol fn_geomdata i)
    (hnz : ∀ i j, inFootprint ic jc fine_bx ratio i j → fine_state.dat i j 0 n ≠ 0)
    (hpos : ∃ i j, inFootprint ic jc fine_bx ratio i j ∧ 0 < fine_state.dat i j 0 n)
    (hredo : ccprotect_detects ic jc fine_bx ratio n fine fine_state = true)
    (hct : (ccprotect_aggregates ic jc fine_bx ratio fn_geomdata n fine fine_state).crseTot > 0)
    (hct2 : (ccprotect_aggregates ic jc fine_bx ratio fn_geomdata n fine fine_state).crseTot >
      |(ccprotect_aggregates ic jc fine_bx ratio fn_geomdata n fine fine_state).SumN|) :
    footprintSum ic jc fine_bx ratio (fun i j => ccprotect_fvol fn_geomdata i *
        (fine_state.dat i j 0 n +
          (ccprotect_2d ic jc kc nvar fine_bx ratio cs_geomdata fn_geomdata fine fine_state).dat
            i j 0 n)) =
      footprintSum ic jc fine_bx ratio (fun i j =>
          ccprotect_fvol fn_geomdata i * fine_state.dat i j 0 n) +
        (ccprotect_aggregates ic jc fine_bx ratio fn_geomdata n fine fine_state).crseTot ∧
    footprintSum ic jc fine_bx ratio (fun i j => ccprotect_fvol fn_geomdata i *
        (ccprotect_2d ic jc kc nvar fine_bx ratio cs_geomdata fn_geomdata fine fine_state).dat
          i j 0 n) =
      (ccprotect_aggregates ic jc fine_bx ratio fn_geomdata n fine fine_state).crseTot := by
  have hmem : ∀ j ∈ Finset.Icc (ccprotect_jlo jc fine_bx ratio) (ccprotect_jhi jc fine_bx ratio),
      ∀ i ∈ Finset.Icc (ccprotect_ilo ic fine_bx ratio) (ccprotect_ihi ic fine_bx ratio),
      inFootprint ic jc fine_bx ratio i j := by
    intro j hj i hi
    rw [Finset.mem_Icc] at hj hi
    exact (inFootprint_iff ic jc fine_bx ratio i j).2 ⟨hi, hj⟩
  -- the aggregates as sums over the footprint
  have hN : (ccprotect_aggregates ic jc fine_bx ratio fn_geomdata n fine fine_state).SumN =
      ∑ j in Finset.Icc (ccprotect_jlo jc fine_bx ratio) (ccprotect_jhi jc fine_bx ratio),
        ∑ i in Finset.Icc (ccprotect_ilo ic fine_bx ratio) (ccprotect_ihi ic fine_bx ratio),
          if fine_state.dat i j 0 n ≤ 0 then ccprotect_fvol fn_geomdata i * fine_state.dat i j 0 n
          else 0 := ccprotect_sums_SumN _ _ _ _ _ _ _ _
  have hP : (ccprotect_aggregates ic jc fine_bx ratio fn_geomdata n fine fine_state).SumP =
      ∑ j in Finset.Icc (ccprotect_jlo jc fine_bx ratio) (ccprotect_jhi jc fine_bx ratio),
        ∑ i in Finset.Icc (ccprotect_ilo ic fine_bx ratio) (ccprotect_ihi ic fine_bx ratio),
          if fine_state.dat i j 0 n ≤ 0 then 0
          else ccprotect_fvol fn_geomdata i * fine_state.dat i j 0 n :=
    ccprotect_sums_SumP _ _ _ _ _ _ _ _
  have hNle : (ccprotect_aggregates ic jc fine_bx ratio fn_geomdata n fine fine_state).SumN ≤ 0 := by
    rw [hN]
    refine Finset.sum_nonpos (fun j hj => Finset.sum_nonpos (fun i hi => ?_))
    split_ifs with h
    · exact mul_nonpos_of_nonneg_of_nonpos (hvol i j (hmem j hj i hi)).le h
    · exact le_rfl
  have hPpos : 0 < (ccprotect_aggregates ic jc fine_bx ratio fn_geomdata n fine fine_state).SumP := by
    rw [hP]
    obtain ⟨i0, j0, hf0, hp0⟩ := hpos
    obtain ⟨hi0, hj0⟩ := (inFootprint_iff ic jc fine_bx ratio i0 j0).1 hf0
    have hterm : ∀ j ∈ Finset.Icc (ccprotect_jlo jc fine_bx ratio) (ccprotect_jhi jc fine_bx ratio),
        ∀ i ∈ Finset.Icc (ccprotect_ilo ic fine_bx ratio) (ccprotect_ihi ic fine_bx ratio),
        0 ≤ (if fine_state.dat i j 0 n ≤ 0 then 0
          else ccprotect_fvol fn_geomdata i * fine_state.dat i j 0 n) := by
      intro j hj i hi
      split_ifs with h
      · exact le_rfl
      · exact mul_nonneg (hvol i j (hmem j hj i hi)).le (not_le.1 h).le
    refine Finset.sum_pos' (fun j hj => Finset.sum_nonneg (hterm j hj))
      ⟨j0, Finset.mem_Icc.2 hj0, ?_⟩
    refine Finset.sum_pos' (hterm j0 (Finset.mem_Icc.2 hj0)) ⟨i0, Finset.mem_Icc.2 hi0, ?_⟩
    rw [if_neg (not_le.2 hp0)]
    exact mul_pos (hvol i0 j0 hf0) hp0
  -- the repaired correction in each footprint cell
  have hcell : ∀ j ∈ Finset.Icc (ccprotect_jlo jc fine_bx ratio) (ccprotect_jhi jc fine_bx ratio),
      ∀ i ∈ Finset.Icc (ccprotect_ilo ic fine_bx ratio) (ccprotect_ihi ic fine_bx ratio),
      ccprotect_fvol fn_geomdata i *
        (ccprotect_2d ic jc kc nvar fine_bx ratio cs_geomdata fn_geomdata fine fine_state).dat
          i j 0 n =
      ((ccprotect_aggregates ic jc fine_bx ratio fn_geomdata n fine fine_state).crseTot
        - |(ccprotect_aggregates ic jc fine_bx ratio fn_geomdata n fine fine_state).SumN|) /
        (ccprotect_aggregates ic jc fine_bx ratio fn_geomdata n fine fine_state).SumP *
        (if fine_state.dat i j 0 n ≤ 0 then 0
          else ccprotect_fvol fn_geomdata i * fine_state.dat i j 0 n)
      - (if fine_state.dat i j 0 n ≤ 0 then ccprotect_fvol fn_geomdata i * fine_state.dat i j 0 n
          else 0) := by
    intro j hj i hi
    have hf := hmem j hj i hi
    rw [ccprotect_2d_repaired ic jc kc nvar fine_bx ratio cs_geomdata fn_geomdata fine fine_state
      n hn1 hn2 hredo i j hf]
    unfold ccprotect_newval
    rw [if_pos ⟨hct, hct2⟩, if_pos hPpos]
    rcases lt_or_gt_of_ne (hnz i j hf) with h | h
    · rw [if_neg (not_lt.2 h.le), if_pos h, if_pos h.le, if_pos h.le]; ring
    · rw [if_pos h, if_neg (not_le.2 h), if_neg (not_le.2 h)]; ring
  have hsum : footprintSum ic jc fine_bx ratio (fun i j => ccprotect_fvol fn_geomdata i *
        (ccprotect_2d ic jc kc nvar fine_bx ratio cs_geomdata fn_geomdata fine fine_state).dat
          i j 0 n) =
      (ccprotect_aggregates ic jc fine_bx ratio fn_geomdata n fine fine_state).crseTot := by
    have e1 : footprintSum ic jc fine_bx ratio (fun i j => ccprotect_fvol fn_geomdata i *
        (ccprotect_2d ic jc kc nvar fine_bx ratio cs_geomdata fn_geomdata fine fine_state).dat
          i j 0 n) =
        ((ccprotect_aggregates ic jc fine_bx ratio fn_geomdata n fine fine_state).crseTot
          - |(ccprotect_aggregates ic jc fine_bx ratio fn_geomdata n fine fine_state).SumN|) /
          (ccprotect_aggregates ic jc fine_bx ratio fn_geomdata n fine fine_state).SumP *
          (∑ j in Finset.Icc (ccprotect_jlo jc fine_bx ratio) (ccprotect_jhi jc fine_bx ratio),
            ∑ i in Finset.Icc (ccprotect_ilo ic fine_bx ratio) (ccprotect_ihi ic fine_bx ratio),
              if fine_state.dat i j 0 n ≤ 0 then 0
              else ccprotect_fvol fn_geomdata i * fine_state.dat i j 0 n)
        - (∑ j in Finset.Icc (ccprotect_jlo jc fine_bx ratio) (ccprotect_jhi jc fine_bx ratio),
            ∑ i in Finset.Icc (ccprotect_ilo ic fine_bx ratio) (ccprotect_ihi ic fine_bx ratio),
              if fine_state.dat i j 0 n ≤ 0 then
                ccprotect_fvol fn_geomdata i * fine_state.dat i j 0 n
              else 0) := by
      unfold footprintSum
      rw [Finset.mul_sum, ← Finset.sum_sub_distrib]
      refine Finset.sum_congr rfl (fun j hj => ?_)
      rw [Finset.mul_sum, ← Finset.sum_sub_distrib]
      exact Finset.sum_congr rfl (fun i hi => hcell j hj i hi)
    rw [e1, ← hP, ← hN]
    rw [abs_of_nonpos hNle, div_mul_cancel₀ _ hPpos.ne']
    ring
  refine ⟨?_, hsum⟩
  rw [← hsum]
  unfold footprintSum
  rw [← Finset.sum_add_distrib]
  refine Finset.sum_congr rfl (fun j _ => ?_)
  rw [← Finset.sum_add_distrib]
  exact Finset.sum_congr rfl (fun i _ => by ring)

/-! ## Conservative positivity correction: detection -/

/-- Claim C10. Detection: for a component `n` in `1 .. nvar-2`, if
`fine_state + fine` is non-negative in every cell of the clipped footprint, then
`ccprotect_2d` leaves `fine(i, j, k, n)` unchanged at every index: no repair is applied to
that component, whatever its aggregates are. -/
theorem ccprotect_2d_detection_frame (ic jc kc nvar : Int) (fine_bx : Box) (ratio : IntVect)
    (cs_geomdata fn_geomdata : GeometryData K) (fine fine_state : Array4 K)
    (n : Int) (hn1 : 1 ≤ n) (hn2 : n ≤ nvar - 2)
    (h : ∀ i j, inFootprint ic jc fine_bx ratio i j →
      0 ≤ fine_state.dat i j 0 n + fine.dat i j 0 n) :
    ∀ i j k : Int,
      (ccprotect_2d ic jc kc nvar fine_bx ratio cs_geomdata fn_geomdata fine fine_state).dat
        i j k n = fine.dat i j k n := by
  intro i j k
  have hredo : ccprotect_redo_me (ccprotect_ilo ic fine_bx ratio) (ccprotect_ihi ic fine_bx ratio)
      (ccprotect_jlo jc fine_bx ratio) (ccprotect_jhi jc fine_bx ratio) n fine fine_state
      = false :=
    ccprotect_redo_me_false _ _ _ _ _ _ _ (fun i j h1 h2 h3 h4 =>
      h i j ((inFootprint_iff ic jc fine_bx ratio i j).2 ⟨⟨h1, h2⟩, h3, h4⟩))
  rw [ccprotect_2d_dat _ _ _ _ _ _ _ _ _ _ n hn1 hn2, ccprotect_comp_dat, hredo]
  simp

/-! ## Worked instances of the positivity correction -/

/-- The sample footprint `fine_state = (-2, 1, 1, 1)`, correction `(-1, 3, 3, 3)` with unit
volumes: detection triggers, `crseTot = 8`, `SumN = -2`, `SumP = 3`. -/
theorem caseA_sample :
    ccprotect_detects 0 0 unitBlock ⟨2, 2⟩ 1 (cellData (-1) 3) (cellData (-2) 1) = true ∧
    (ccprotect_aggregates 0 0 unitBlock ⟨2, 2⟩ unitGeom 1 (cellData (-1) 3)
      (cellData (-2) 1)).crseTot = 8 ∧
    (ccprotect_aggregates 0 0 unitBlock ⟨2, 2⟩ unitGeom 1 (cellData (-1) 3)
      (cellData (-2) 1)).SumN = -2 ∧
    (ccprotect_aggregates 0 0 unitBlock ⟨2, 2⟩ unitGeom 1 (cellData (-1) 3)
      (cellData (-2) 1)).SumP = 3 := by
  have hb : ccprotect_ilo 0 unitBlock ⟨2, 2⟩ = 0 ∧ ccprotect_ihi 0 unitBlock ⟨2, 2⟩ = 1 ∧
      ccprotect_jlo 0 unitBlock ⟨2, 2⟩ = 0 ∧ ccprotect_jhi 0 unitBlock ⟨2, 2⟩ = 1 := by decide
  refine ⟨?_, ?_, ?_, ?_⟩
  · simp only [ccprotect_detects, hb, ccprotect_redo_me, forLe]
    norm_num [loopFrom, cellData]
  · simp only [ccprotect_aggregates, hb, ccprotect_sums, forLe]
    norm_num [loopFrom, cellData, ccprotect_fvol, unitGeom]
  · simp only [ccprotect_aggregates, hb, ccprotect_sums, forLe]
    norm_num [loopFrom, cellData, ccprotect_fvol, unitGeom]
  · simp only [ccprotect_aggregates, hb, ccprotect_sums, forLe]
    norm_num [loopFrom, cellData, ccprotect_fvol, unitGeom]

/-- The cell `(0, 0)` lies in the footprint of the coarse cell `(0, 0)`. -/
theorem unitBlock_origin : inFootprint 0 0 unitBlock ⟨2, 2⟩ 0 0 := by
  unfold inFootprint unitBlock; decide

/-- Witness for C6: the closure at the cell `(0, 0)` of the sample footprint. -/
theorem ccprotect_2d_closure_witness :
    (ccprotect_2d 0 0 0 3 unitBlock ⟨2, 2⟩ unitGeom unitGeom (cellData (-1) 3)
        (cellData (-2) 1)).dat 0 0 0 0 =
        ∑ n in Finset.Icc 1 (3 - 2),
          (ccprotect_2d 0 0 0 3 unitBlock ⟨2, 2⟩ unitGeom unitGeom (cellData (-1) 3)
            (cellData (-2) 1)).dat 0 0 0 n ∧
      ((3 : Int) - 2 < 1 →
        (ccprotect_2d 0 0 0 3 unitBlock ⟨2, 2⟩ unitGeom unitGeom (cellData (-1) 3)
          (cellData (-2) 1)).dat 0 0 0 0 = 0) :=
  ccprotect_2d_closure 0 0 0 3 unitBlock ⟨2, 2⟩ unitGeom unitGeom (cellData (-1) 3)
    (cellData (-2) 1) 0 0 unitBlock_origin

/-- Witness for C7: the negative cell `(0, 0)` of the sample footprint is zeroed. -/
theorem ccprotect_2d_caseA_zeroing_witness :
    (ccprotect_2d 0 0 0 3 unitBlock ⟨2, 2⟩ unitGeom unitGeom (cellData (-1) 3)
        (cellData (-2) 1)).dat 0 0 0 1 = -(cellData (-2) 1).dat 0 0 0 1 ∧
      (cellData (-2) 1).dat 0 0 0 1 +
        (ccprotect_2d 0 0 0 3 unitBlock ⟨2, 2⟩ unitGeom unitGeom (cellData (-1) 3)
          (cellData (-2) 1)).dat 0 0 0 1 = 0 :=
  ccprotect_2d_caseA_zeroing 0 0 0 3 unitBlock ⟨2, 2⟩ unitGeom unitGeom (cellData (-1) 3)
    (cellData (-2) 1) 1 (by decide) (by decide) caseA_sample.1
    (by rw [caseA_sample.2.1]; norm_num)
    (by rw [caseA_sample.2.1, caseA_sample.2.2.1]; norm_num)
    (by rw [caseA_sample.2.2.2]; norm_num)
    0 0 unitBlock_origin (by norm_num [cellData])

/-- Witness for C8: conservation on the sample footprint. -/
theorem ccprotect_2d_caseA_conservation_witness :
    footprintSum 0 0 unitBlock ⟨2, 2⟩ (fun i j => ccprotect_fvol unitGeom i *
        ((cellData (-2) 1).dat i j 0 1 +
          (ccprotect_2d 0 0 0 3 unitBlock ⟨2, 2⟩ unitGeom unitGeom (cellData (-1) 3)
            (cellData (-2) 1)).dat i j 0 1)) =
      footprintSum 0 0 unitBlock ⟨2, 2⟩ (fun i j =>
          ccprotect_fvol unitGeom i * (cellData (-2) 1).dat i j 0 1) +
        (ccprotect_aggregates 0 0 unitBlock ⟨2, 2⟩ unitGeom 1 (cellData (-1) 3)
          (cellData (-2) 1)).crseTot ∧
    footprintSum 0 0 unitBlock ⟨2, 2⟩ (fun i j => ccprotect_fvol unitGeom i *
        (ccprotect_2d 0 0 0 3 unitBlock ⟨2, 2⟩ unitGeom unitGeom (cellData (-1) 3)
          (cellData (-2) 1)).dat i j 0 1) =
      (ccprotect_aggregates 0 0 unitBlock ⟨2, 2⟩ unitGeom 1 (cellData (-1) 3)
        (cellData (-2) 1)).crseTot :=
  ccprotect_2d_caseA_conservation 0 0 0 3 unitBlock ⟨2, 2⟩ unitGeom unitGeom (cellData (-1) 3)
    (cellData (-2) 1) 1 (by decide) (by decide)
    (fun _ _ _ => by norm_num [ccprotect_fvol, unitGeom])
    (fun i j _ => by simp only [cellData]; split_ifs <;> norm_num)
    ⟨1, 1, by unfold inFootprint unitBlock; decide, by norm_num [cellData]⟩
    caseA_sample.1
    (by rw [caseA_sample.2.1]; norm_num)
    (by rw [caseA_sample.2.1, caseA_sample.2.2.1]; norm_num)

/-- Witness for C10: `fine_state = (1, 1, 1, 1)` and correction `(-1, 3, 3, 3)`, whose
sums are non-negative in every cell; the correction of the cell `(0, 0)` is unchanged. -/
theorem ccprotect_2d_detection_frame_witness :
    (ccprotect_2d 0 0 0 3 unitBlock ⟨2, 2⟩ unitGeom unitGeom (cellData (-1) 3)
      (cellData 1 1)).dat 0 0 0 1 = (cellData (-1) 3).dat 0 0 0 1 :=
  ccprotect_2d_detection_frame 0 0 0 3 unitBlock ⟨2, 2⟩ unitGeom unitGeom (cellData (-1) 3)
    (cellData 1 1) 1 (by decide) (by decide)
    (fun i j _ => by simp only [cellData]; split_ifs <;> norm_num) 0 0 0

/-! ## Conservative positivity correction: the dispatch -/

/-- The per-cell outcome written with the named dispatch conditions: the first condition
that holds, in the order A, B, C, D, E, selects the branch. -/
theorem ccprotect_newval_dispatch (crseTot SumN SumP cvol st x : K) :
    ccprotect_newval crseTot SumN SumP cvol st x =
      if ccprotect_condA crseTot SumN then
        if SumP > 0 then
          if st > 0 then (crseTot - |SumN|) / SumP * st
          else if st < 0 then -st else x
        else (if st < 0 then -st else x) + (crseTot - |SumN|) / cvol
      else if ccprotect_condB crseTot SumN then
        if st < 0 then crseTot / |SumN| * |st| else 0
      else if ccprotect_condC crseTot SumP then
        (SumP + SumN + crseTot) / cvol - st
      else if ccprotect_condD crseTot SumN SumP then
        if st < 0 then -st else (crseTot + SumN) / SumP * st
      else if ccprotect_condE crseTot SumN SumP then
        if st > 0 then -st else (crseTot + SumP) / SumN * st
      else x := rfl

/-- With `crseTot = 0` none of the five dispatch conditions holds. -/
theorem ccprotect_no_case_of_crseTot_zero (SumN SumP : K) :
    ¬ ccprotect_condA (0 : K) SumN ∧ ¬ ccprotect_condB (0 : K) SumN ∧
      ¬ ccprotect_condC (0 : K) SumP ∧ ¬ ccprotect_condD (0 : K) SumN SumP ∧
      ¬ ccprotect_condE (0 : K) SumN SumP := by
  unfold ccprotect_condA ccprotect_condB ccprotect_condC ccprotect_condD ccprotect_condE
  refine ⟨?_, ?_, ?_, ?_, ?_⟩ <;> intro h <;> exact lt_irrefl _ h.1

/-- When `crseTot = 0` for a component `n` in `1 .. nvar-2`, no special case runs and
`ccprotect_2d` leaves the component unchanged, whether or not detection triggers. -/
theorem ccprotect_2d_crseTot_zero (ic jc kc nvar : Int) (fine_bx : Box) (ratio : IntVect)
    (cs_geomdata fn_geomdata : GeometryData K) (fine fine_state : Array4 K)
    (n : Int) (hn1 : 1 ≤ n) (hn2 : n ≤ nvar - 2)
    (h0 : (ccprotect_aggregates ic jc fine_bx ratio fn_geomdata n fine fine_state).crseTot = 0)
    (i j k : Int) :
    (ccprotect_2d ic jc kc nvar fine_bx ratio cs_geomdata fn_geomdata fine fine_state).dat
      i j k n = fine.dat i j k n := by
  unfold ccprotect_aggregates at h0
  rw [ccprotect_2d_dat _ _ _ _ _ _ _ _ _ _ n hn1 hn2, ccprotect_comp_dat, h0,
    ccprotect_newval_dispatch]
  obtain ⟨hA, hB, hC, hD, hE⟩ := ccprotect_no_case_of_crseTot_zero
    (ccprotect_sums (ccprotect_ilo ic fine_bx ratio) (ccprotect_ihi ic fine_bx ratio)
      (ccprotect_jlo jc fine_bx ratio) (ccprotect_jhi jc fine_bx ratio) n fn_geomdata fine
      fine_state).SumN
    (ccprotect_sums (ccprotect_ilo ic fine_bx ratio) (ccprotect_ihi ic fine_bx ratio)
      (ccprotect_jlo jc fine_bx ratio) (ccprotect_jhi jc fine_bx ratio) n fn_geomdata fine
      fine_state).SumP
  rw [if_neg hA, if_neg hB, if_neg hC, if_neg hD, if_neg hE, ite_self]

/-- The footprint of the spec's dispatch example, `fine_state = (-2, 5, 5, 5)` and
correction `(-3, 1, 1, 1)` with unit volumes: detection triggers, `crseTot = 0`,
`SumN = -2`, `SumP = 15`. -/
theorem zeroTotal_sample :
    ccprotect_detects 0 0 unitBlock ⟨2, 2⟩ 1 (cellData (-3) 1) (cellData (-2) 5) = true ∧
    (ccprotect_aggregates 0 0 unitBlock ⟨2, 2⟩ unitGeom 1 (cellData (-3) 1)
      (cellData (-2) 5)).crseTot = 0 ∧
    (ccprotect_aggregates 0 0 unitBlock ⟨2, 2⟩ unitGeom 1 (cellData (-3) 1)
      (cellData (-2) 5)).SumN = -2 ∧
    (ccprotect_aggregates 0 0 unitBlock ⟨2, 2⟩ unitGeom 1 (cellData (-3) 1)
      (cellData (-2) 5)).SumP = 15 := by
  have hb : ccprotect_ilo 0 unitBlock ⟨2, 2⟩ = 0 ∧ ccprotect_ihi 0 unitBlock ⟨2, 2⟩ = 1 ∧
      ccprotect_jlo 0 unitBlock ⟨2, 2⟩ = 0 ∧ ccprotect_jhi 0 unitBlock ⟨2, 2⟩ = 1 := by decide
  refine ⟨?_, ?_, ?_, ?_⟩
  · simp only [ccprotect_detects, hb, ccprotect_redo_me, forLe]
    norm_num [loopFrom, cellData]
  · simp only [ccprotect_aggregates, hb, ccprotect_sums, forLe]
    norm_num [loopFrom, cellData, ccprotect_fvol, unitGeom]
  · simp only [ccprotect_aggregates, hb, ccprotect_sums, forLe]
    norm_num [loopFrom, cellData, ccprotect_fvol, unitGeom]
  · simp only [ccprotect_aggregates, hb, ccprotect_sums, forLe]
    norm_num [loopFrom, cellData, ccprotect_fvol, unitGeom]

/-- Claim C11. (as stated, refuted) For `fine_state = (-2, 5, 5, 5)` and correction
`(-3, 1, 1, 1)` on four unit-volume cells it is not the case that detection triggers,
`crseTot = 0` and the dispatch condition of Case C, D or E holds: each of these
conditions requires `crseTot < 0`. -/
theorem ccprotect_2d_zero_crseTot_not_negative_case :
    ¬ (ccprotect_detects 0 0 unitBlock ⟨2, 2⟩ 1 (cellData (-3) 1) (cellData (-2) 5) = true ∧
      (ccprotect_aggregates 0 0 unitBlock ⟨2, 2⟩ unitGeom 1 (cellData (-3) 1)
        (cellData (-2) 5)).crseTot = 0 ∧
      (ccprotect_condC
          (ccprotect_aggregates 0 0 unitBlock ⟨2, 2⟩ unitGeom 1 (cellData (-3) 1)
            (cellData (-2) 5)).crseTot
          (ccprotect_aggregates 0 0 unitBlock ⟨2, 2⟩ unitGeom 1 (cellData (-3) 1)
            (cellData (-2) 5)).SumP ∨
        ccprotect_condD
          (ccprotect_aggregates 0 0 unitBlock ⟨2, 2⟩ unitGeom 1 (cellData (-3) 1)
            (cellData (-2) 5)).crseTot
          (ccprotect_aggregates 0 0 unitBlock ⟨2, 2⟩ unitGeom 1 (cellData (-3) 1)
            (cellData (-2) 5)).SumN
          (ccprotect_aggregates 0 0 unitBlock ⟨2, 2⟩ unitGeom 1 (cellData (-3) 1)
            (cellData (-2) 5)).SumP ∨
        ccprotect_condE
          (ccprotect_aggregates 0 0 unitBlock ⟨2, 2⟩ unitGeom 1 (cellData (-3) 1)
            (cellData (-2) 5)).crseTot
          (ccprotect_aggregates 0 0 unitBlock ⟨2, 2⟩ unitGeom 1 (cellData (-3) 1)
            (cellData (-2) 5)).SumN
          (ccprotect_aggregates 0 0 unitBlock ⟨2, 2⟩ unitGeom 1 (cellData (-3) 1)
            (cellData (-2) 5)).SumP)) := by
  rintro ⟨_, h0, h⟩
  rw [h0] at h
  obtain ⟨_, _, hC, hD, hE⟩ := ccprotect_no_case_of_crseTot_zero
    (ccprotect_aggregates 0 0 unitBlock ⟨2, 2⟩ unitGeom 1 (cellData (-3) 1)
      (cellData (-2) 5)).SumN
    (ccprotect_aggregates 0 0 unitBlock ⟨2, 2⟩ unitGeom 1 (cellData (-3) 1)
      (cellData (-2) 5)).SumP
  rcases h with h | h | h
  · exact hC h
  · exact hD h
  · exact hE h

/-- Claim C11. (amended) For `fine_state = (-2, 5, 5, 5)` and correction `(-3, 1, 1, 1)` on
four unit-volume cells (Cartesian, ratio `(2, 2)`), detection triggers, `crseTot = 0`,
and none of the five special cases is selected, Case A included: `ccprotect_2d` leaves the
correction of the component unchanged at every index, so the cell with
`fine_state = -2` keeps its correction `-3`. -/
theorem ccprotect_2d_zero_crseTot_no_case :
    ccprotect_detects 0 0 unitBlock ⟨2, 2⟩ 1 (cellData (-3) 1) (cellData (-2) 5) = true ∧
    (ccprotect_aggregates 0 0 unitBlock ⟨2, 2⟩ unitGeom 1 (cellData (-3) 1)
          (cellData (-2) 5)).crseTot = 0 ∧
    (¬ ccprotect_condA
        (ccprotect_aggregates 0 0 unitBlock ⟨2, 2⟩ unitGeom 1 (cellData (-3) 1)
          (cellData (-2) 5)).crseTot
        (ccprotect_aggregates 0 0 unitBlock ⟨2, 2⟩ unitGeom 1 (cellData (-3) 1)
          (cellData (-2) 5)).SumN ∧
      ¬ ccprotect_condB
        (ccprotect_aggregates 0 0 unitBlock ⟨2, 2⟩ unitGeom 1 (cellData (-3) 1)
          (cellData (-2) 5)).crseTot
        (ccprotect_aggregates 0 0 unitBlock ⟨2, 2⟩ unitGeom 1 (cellData (-3) 1)
          (cellData (-2) 5)).SumN ∧
      ¬ ccprotect_condC
        (ccprotect_aggregates 0 0 unitBlock ⟨2, 2⟩ unitGeom 1 (cellData (-3) 1)
          (cellData (-2) 5)).crseTot
        (ccprotect_aggregates 0 0 unitBlock ⟨2, 2⟩ unitGeom 1 (cellData (-3) 1)
          (cellData (-2) 5)).SumP ∧
      ¬ ccprotect_condD
        (ccprotect_aggregates 0 0 unitBlock ⟨2, 2⟩ unitGeom 1 (cellData (-3) 1)
          (cellData (-2) 5)).crseTot
        (ccprotect_aggregates 0 0 unitBlock ⟨2, 2⟩ unitGeom 1 (cellData (-3) 1)
          (cellData (-2) 5)).SumN
        (ccprotect_aggregates 0 0 unitBlock ⟨2, 2⟩ unitGeom 1 (cellData (-3) 1)
          (cellData (-2) 5)).SumP ∧
      ¬ ccprotect_condE
        (ccprotect_aggregates 0 0 unitBlock ⟨2, 2⟩ unitGeom 1 (cellData (-3) 1)
          (cellData (-2) 5)).crseTot
        (ccprotect_aggregates 0 0 unitBlock ⟨2, 2⟩ unitGeom 1 (cellData (-3) 1)
          (cellData (-2) 5)).SumN
        (ccprotect_aggregates 0 0 unitBlock ⟨2, 2⟩ unitGeom 1 (cellData (-3) 1)
          (cellData (-2) 5)).SumP) ∧
    (∀ i j k : Int,
      (ccprotect_2d 0 0 0 3 unitBlock ⟨2, 2⟩ coarseGeom unitGeom (cellData (-3) 1)
        (cellData (-2) 5)).dat i j k 1 = (cellData (-3) 1).dat i j k 1) ∧
    (ccprotect_2d 0 0 0 3 unitBlock ⟨2, 2⟩ coarseGeom unitGeom (cellData (-3) 1)
      (cellData (-2) 5)).dat 0 0 0 1 = -3 :=
  ⟨zeroTotal_sample.1, zeroTotal_sample.2.1,
    by rw [zeroTotal_sample.2.1]; exact ccprotect_no_case_of_crseTot_zero _ _,
    fun i j k => ccprotect_2d_crseTot_zero 0 0 0 3 unitBlock ⟨2, 2⟩ coarseGeom unitGeom
      (cellData (-3) 1) (cellData (-2) 5) 1 (by decide) (by decide) zeroTotal_sample.2.1 i j k,
    (ccprotect_2d_crseTot_zero 0 0 0 3 unitBlock ⟨2, 2⟩ coarseGeom unitGeom
      (cellData (-3) 1) (cellData (-2) 5) 1 (by decide) (by decide) zeroTotal_sample.2.1
      0 0 0).trans (by norm_num [cellData])⟩

/-! ## Conservative positivity correction: special cases 3, 4 and 5 -/

/-- With non-negative fine cell volumes on the footprint, the aggregate `SumN` is
non-positive. -/
theorem ccprotect_SumN_nonpos (ic jc : Int) (fine_bx : Box) (ratio : IntVect)
    (fn_geomdata : GeometryData K) (n : Int) (fine fine_state : Array4 K)
    (hvol : ∀ i j, inFootprint ic jc fine_bx ratio i j → 0 ≤ ccprotect_fvol fn_geomdata i) :
    (ccprotect_aggregates ic jc fine_bx ratio fn_geomdata n fine fine_state).SumN ≤ 0 := by
  unfold ccprotect_aggregates
  rw [ccprotect_sums_SumN]
  refine Finset.sum_nonpos (fun j hj => Finset.sum_nonpos (fun i hi => ?_))
  rw [Finset.mem_Icc] at hj hi
  split_ifs with h
  · exact mul_nonpos_of_nonneg_of_nonpos
      (hvol i j ((inFootprint_iff ic jc fine_bx ratio i j).2 ⟨hi, hj⟩)) h
  · exact le_rfl

/-- Claim C12. Case D non-negativity: for a component `n` in `1 .. nvar-2` for which
detection triggers and `crseTot < 0`, `|crseTot| < SumP`, `SumP + SumN + crseTot > 0`,
after the repair `fine_state + correction` is non-negative in every footprint cell: it is
exactly `0` where `fine_state < 0` and `fine_state * (SumP + SumN + crseTot) / SumP`
elsewhere. -/
theorem ccprotect_2d_caseD_nonneg (ic jc kc nvar : Int) (fine_bx : Box) (ratio : IntVect)
    (cs_geomdata fn_geomdata : GeometryData K) (fine fine_state : Array4 K)
    (n : Int) (hn1 : 1 ≤ n) (hn2 : n ≤ nvar - 2)
    (hredo : ccprotect_detects ic jc fine_bx ratio n fine fine_state = true)
    (h1 : (ccprotect_aggregates ic jc fine_bx ratio fn_geomdata n fine fine_state).crseTot < 0) (h2 : |(ccprotect_aggregates ic jc fine_bx ratio fn_geomdata n fine fine_state).crseTot| < (ccprotect_aggregates ic jc fine_bx ratio fn_geomdata n fine fine_state).SumP)
    (h3 : (ccprotect_aggregates ic jc fine_bx ratio fn_geomdata n fine fine_state).SumP + (ccprotect_aggregates ic jc fine_bx ratio fn_geomdata n fine fine_state).SumN + (ccprotect_aggregates ic jc fine_bx ratio fn_geomdata n fine fine_state).crseTot > 0)
    (i j : Int) (hfoot : inFootprint ic jc fine_bx ratio i j) :
    0 ≤ fine_state.dat i j 0 n + (ccprotect_2d ic jc kc nvar fine_bx ratio cs_geomdata fn_geomdata fine fine_state).dat i j 0 n ∧
    (fine_state.dat i j 0 n < 0 → fine_state.dat i j 0 n + (ccprotect_2d ic jc kc nvar fine_bx ratio cs_geomdata fn_geomdata fine fine_state).dat i j 0 n = 0) ∧
    (¬ fine_state.dat i j 0 n < 0 →
      fine_state.dat i j 0 n + (ccprotect_2d ic jc kc nvar fine_bx ratio cs_geomdata fn_geomdata fine fine_state).dat i j 0 n =
        fine_state.dat i j 0 n * ((ccprotect_aggregates ic jc fine_bx ratio fn_geomdata n fine fine_state).SumP + (ccprotect_aggregates ic jc fine_bx ratio fn_geomdata n fine fine_state).SumN + (ccprotect_aggregates ic jc fine_bx ratio fn_geomdata n fine fine_state).crseTot) / (ccprotect_aggregates ic jc fine_bx ratio fn_geomdata n fine fine_state).SumP) := by
  have hP : 0 < (ccprotect_aggregates ic jc fine_bx ratio fn_geomdata n fine fine_state).SumP := lt_of_le_of_lt (abs_nonneg _) h2
  have hval : (ccprotect_2d ic jc kc nvar fine_bx ratio cs_geomdata fn_geomdata fine fine_state).dat i j 0 n =
      if fine_state.dat i j 0 n < 0 then -fine_state.dat i j 0 n
      else ((ccprotect_aggregates ic jc fine_bx ratio fn_geomdata n fine fine_state).crseTot + (ccprotect_aggregates ic jc fine_bx ratio fn_geomdata n fine fine_state).SumN) / (ccprotect_aggregates ic jc fine_bx ratio fn_geomdata n fine fine_state).SumP * fine_state.dat i j 0 n := by
    rw [ccprotect_2d_repaired ic jc kc nvar fine_bx ratio cs_geomdata fn_geomdata fine fine_state
      n hn1 hn2 hredo i j hfoot, ccprotect_newval_dispatch,
      if_neg (fun h => lt_asymm h1 h.1), if_neg (fun h => lt_asymm h1 h.1),
      if_neg (fun h => lt_asymm h2 h.2), if_pos ⟨h1, h2, h3⟩]
  have hneg : fine_state.dat i j 0 n < 0 → fine_state.dat i j 0 n + (ccprotect_2d ic jc kc nvar fine_bx ratio cs_geomdata fn_geomdata fine fine_state).dat i j 0 n = 0 := by
    intro h
    rw [hval, if_pos h]; ring
  have hpos : ¬ fine_state.dat i j 0 n < 0 →
      fine_state.dat i j 0 n + (ccprotect_2d ic jc kc nvar fine_bx ratio cs_geomdata fn_geomdata fine fine_state).dat i j 0 n =
        fine_state.dat i j 0 n * ((ccprotect_aggregates ic jc fine_bx ratio fn_geomdata n fine fine_state).SumP + (ccprotect_aggregates ic jc fine_bx ratio fn_geomdata n fine fine_state).SumN + (ccprotect_aggregates ic jc fine_bx ratio fn_geomdata n fine fine_state).crseTot) / (ccprotect_aggregates ic jc fine_bx ratio fn_geomdata n fine fine_state).SumP := by
    intro h
    rw [hval, if_neg h]
    field_simp
    ring
  refine ⟨?_, hneg, hpos⟩
  by_cases h : fine_state.dat i j 0 n < 0
  · rw [hneg h]
  · rw [hpos h]
    exact div_nonneg (mul_nonneg (not_lt.1 h) h3.le) hP.le

/-- Claim C13. Case C common value: for a component `n` in `1 .. nvar-2` for which
detection triggers and `crseTot < 0`, `|crseTot| > SumP`, and a coarse cell volume
`cvol ≠ 0` (so that the division by `cvol` is defined), after the repair every footprint
cell has `fine_state + correction = (SumP + SumN + crseTot) / cvol`; this common value is
negative whenever the fine cell volumes of the footprint and the coarse cell volume are
positive. -/
theorem ccprotect_2d_caseC_common_value (ic jc kc nvar : Int) (fine_bx : Box) (ratio : IntVect)
    (cs_geomdata fn_geomdata : GeometryData K) (fine fine_state : Array4 K)
    (n : Int) (hn1 : 1 ≤ n) (hn2 : n ≤ nvar - 2)
    (hredo : ccprotect_detects ic jc fine_bx ratio n fine fine_state = true)
    (h1 : (ccprotect_aggregates ic jc fine_bx ratio fn_geomdata n fine fine_state).crseTot < 0) (h2 : |(ccprotect_aggregates ic jc fine_bx ratio fn_geomdata n fine fine_state).crseTot| > (ccprotect_aggregates ic jc fine_bx ratio fn_geomdata n fine fine_state).SumP)
    (hcv : ccprotect_cvol cs_geomdata ic ≠ 0)
    (i j : Int) (hfoot : inFootprint ic jc fine_bx ratio i j) :
    fine_state.dat i j 0 n + (ccprotect_2d ic jc kc nvar fine_bx ratio cs_geomdata fn_geomdata fine fine_state).dat i j 0 n =
        ((ccprotect_aggregates ic jc fine_bx ratio fn_geomdata n fine fine_state).SumP + (ccprotect_aggregates ic jc fine_bx ratio fn_geomdata n fine fine_state).SumN + (ccprotect_aggregates ic jc fine_bx ratio fn_geomdata n fine fine_state).crseTot) / ccprotect_cvol cs_geomdata ic ∧
    ((∀ i j, inFootprint ic jc fine_bx ratio i j → 0 < ccprotect_fvol fn_geomdata i) →
      0 < ccprotect_cvol cs_geomdata ic →
      ((ccprotect_aggregates ic jc fine_bx ratio fn_geomdata n fine fine_state).SumP + (ccprotect_aggregates ic jc fine_bx ratio fn_geomdata n fine fine_state).SumN + (ccprotect_aggregates ic jc fine_bx ratio fn_geomdata n fine fine_state).crseTot) / ccprotect_cvol cs_geomdata ic < 0) := by
  constructor
  · rw [ccprotect_2d_repaired ic jc kc nvar fine_bx ratio cs_geomdata fn_geomdata fine fine_state
      n hn1 hn2 hredo i j hfoot, ccprotect_newval_dispatch,
      if_neg (fun h => lt_asymm h1 h.1), if_neg (fun h => lt_asymm h1 h.1), if_pos ⟨h1, h2⟩,
      eq_div_iff hcv]
    field_simp
    ring
  · intro hvol hcvol
    have hN := ccprotect_SumN_nonpos ic jc fine_bx ratio fn_geomdata n fine fine_state
      (fun i j h => (hvol i j h).le)
    rw [abs_of_neg h1] at h2
    exact div_neg_of_neg_of_pos (by linarith) hcvol

/-- Claim C14. Case E arithmetic: for a component `n` in `1 .. nvar-2` for which detection
triggers and `crseTot < 0`, `|crseTot| < SumP`, `SumP + SumN + crseTot < 0`, the aggregate
`SumN` is non-zero and the repaired correction of a footprint cell is `-fine_state` where
`fine_state > 0` and `alpha * fine_state` with `alpha = (crseTot + SumP) / SumN` where
`fine_state ≤ 0`. -/
theorem ccprotect_2d_caseE_arithmetic (ic jc kc nvar : Int) (fine_bx : Box) (ratio : IntVect)
    (cs_geomdata fn_geomdata : GeometryData K) (fine fine_state : Array4 K)
    (n : Int) (hn1 : 1 ≤ n) (hn2 : n ≤ nvar - 2)
    (hredo : ccprotect_detects ic jc fine_bx ratio n fine fine_state = true)
    (h1 : (ccprotect_aggregates ic jc fine_bx ratio fn_geomdata n fine fine_state).crseTot < 0) (h2 : |(ccprotect_aggregates ic jc fine_bx ratio fn_geomdata n fine fine_state).crseTot| < (ccprotect_aggregates ic jc fine_bx ratio fn_geomdata n fine fine_state).SumP)
    (h3 : (ccprotect_aggregates ic jc fine_bx ratio fn_geomdata n fine fine_state).SumP + (ccprotect_aggregates ic jc fine_bx ratio fn_geomdata n fine fine_state).SumN + (ccprotect_aggregates ic jc fine_bx ratio fn_geomdata n fine fine_state).crseTot < 0)
    (i j : Int) (hfoot : inFootprint ic jc fine_bx ratio i j) :
    (ccprotect_aggregates ic jc fine_bx ratio fn_geomdata n fine fine_state).SumN ≠ 0 ∧
    (fine_state.dat i j 0 n > 0 → (ccprotect_2d ic jc kc nvar fine_bx ratio cs_geomdata fn_geomdata fine fine_state).dat i j 0 n = -fine_state.dat i j 0 n) ∧
    (fine_state.dat i j 0 n ≤ 0 →
      (ccprotect_2d ic jc kc nvar fine_bx ratio cs_geomdata fn_geomdata fine fine_state).dat i j 0 n = ((ccprotect_aggregates ic jc fine_bx ratio fn_geomdata n fine fine_state).crseTot + (ccprotect_aggregates ic jc fine_bx ratio fn_geomdata n fine fine_state).SumP) / (ccprotect_aggregates ic jc fine_bx ratio fn_geomdata n fine fine_state).SumN * fine_state.dat i j 0 n) := by
  have hval : (ccprotect_2d ic jc kc nvar fine_bx ratio cs_geomdata fn_geomdata fine fine_state).dat i j 0 n =
      if fine_state.dat i j 0 n > 0 then -fine_state.dat i j 0 n
      else ((ccprotect_aggregates ic jc fine_bx ratio fn_geomdata n fine fine_state).crseTot + (ccprotect_aggregates ic jc fine_bx ratio fn_geomdata n fine fine_state).SumP) / (ccprotect_aggregates ic jc fine_bx ratio fn_geomdata n fine fine_state).SumN * fine_state.dat i j 0 n := by
    rw [ccprotect_2d_repaired ic jc kc nvar fine_bx ratio cs_geomdata fn_geomdata fine fine_state
      n hn1 hn2 hredo i j hfoot, ccprotect_newval_dispatch,
      if_neg (fun h => lt_asymm h1 h.1), if_neg (fun h => lt_asymm h1 h.1),
      if_neg (fun h => lt_asymm h2 h.2), if_neg (fun h => lt_asymm h3 h.2.2),
      if_pos ⟨h1, h2, h3⟩]
  refine ⟨?_, fun h => ?_, fun h => ?_⟩
  · have h2' := h2
    rw [abs_of_neg h1] at h2'
    have : (ccprotect_aggregates ic jc fine_bx ratio fn_geomdata n fine fine_state).SumN < 0 := by linarith
    exact this.ne
  · rw [hval, if_pos h]
  · rw [hval, if_neg (not_lt.2 h)]

/-! ## Worked instances of special cases 3, 4 and 5 -/

/-- The sample footprint `fine_state = (-2, 5, 5, 5)`, correction `(-3, 0, 0, 0)` with unit
volumes: detection triggers, `crseTot = -3`, `SumN = -2`, `SumP = 15`. -/
theorem caseD_sample :
    ccprotect_detects 0 0 unitBlock ⟨2, 2⟩ 1 (cellData (-3) 0) (cellData (-2) 5) = true ∧
    (ccprotect_aggregates 0 0 unitBlock ⟨2, 2⟩ unitGeom 1 (cellData (-3) 0)
      (cellData (-2) 5)).crseTot = -3 ∧
    (ccprotect_aggregates 0 0 unitBlock ⟨2, 2⟩ unitGeom 1 (cellData (-3) 0)
      (cellData (-2) 5)).SumN = -2 ∧
    (ccprotect_aggregates 0 0 unitBlock ⟨2, 2⟩ unitGeom 1 (cellData (-3) 0)
      (cellData (-2) 5)).SumP = 15 := by
  have hb : ccprotect_ilo 0 unitBlock ⟨2, 2⟩ = 0 ∧ ccprotect_ihi 0 unitBlock ⟨2, 2⟩ = 1 ∧
      ccprotect_jlo 0 unitBlock ⟨2, 2⟩ = 0 ∧ ccprotect_jhi 0 unitBlock ⟨2, 2⟩ = 1 := by decide
  refine ⟨?_, ?_, ?_, ?_⟩
  · simp only [ccprotect_detects, hb, ccprotect_redo_me, forLe]
    norm_num [loopFrom, cellData]
  · simp only [ccprotect_aggregates, hb, ccprotect_sums, forLe]
    norm_num [loopFrom, cellData, ccprotect_fvol, unitGeom]
  · simp only [ccprotect_aggregates, hb, ccprotect_sums, forLe]
    norm_num [loopFrom, cellData, ccprotect_fvol, unitGeom]
  · simp only [ccprotect_aggregates, hb, ccprotect_sums, forLe]
    norm_num [loopFrom, cellData, ccprotect_fvol, unitGeom]

/-- The sample footprint `fine_state = (-2, 1, 1, 1)`, correction `(-5, 0, 0, 0)` with unit
volumes: detection triggers, `crseTot = -5`, `SumN = -2`, `SumP = 3`. -/
theorem caseC_sample :
    ccprotect_detects 0 0 unitBlock ⟨2, 2⟩ 1 (cellData (-5) 0) (cellData (-2) 1) = true ∧
    (ccprotect_aggregates 0 0 unitBlock ⟨2, 2⟩ unitGeom 1 (cellData (-5) 0)
      (cellData (-2) 1)).crseTot = -5 ∧
    (ccprotect_aggregates 0 0 unitBlock ⟨2, 2⟩ unitGeom 1 (cellData (-5) 0)
      (cellData (-2) 1)).SumN = -2 ∧
    (ccprotect_aggregates 0 0 unitBlock ⟨2, 2⟩ unitGeom 1 (cellData (-5) 0)
      (cellData (-2) 1)).SumP = 3 := by
  have hb : ccprotect_ilo 0 unitBlock ⟨2, 2⟩ = 0 ∧ ccprotect_ihi 0 unitBlock ⟨2, 2⟩ = 1 ∧
      ccprotect_jlo 0 unitBlock ⟨2, 2⟩ = 0 ∧ ccprotect_jhi 0 unitBlock ⟨2, 2⟩ = 1 := by decide
  refine ⟨?_, ?_, ?_, ?_⟩
  · simp only [ccprotect_detects, hb, ccprotect_redo_me, forLe]
    norm_num [loopFrom, cellData]
  · simp only [ccprotect_aggregates, hb, ccprotect_sums, forLe]
    norm_num [loopFrom, cellData, ccprotect_fvol, unitGeom]
  · simp only [ccprotect_aggregates, hb, ccprotect_sums, forLe]
    norm_num [loopFrom, cellData, ccprotect_fvol, unitGeom]
  · simp only [ccprotect_aggregates, hb, ccprotect_sums, forLe]
    norm_num [loopFrom, cellData, ccprotect_fvol, unitGeom]

/-- The sample footprint `fine_state = (-10, 2, 2, 2)`, correction `(0, -1, -1, -1)` with
unit volumes: detection triggers, `crseTot = -3`, `SumN = -10`, `SumP = 6`. -/
theorem caseE_sample :
    ccprotect_detects 0 0 unitBlock ⟨2, 2⟩ 1 (cellData 0 (-1)) (cellData (-10) 2) = true ∧
    (ccprotect_aggregates 0 0 unitBlock ⟨2, 2⟩ unitGeom 1 (cellData 0 (-1))
      (cellData (-10) 2)).crseTot = -3 ∧
    (ccprotect_aggregates 0 0 unitBlock ⟨2, 2⟩ unitGeom 1 (cellData 0 (-1))
      (cellData (-10) 2)).SumN = -10 ∧
    (ccprotect_aggregates 0 0 unitBlock ⟨2, 2⟩ unitGeom 1 (cellData 0 (-1))
      (cellData (-10) 2)).SumP = 6 := by
  have hb : ccprotect_ilo 0 unitBlock ⟨2, 2⟩ = 0 ∧ ccprotect_ihi 0 unitBlock ⟨2, 2⟩ = 1 ∧
      ccprotect_jlo 0 unitBlock ⟨2, 2⟩ = 0 ∧ ccprotect_jhi 0 unitBlock ⟨2, 2⟩ = 1 := by decide
  refine ⟨?_, ?_, ?_, ?_⟩
  · simp only [ccprotect_detects, hb, ccprotect_redo_me, forLe]
    norm_num [loopFrom, cellData]
  · simp only [ccprotect_aggregates, hb, ccprotect_sums, forLe]
    norm_num [loopFrom, cellData, ccprotect_fvol, unitGeom]
  · simp only [ccprotect_aggregates, hb, ccprotect_sums, forLe]
    norm_num [loopFrom, cellData, ccprotect_fvol, unitGeom]
  · simp only [ccprotect_aggregates, hb, ccprotect_sums, forLe]
    norm_num [loopFrom, cellData, ccprotect_fvol, unitGeom]

/-- The cell `(1, 0)` lies in the footprint of the coarse cell `(0, 0)`. -/
theorem unitBlock_east : inFootprint 0 0 unitBlock ⟨2, 2⟩ 1 0 := by
  unfold inFootprint unitBlock; decide

/-- Witness for C12: the negative cell `(0, 0)` of the Case D sample footprint. -/
theorem ccprotect_2d_caseD_nonneg_witness :
    0 ≤ (cellData (-2) 5).dat 0 0 0 1 +
        (ccprotect_2d 0 0 0 3 unitBlock ⟨2, 2⟩ coarseGeom unitGeom (cellData (-3) 0)
          (cellData (-2) 5)).dat 0 0 0 1 ∧
    ((cellData (-2) 5).dat 0 0 0 1 < 0 →
      (cellData (-2) 5).dat 0 0 0 1 +
        (ccprotect_2d 0 0 0 3 unitBlock ⟨2, 2⟩ coarseGeom unitGeom (cellData (-3) 0)
          (cellData (-2) 5)).dat 0 0 0 1 = 0) ∧
    (¬ (cellData (-2) 5).dat 0 0 0 1 < 0 →
      (cellData (-2) 5).dat 0 0 0 1 +
        (ccprotect_2d 0 0 0 3 unitBlock ⟨2, 2⟩ coarseGeom unitGeom (cellData (-3) 0)
          (cellData (-2) 5)).dat 0 0 0 1 =
        (cellData (-2) 5).dat 0 0 0 1 *
          ((ccprotect_aggregates 0 0 unitBlock ⟨2, 2⟩ unitGeom 1 (cellData (-3) 0)
              (cellData (-2) 5)).SumP
            + (ccprotect_aggregates 0 0 unitBlock ⟨2, 2⟩ unitGeom 1 (cellData (-3) 0)
              (cellData (-2) 5)).SumN
            + (ccprotect_aggregates 0 0 unitBlock ⟨2, 2⟩ unitGeom 1 (cellData (-3) 0)
              (cellData (-2) 5)).crseTot) /
          (ccprotect_aggregates 0 0 unitBlock ⟨2, 2⟩ unitGeom 1 (cellData (-3) 0)
            (cellData (-2) 5)).SumP) :=
  ccprotect_2d_caseD_nonneg 0 0 0 3 unitBlock ⟨2, 2⟩ coarseGeom unitGeom (cellData (-3) 0)
    (cellData (-2) 5) 1 (by decide) (by decide) caseD_sample.1
    (by rw [caseD_sample.2.1]; norm_num)
    (by rw [caseD_sample.2.1, caseD_sample.2.2.2]; norm_num)
    (by rw [caseD_sample.2.1, caseD_sample.2.2.1, caseD_sample.2.2.2]; norm_num)
    0 0 unitBlock_origin

/-- Witness for C13: the cell `(0, 0)` of the Case C sample footprint, coarse cell volume
`4`. -/
theorem ccprotect_2d_caseC_common_value_witness :
    (cellData (-2) 1).dat 0 0 0 1 +
        (ccprotect_2d 0 0 0 3 unitBlock ⟨2, 2⟩ coarseGeom unitGeom (cellData (-5) 0)
          (cellData (-2) 1)).dat 0 0 0 1 =
        ((ccprotect_aggregates 0 0 unitBlock ⟨2, 2⟩ unitGeom 1 (cellData (-5) 0)
            (cellData (-2) 1)).SumP
          + (ccprotect_aggregates 0 0 unitBlock ⟨2, 2⟩ unitGeom 1 (cellData (-5) 0)
            (cellData (-2) 1)).SumN
          + (ccprotect_aggregates 0 0 unitBlock ⟨2, 2⟩ unitGeom 1 (cellData (-5) 0)
            (cellData (-2) 1)).crseTot) / ccprotect_cvol coarseGeom 0 ∧
    ((∀ i j, inFootprint 0 0 unitBlock ⟨2, 2⟩ i j → 0 < ccprotect_fvol unitGeom i) →
      0 < ccprotect_cvol coarseGeom 0 →
      ((ccprotect_aggregates 0 0 unitBlock ⟨2, 2⟩ unitGeom 1 (cellData (-5) 0)
            (cellData (-2) 1)).SumP
          + (ccprotect_aggregates 0 0 unitBlock ⟨2, 2⟩ unitGeom 1 (cellData (-5) 0)
            (cellData (-2) 1)).SumN
          + (ccprotect_aggregates 0 0 unitBlock ⟨2, 2⟩ unitGeom 1 (cellData (-5) 0)
            (cellData (-2) 1)).crseTot) / ccprotect_cvol coarseGeom 0 < 0) :=
  ccprotect_2d_caseC_common_value 0 0 0 3 unitBlock ⟨2, 2⟩ coarseGeom unitGeom (cellData (-5) 0)
    (cellData (-2) 1) 1 (by decide) (by decide) caseC_sample.1
    (by rw [caseC_sample.2.1]; norm_num)
    (by rw [caseC_sample.2.1, caseC_sample.2.2.2]; norm_num)
    (by norm_num [ccprotect_cvol, coarseGeom])
    0 0 unitBlock_origin

/-- Witness for C14: the positive cell `(1, 0)` of the Case E sample footprint. -/
theorem ccprotect_2d_caseE_arithmetic_witness :
    (ccprotect_aggregates 0 0 unitBlock ⟨2, 2⟩ unitGeom 1 (cellData 0 (-1))
      (cellData (-10) 2)).SumN ≠ 0 ∧
    ((cellData (-10) 2).dat 1 0 0 1 > 0 →
      (ccprotect_2d 0 0 0 3 unitBlock ⟨2, 2⟩ coarseGeom unitGeom (cellData 0 (-1))
        (cellData (-10) 2)).dat 1 0 0 1 = -(cellData (-10) 2).dat 1 0 0 1) ∧
    ((cellData (-10) 2).dat 1 0 0 1 ≤ 0 →
      (ccprotect_2d 0 0 0 3 unitBlock ⟨2, 2⟩ coarseGeom unitGeom (cellData 0 (-1))
        (cellData (-10) 2)).dat 1 0 0 1 =
        ((ccprotect_aggregates 0 0 unitBlock ⟨2, 2⟩ unitGeom 1 (cellData 0 (-1))
            (cellData (-10) 2)).crseTot
          + (ccprotect_aggregates 0 0 unitBlock ⟨2, 2⟩ unitGeom 1 (cellData 0 (-1))
            (cellData (-10) 2)).SumP) /
          (ccprotect_aggregates 0 0 unitBlock ⟨2, 2⟩ unitGeom 1 (cellData 0 (-1))
            (cellData (-10) 2)).SumN * (cellData (-10) 2).dat 1 0 0 1) :=
  ccprotect_2d_caseE_arithmetic 0 0 0 3 unitBlock ⟨2, 2⟩ coarseGeom unitGeom (cellData 0 (-1))
    (cellData (-10) 2) 1 (by decide) (by decide) caseE_sample.1
    (by rw [caseE_sample.2.1]; norm_num)
    (by rw [caseE_sample.2.1, caseE_sample.2.2.2]; norm_num)
    (by rw [caseE_sample.2.1, caseE_sample.2.2.1, caseE_sample.2.2.2]; norm_num)
    1 0 unitBlock_east

/-- Claim C15. (the code at the failing input) On the Case E sample footprint,
`fine_state = (-10, 2, 2, 2)` and correction `(0, -1, -1, -1)` with unit volumes, the
dispatch condition of Case E holds and `alpha = (crseTot + SumP) / SumN = -3/10`. The
positive-state cell `(1, 0)` does not receive `alpha * fine_state = -3/5` but
`-fine_state = -2`, and the negative-state cell `(0, 0)` is not left alone: its correction
goes from `0` to `alpha * fine_state = 3`. -/
theorem ccprotect_2d_caseE_roles_reversed :
    ccprotect_detects 0 0 unitBlock ⟨2, 2⟩ 1 (cellData 0 (-1)) (cellData (-10) 2) = true ∧
    ccprotect_condE
      (ccprotect_aggregates 0 0 unitBlock ⟨2, 2⟩ unitGeom 1 (cellData 0 (-1))
        (cellData (-10) 2)).crseTot
      (ccprotect_aggregates 0 0 unitBlock ⟨2, 2⟩ unitGeom 1 (cellData 0 (-1))
        (cellData (-10) 2)).SumN
      (ccprotect_aggregates 0 0 unitBlock ⟨2, 2⟩ unitGeom 1 (cellData 0 (-1))
        (cellData (-10) 2)).SumP ∧
    ((ccprotect_aggregates 0 0 unitBlock ⟨2, 2⟩ unitGeom 1 (cellData 0 (-1))
        (cellData (-10) 2)).crseTot
      + (ccprotect_aggregates 0 0 unitBlock ⟨2, 2⟩ unitGeom 1 (cellData 0 (-1))
        (cellData (-10) 2)).SumP) /
      (ccprotect_aggregates 0 0 unitBlock ⟨2, 2⟩ unitGeom 1 (cellData 0 (-1))
        (cellData (-10) 2)).SumN = -3 / 10 ∧
    (cellData (-10) 2).dat 1 0 0 1 = 2 ∧
    (ccprotect_2d 0 0 0 3 unitBlock ⟨2, 2⟩ coarseGeom unitGeom (cellData 0 (-1))
      (cellData (-10) 2)).dat 1 0 0 1 = -2 ∧
    (cellData (-10) 2).dat 0 0 0 1 = -10 ∧
    (cellData 0 (-1)).dat 0 0 0 1 = 0 ∧
    (ccprotect_2d 0 0 0 3 unitBlock ⟨2, 2⟩ coarseGeom unitGeom (cellData 0 (-1))
      (cellData (-10) 2)).dat 0 0 0 1 = 3 := by
  obtain ⟨hd, ht, hn, hp⟩ := caseE_sample
  refine ⟨hd, ?_, ?_, by norm_num [cellData], ?_, by norm_num [cellData],
    by norm_num [cellData], ?_⟩
  · rw [ht, hn, hp]; norm_num [ccprotect_condE]
  · rw [ht, hn, hp]; norm_num
  · rw [ccprotect_2d_repaired 0 0 0 3 unitBlock ⟨2, 2⟩ coarseGeom unitGeom (cellData 0 (-1))
      (cellData (-10) 2) 1 (by decide) (by decide) hd 1 0 unitBlock_east, ht, hn, hp]
    norm_num [ccprotect_newval, cellData]
  · rw [ccprotect_2d_repaired 0 0 0 3 unitBlock ⟨2, 2⟩ coarseGeom unitGeom (cellData 0 (-1))
      (cellData (-10) 2) 1 (by decide) (by decide) hd 0 0 unitBlock_origin, ht, hn, hp]
    norm_num [ccprotect_newval, cellData]

end Protect

/-! ## Linear face interpolation -/

section FaceLinear

variable {T : Type} {K : Type} [LinearOrderedField K]

/-- Claim C16. Masked replication in the 2-D build: when `mask(ci, cj, ck, n)` is non-zero,
`face_linear_face_interp_x` sets `fine(ci*rx, cj*ry, n)` and `fine(ci*rx, cj*ry + 1, n)` to
the coarse value `crse(ci, cj, ck, n)`, `face_linear_face_interp_y` sets
`fine(ci*rx, cj*ry, n)` and `fine(ci*rx + 1, cj*ry, n)` to it, and every other entry of
`fine` is unchanged. For ratio `(2, 2)` the two faces written are exactly the fine faces
overlapping the coarse face: those on it whose transverse index coarsens to the coarse
one. -/
theorem face_linear_face_interp_replication (ci cj ck n : Int) (fine crse : Array4 T)
    (mask : Array4 Int) (ratio : IntVect) (hmask : mask.dat ci cj ck n ≠ 0) :
    (∃ r, face_linear_face_interp_x ci cj ck n fine crse (some mask) ratio = some r ∧
      r.dat (ci * ratio.x) (cj * ratio.y) 0 n = crse.dat ci cj ck n ∧
      r.dat (ci * ratio.x) (cj * ratio.y + 1) 0 n = crse.dat ci cj ck n ∧
      ∀ i j k m, ¬ (i = ci * ratio.x ∧ (j = cj * ratio.y ∨ j = cj * ratio.y + 1) ∧
        k = 0 ∧ m = n) → r.dat i j k m = fine.dat i j k m) ∧
    (∃ r, face_linear_face_interp_y ci cj ck n fine crse (some mask) ratio = some r ∧
      r.dat (ci * ratio.x) (cj * ratio.y) 0 n = crse.dat ci cj ck n ∧
      r.dat (ci * ratio.x + 1) (cj * ratio.y) 0 n = crse.dat ci cj ck n ∧
      ∀ i j k m, ¬ ((i = ci * ratio.x ∨ i = ci * ratio.x + 1) ∧ j = cj * ratio.y ∧
        k = 0 ∧ m = n) → r.dat i j k m = fine.dat i j k m) ∧
    (ratio = ⟨2, 2⟩ → ∀ i j : Int,
      ((i = ci * ratio.x ∧ coarsen j ratio.y = cj) ↔
        (i = ci * ratio.x ∧ (j = cj * ratio.y ∨ j = cj * ratio.y + 1))) ∧
      ((coarsen i ratio.x = ci ∧ j = cj * ratio.y) ↔
        ((i = ci * ratio.x ∨ i = ci * ratio.x + 1) ∧ j = cj * ratio.y))) := by
  refine ⟨?_, ?_, ?_⟩
  · refine ⟨(fine.set (ci * ratio.x) (cj * ratio.y) 0 n (crse.dat ci cj ck n)).set
        (ci * ratio.x) (cj * ratio.y + 1) 0 n (crse.dat ci cj ck n),
      by simp only [face_linear_face_interp_x, if_neg hmask], ?_, ?_, ?_⟩
    · simp (disch := omega) only [Array4.set_dat_eq, Array4.set_dat_other]
    · simp (disch := omega) only [Array4.set_dat_eq]
    · intro i j k m h
      rw [Array4.set_dat_other _ _ _ _ _ _ _ _ _ _ (by tauto),
        Array4.set_dat_other _ _ _ _ _ _ _ _ _ _ (by tauto)]
  · refine ⟨(fine.set (ci * ratio.x) (cj * ratio.y) 0 n (crse.dat ci cj ck n)).set
        (ci * ratio.x + 1) (cj * ratio.y) 0 n (crse.dat ci cj ck n),
      by simp only [face_linear_face_interp_y, if_neg hmask], ?_, ?_, ?_⟩
    · simp (disch := omega) only [Array4.set_dat_eq, Array4.set_dat_other]
    · simp (disch := omega) only [Array4.set_dat_eq]
    · intro i j k m h
      rw [Array4.set_dat_other _ _ _ _ _ _ _ _ _ _ (by tauto),
        Array4.set_dat_other _ _ _ _ _ _ _ _ _ _ (by tauto)]
  · rintro rfl i j
    have hj := coarsen_bounds j 2 (by decide)
    have hi := coarsen_bounds i 2 (by decide)
    simp only
    constructor <;> constructor <;> intro h <;> omega

/-- Witness for C16: coarse face `(1, 0)` of `faceSample`, ratio `(2, 2)`, mask `1`. -/
theorem face_linear_face_interp_replication_witness :
    (∃ r, face_linear_face_interp_x 1 0 0 0 (zeroArray4 ⟨0, 0, 0⟩ ⟨4, 4, 0⟩) faceSample
        (some (constMask 1)) ⟨2, 2⟩ = some r ∧
      r.dat (1 * (⟨2, 2⟩ : IntVect).x) (0 * (⟨2, 2⟩ : IntVect).y) 0 0 = faceSample.dat 1 0 0 0 ∧
      r.dat (1 * (⟨2, 2⟩ : IntVect).x) (0 * (⟨2, 2⟩ : IntVect).y + 1) 0 0
        = faceSample.dat 1 0 0 0 ∧
      ∀ i j k m, ¬ (i = 1 * (⟨2, 2⟩ : IntVect).x ∧
        (j = 0 * (⟨2, 2⟩ : IntVect).y ∨ j = 0 * (⟨2, 2⟩ : IntVect).y + 1) ∧
        k = 0 ∧ m = 0) → r.dat i j k m = (zeroArray4 ⟨0, 0, 0⟩ ⟨4, 4, 0⟩).dat i j k m) ∧
    (∃ r, face_linear_face_interp_y 1 0 0 0 (zeroArray4 ⟨0, 0, 0⟩ ⟨4, 4, 0⟩) faceSample
        (some (constMask 1)) ⟨2, 2⟩ = some r ∧
      r.dat (1 * (⟨2, 2⟩ : IntVect).x) (0 * (⟨2, 2⟩ : IntVect).y) 0 0 = faceSample.dat 1 0 0 0 ∧
      r.dat (1 * (⟨2, 2⟩ : IntVect).x + 1) (0 * (⟨2, 2⟩ : IntVect).y) 0 0
        = faceSample.dat 1 0 0 0 ∧
      ∀ i j k m, ¬ ((i = 1 * (⟨2, 2⟩ : IntVect).x ∨ i = 1 * (⟨2, 2⟩ : IntVect).x + 1) ∧
        j = 0 * (⟨2, 2⟩ : IntVect).y ∧
        k = 0 ∧ m = 0) → r.dat i j k m = (zeroArray4 ⟨0, 0, 0⟩ ⟨4, 4, 0⟩).dat i j k m) ∧
    ((⟨2, 2⟩ : IntVect) = ⟨2, 2⟩ → ∀ i j : Int,
      ((i = 1 * (⟨2, 2⟩ : IntVect).x ∧ coarsen j (⟨2, 2⟩ : IntVect).y = 0) ↔
        (i = 1 * (⟨2, 2⟩ : IntVect).x ∧
          (j = 0 * (⟨2, 2⟩ : IntVect).y ∨ j = 0 * (⟨2, 2⟩ : IntVect).y + 1))) ∧
      ((coarsen i (⟨2, 2⟩ : IntVect).x = 1 ∧ j = 0 * (⟨2, 2⟩ : IntVect).y) ↔
        ((i = 1 * (⟨2, 2⟩ : IntVect).x ∨ i = 1 * (⟨2, 2⟩ : IntVect).x + 1) ∧
          j = 0 * (⟨2, 2⟩ : IntVect).y))) :=
  face_linear_face_interp_replication 1 0 0 0 (zeroArray4 ⟨0, 0, 0⟩ ⟨4, 4, 0⟩) faceSample
    (constMask 1) ⟨2, 2⟩ (by decide)

/-- Claim C17. Mask skip and idempotence: when the mask entry `mask(ci, cj, ck, n)` is zero,
`face_linear_face_interp_x`, `_y` and `_z` return `fine` itself, every entry unchanged;
hence a second invocation, on the output of a first call and with the mask marking the
destination valid, returns the output of the first call unchanged. -/
theorem face_linear_face_interp_mask_skip (ci cj ck n : Int) (fine crse : Array4 T)
    (mask : Array4 Int) (ratio : IntVect) (ratio3 : IntVect3)
    (hmask : mask.dat ci cj ck n = 0) :
    (face_linear_face_interp_x ci cj ck n fine crse (some mask) ratio = some fine ∧
      face_linear_face_interp_y ci cj ck n fine crse (some mask) ratio = some fine ∧
      face_linear_face_interp_z ci cj ck n fine crse (some mask) ratio3 = some fine) ∧
    (∀ (mask0 : Option (Array4 Int)) (r : Array4 T),
      (face_linear_face_interp_x ci cj ck n fine crse mask0 ratio = some r →
        face_linear_face_interp_x ci cj ck n r crse (some mask) ratio = some r) ∧
      (face_linear_face_interp_y ci cj ck n fine crse mask0 ratio = some r →
        face_linear_face_interp_y ci cj ck n r crse (some mask) ratio = some r) ∧
      (face_linear_face_interp_z ci cj ck n fine crse mask0 ratio3 = some r →
        face_linear_face_interp_z ci cj ck n r crse (some mask) ratio3 = some r)) := by
  have hx : ∀ f : Array4 T,
      face_linear_face_interp_x ci cj ck n f crse (some mask) ratio = some f := by
    intro f; simp only [face_linear_face_interp_x, if_pos hmask]
  have hy : ∀ f : Array4 T,
      face_linear_face_interp_y ci cj ck n f crse (some mask) ratio = some f := by
    intro f; simp only [face_linear_face_interp_y, if_pos hmask]
  have hz : ∀ f : Array4 T,
      face_linear_face_interp_z ci cj ck n f crse (some mask) ratio3 = some f := by
    intro f; simp only [face_linear_face_interp_z, if_pos hmask]
  exact ⟨⟨hx fine, hy fine, hz fine⟩, fun _ r => ⟨fun _ => hx r, fun _ => hy r, fun _ => hz r⟩⟩

/-- Witness for C17: coarse face `(1, 0)` of `faceSample`, mask `0`. -/
theorem face_linear_face_interp_mask_skip_witness :
    (face_linear_face_interp_x 1 0 0 0 (zeroArray4 ⟨0, 0, 0⟩ ⟨4, 4, 0⟩) faceSample
        (some (constMask 0)) ⟨2, 2⟩ = some (zeroArray4 ⟨0, 0, 0⟩ ⟨4, 4, 0⟩) ∧
      face_linear_face_interp_y 1 0 0 0 (zeroArray4 ⟨0, 0, 0⟩ ⟨4, 4, 0⟩) faceSample
        (some (constMask 0)) ⟨2, 2⟩ = some (zeroArray4 ⟨0, 0, 0⟩ ⟨4, 4, 0⟩) ∧
      face_linear_face_interp_z 1 0 0 0 (zeroArray4 ⟨0, 0, 0⟩ ⟨4, 4, 0⟩) faceSample
        (some (constMask 0)) ⟨2, 2, 2⟩ = some (zeroArray4 ⟨0, 0, 0⟩ ⟨4, 4, 0⟩)) ∧
    (∀ (mask0 : Option (Array4 Int)) (r : Array4 ℚ),
      (face_linear_face_interp_x 1 0 0 0 (zeroArray4 ⟨0, 0, 0⟩ ⟨4, 4, 0⟩) faceSample mask0
          ⟨2, 2⟩ = some r →
        face_linear_face_interp_x 1 0 0 0 r faceSample (some (constMask 0)) ⟨2, 2⟩ = some r) ∧
      (face_linear_face_interp_y 1 0 0 0 (zeroArray4 ⟨0, 0, 0⟩ ⟨4, 4, 0⟩) faceSample mask0
          ⟨2, 2⟩ = some r →
        face_linear_face_interp_y 1 0 0 0 r faceSample (some (constMask 0)) ⟨2, 2⟩ = some r) ∧
      (face_linear_face_interp_z 1 0 0 0 (zeroArray4 ⟨0, 0, 0⟩ ⟨4, 4, 0⟩) faceSample mask0
          ⟨2, 2, 2⟩ = some r →
        face_linear_face_interp_z 1 0 0 0 r faceSample (some (constMask 0)) ⟨2, 2, 2⟩
          = some r)) :=
  face_linear_face_interp_mask_skip 1 0 0 0 (zeroArray4 ⟨0, 0, 0⟩ ⟨4, 4, 0⟩) faceSample
    (constMask 0) ⟨2, 2⟩ ⟨2, 2, 2⟩ (by decide)

/-- Claim C18. (the code with an absent mask) `face_linear_face_interp_x` and `_y` evaluate
`mask(ci, cj, ck, n)` before anything else, also when the mask view is absent: with an
absent mask the call has no defined result and writes nothing, for every input, whereas
`facediv_face_interp` tests the presence of its mask first and then writes. -/
theorem face_linear_face_interp_absent_mask (ci cj ck n : Int) (fine crse : Array4 T)
    (ratio : IntVect) :
    face_linear_face_interp_x ci cj ck n fine crse none ratio = none ∧
    face_linear_face_interp_y ci cj ck n fine crse none ratio = none ∧
    maskBlocks none ci cj n = false :=
  ⟨rfl, rfl, rfl⟩

/-- The coarse-aligned index below `i` is the anchor the code computes. -/
theorem alignedBelow_eq (i r : Int) (hr : 0 < r) : alignedBelow i r = coarsen i r * r := by
  unfold alignedBelow
  rw [← coarsen_eq_floor i r hr, mul_comm]

/-- Pointwise description of `face_linear_interp_x` in terms of the anchor `i1`. -/
theorem face_linear_interp_x_spec (i j k n : Int) (fine : Array4 K) (ratio : IntVect)
    (hrx : 1 ≤ ratio.x) :
    (i = alignedBelow i ratio.x → face_linear_interp_x i j k n fine ratio = fine) ∧
    (i ≠ alignedBelow i ratio.x →
      0 < ((i - alignedBelow i ratio.x : Int) : K) / (ratio.x : K) ∧
      ((i - alignedBelow i ratio.x : Int) : K) / (ratio.x : K) < 1 ∧
      (face_linear_interp_x i j k n fine ratio).dat i j k n =
        (1 - ((i - alignedBelow i ratio.x : Int) : K) / (ratio.x : K))
            * fine.dat (alignedBelow i ratio.x) j k n
          + ((i - alignedBelow i ratio.x : Int) : K) / (ratio.x : K)
            * fine.dat (alignedBelow i ratio.x + ratio.x) j k n ∧
      ∀ i' j' k' n', ¬ (i' = i ∧ j' = j ∧ k' = k ∧ n' = n) →
        (face_linear_interp_x i j k n fine ratio).dat i' j' k' n' = fine.dat i' j' k' n') := by
  have hr : 0 < ratio.x := by omega
  have hrK : (0 : K) < (ratio.x : K) := by exact_mod_cast hr
  rw [alignedBelow_eq i ratio.x hr]
  have hb := coarsen_bounds i ratio.x hr
  constructor
  · intro h
    unfold face_linear_interp_x
    simp only
    rw [if_neg (by omega)]
  · intro h
    have hne : i - coarsen i ratio.x * ratio.x ≠ 0 := by omega
    have hpos : 0 < i - coarsen i ratio.x * ratio.x := by
      have : ratio.x * coarsen i ratio.x = coarsen i ratio.x * ratio.x := mul_comm _ _
      omega
    have hlt : i - coarsen i ratio.x * ratio.x < ratio.x := by
      have : ratio.x * coarsen i ratio.x = coarsen i ratio.x * ratio.x := mul_comm _ _
      omega
    have hposK : (0 : K) < ((i - coarsen i ratio.x * ratio.x : Int) : K) := by
      exact_mod_cast hpos
    have hltK : ((i - coarsen i ratio.x * ratio.x : Int) : K) < (ratio.x : K) := by
      exact_mod_cast hlt
    refine ⟨div_pos hposK hrK, (div_lt_one hrK).2 hltK, ?_, ?_⟩
    · unfold face_linear_interp_x
      simp only
      rw [if_pos hne, Array4.set_dat_self]
      have e : (coarsen i ratio.x + 1) * ratio.x = coarsen i ratio.x * ratio.x + ratio.x := by
        ring
      rw [e]
      ring
    · intro i' j' k' n' h'
      unfold face_linear_interp_x
      simp only
      rw [if_pos hne, Array4.set_dat_other _ _ _ _ _ _ _ _ _ _ h']

/-- Pointwise description of `face_linear_interp_y` in terms of the anchor `j1`. -/
theorem face_linear_interp_y_spec (i j k n : Int) (fine : Array4 K) (ratio : IntVect)
    (hry : 1 ≤ ratio.y) :
    (j = alignedBelow j ratio.y → face_linear_interp_y i j k n fine ratio = fine) ∧
    (j ≠ alignedBelow j ratio.y →
      0 < ((j - alignedBelow j ratio.y : Int) : K) / (ratio.y : K) ∧
      ((j - alignedBelow j ratio.y : Int) : K) / (ratio.y : K) < 1 ∧
      (face_linear_interp_y i j k n fine ratio).dat i j k n =
        (1 - ((j - alignedBelow j ratio.y : Int) : K) / (ratio.y : K))
            * fine.dat i (alignedBelow j ratio.y) k n
          + ((j - alignedBelow j ratio.y : Int) : K) / (ratio.y : K)
            * fine.dat i (alignedBelow j ratio.y + ratio.y) k n ∧
      ∀ i' j' k' n', ¬ (i' = i ∧ j' = j ∧ k' = k ∧ n' = n) →
        (face_linear_interp_y i j k n fine ratio).dat i' j' k' n' = fine.dat i' j' k' n') := by
  have hr : 0 < ratio.y := by omega
  have hrK : (0 : K) < (ratio.y : K) := by exact_mod_cast hr
  rw [alignedBelow_eq j ratio.y hr]
  have hb := coarsen_bounds j ratio.y hr
  constructor
  · intro h
    unfold face_linear_interp_y
    simp only
    rw [if_neg (by omega)]
  · intro h
    have hne : j - coarsen j ratio.y * ratio.y ≠ 0 := by omega
    have hpos : 0 < j - coarsen j ratio.y * ratio.y := by
      have : ratio.y * coarsen j ratio.y = coarsen j ratio.y * ratio.y := mul_comm _ _
      omega
    have hlt : j - coarsen j ratio.y * ratio.y < ratio.y := by
      have : ratio.y * coarsen j ratio.y = coarsen j ratio.y * ratio.y := mul_comm _ _
      omega
    have hposK : (0 : K) < ((j - coarsen j ratio.y * ratio.y : Int) : K) := by
      exact_mod_cast hpos
    have hltK : ((j - coarsen j ratio.y * ratio.y : Int) : K) < (ratio.y : K) := by
      exact_mod_cast hlt
    refine ⟨div_pos hposK hrK, (div_lt_one hrK).2 hltK, ?_, ?_⟩
    · unfold face_linear_interp_y
      simp only
      rw [if_pos hne, Array4.set_dat_self]
      have e : (coarsen j ratio.y + 1) * ratio.y = coarsen j ratio.y * ratio.y + ratio.y := by
        ring
      rw [e]
      ring
    · intro i' j' k' n' h'
      unfold face_linear_interp_y
      simp only
      rw [if_pos hne, Array4.set_dat_other _ _ _ _ _ _ _ _ _ _ h']

/-- Claim C19. Normal-direction linear fill: for ratio `rx ≥ 1` and every fine index `i`
(negative ones included), with `i1 = rx * ⌊i / rx⌋` and `i2 = i1 + rx`: if `i = i1`,
`face_linear_interp_x` returns `fine` unchanged; otherwise it sets
`fine(i,j,k,n) = (1 - w) * fine(i1,j,k,n) + w * fine(i2,j,k,n)` with `w = (i - i1) / rx`,
`0 < w < 1`, and changes no other entry. The same holds for `face_linear_interp_y` along
`j` with `ry`. -/
theorem face_linear_interp_fill (i j k n : Int) (fine : Array4 K) (ratio : IntVect)
    (hrx : 1 ≤ ratio.x) (hry : 1 ≤ ratio.y) :
    ((i = alignedBelow i ratio.x → face_linear_interp_x i j k n fine ratio = fine) ∧
    (i ≠ alignedBelow i ratio.x →
      0 < ((i - alignedBelow i ratio.x : Int) : K) / (ratio.x : K) ∧
      ((i - alignedBelow i ratio.x : Int) : K) / (ratio.x : K) < 1 ∧
      (face_linear_interp_x i j k n fine ratio).dat i j k n =
        (1 - ((i - alignedBelow i ratio.x : Int) : K) / (ratio.x : K))
            * fine.dat (alignedBelow i ratio.x) j k n
          + ((i - alignedBelow i ratio.x : Int) : K) / (ratio.x : K)
            * fine.dat (alignedBelow i ratio.x + ratio.x) j k n ∧
      ∀ i' j' k' n', ¬ (i' = i ∧ j' = j ∧ k' = k ∧ n' = n) →
        (face_linear_interp_x i j k n fine ratio).dat i' j' k' n' = fine.dat i' j' k' n')) ∧
    ((j = alignedBelow j ratio.y → face_linear_interp_y i j k n fine ratio = fine) ∧
    (j ≠ alignedBelow j ratio.y →
      0 < ((j - alignedBelow j ratio.y : Int) : K) / (ratio.y : K) ∧
      ((j - alignedBelow j ratio.y : Int) : K) / (ratio.y : K) < 1 ∧
      (face_linear_interp_y i j k n fine ratio).dat i j k n =
        (1 - ((j - alignedBelow j ratio.y : Int) : K) / (ratio.y : K))
            * fine.dat i (alignedBelow j ratio.y) k n
          + ((j - alignedBelow j ratio.y : Int) : K) / (ratio.y : K)
            * fine.dat i (alignedBelow j ratio.y + ratio.y) k n ∧
      ∀ i' j' k' n', ¬ (i' = i ∧ j' = j ∧ k' = k ∧ n' = n) →
        (face_linear_interp_y i j k n fine ratio).dat i' j' k' n' = fine.dat i' j' k' n')) :=
  ⟨face_linear_interp_x_spec i j k n fine ratio hrx,
    face_linear_interp_y_spec i j k n fine ratio hry⟩

/-- Witness for C19: `faceSample` as fine data with ratio `(4, 2)`. The fine face
`(-3, 1)` is filled along x between the anchors `-4` and `0` and along y between the
anchors `0` and `2`; the fine face `(-4, 1)` lies on a coarse x-face and is left alone. -/
theorem face_linear_interp_fill_witness :
    (0 < (((-3) - alignedBelow (-3) (⟨4, 2⟩ : IntVect).x : Int) : ℚ)
        / ((⟨4, 2⟩ : IntVect).x : ℚ) ∧
      (((-3) - alignedBelow (-3) (⟨4, 2⟩ : IntVect).x : Int) : ℚ)
        / ((⟨4, 2⟩ : IntVect).x : ℚ) < 1 ∧
      (face_linear_interp_x (-3) 1 0 0 faceSample (⟨4, 2⟩ : IntVect)).dat (-3) 1 0 0 =
        (1 - (((-3) - alignedBelow (-3) (⟨4, 2⟩ : IntVect).x : Int) : ℚ)
              / ((⟨4, 2⟩ : IntVect).x : ℚ))
            * faceSample.dat (alignedBelow (-3) (⟨4, 2⟩ : IntVect).x) 1 0 0
          + (((-3) - alignedBelow (-3) (⟨4, 2⟩ : IntVect).x : Int) : ℚ)
              / ((⟨4, 2⟩ : IntVect).x : ℚ)
            * faceSample.dat
                (alignedBelow (-3) (⟨4, 2⟩ : IntVect).x + (⟨4, 2⟩ : IntVect).x) 1 0 0 ∧
      ∀ i' j' k' n', ¬ (i' = (-3) ∧ j' = 1 ∧ k' = 0 ∧ n' = 0) →
        (face_linear_interp_x (-3) 1 0 0 faceSample (⟨4, 2⟩ : IntVect)).dat i' j' k' n' =
          faceSample.dat i' j' k' n') ∧
    (0 < ((1 - alignedBelow 1 (⟨4, 2⟩ : IntVect).y : Int) : ℚ) / ((⟨4, 2⟩ : IntVect).y : ℚ) ∧
      ((1 - alignedBelow 1 (⟨4, 2⟩ : IntVect).y : Int) : ℚ) / ((⟨4, 2⟩ : IntVect).y : ℚ) < 1 ∧
      (face_linear_interp_y (-3) 1 0 0 faceSample (⟨4, 2⟩ : IntVect)).dat (-3) 1 0 0 =
        (1 - ((1 - alignedBelow 1 (⟨4, 2⟩ : IntVect).y : Int) : ℚ)
              / ((⟨4, 2⟩ : IntVect).y : ℚ))
            * faceSample.dat (-3) (alignedBelow 1 (⟨4, 2⟩ : IntVect).y) 0 0
          + ((1 - alignedBelow 1 (⟨4, 2⟩ : IntVect).y : Int) : ℚ) / ((⟨4, 2⟩ : IntVect).y : ℚ)
            * faceSample.dat (-3)
                (alignedBelow 1 (⟨4, 2⟩ : IntVect).y + (⟨4, 2⟩ : IntVect).y) 0 0 ∧
      ∀ i' j' k' n', ¬ (i' = (-3) ∧ j' = 1 ∧ k' = 0 ∧ n' = 0) →
        (face_linear_interp_y (-3) 1 0 0 faceSample (⟨4, 2⟩ : IntVect)).dat i' j' k' n' =
          faceSample.dat i' j' k' n') ∧
    face_linear_interp_x (-4) 1 0 0 faceSample (⟨4, 2⟩ : IntVect) = faceSample :=
  ⟨(face_linear_interp_fill (-3) 1 0 0 faceSample ⟨4, 2⟩ (by decide) (by decide)).1.2
      (by rw [alignedBelow_eq _ _ (by decide)]; decide),
    (face_linear_interp_fill (-3) 1 0 0 faceSample ⟨4, 2⟩ (by decide) (by decide)).2.2
      (by rw [alignedBelow_eq _ _ (by decide)]; decide),
    (face_linear_interp_fill (-4) 1 0 0 faceSample ⟨4, 2⟩ (by decide) (by decide)).1.1
      (by rw [alignedBelow_eq _ _ (by decide)]; decide)⟩

/-- Claim C20. Boundary fill of `facediv_face_interp`: when the mask is absent or
`mask(ci, cj, nc)` is non-zero, for `idir = 0` the call sets
`fine(fi, fj, nf) = (8*cen + neg - pos)/8` and `fine(fi, fj+1, nf) = (8*cen + pos - neg)/8`
with `cen = crse(ci, cj, nc)`, `neg = crse(ci, cj-1, nc)`, `pos = crse(ci, cj+1, nc)`,
`fi = ci*rx`, `fj = cj*ry`; for `idir = 1` it sets `fine(fi, fj, nf)` and
`fine(fi+1, fj, nf)` by the same formulas with `neg = crse(ci-1, cj, nc)`,
`pos = crse(ci+1, cj, nc)`; in both cases every other entry is unchanged. When the mask is
present and `mask(ci, cj, nc)` is zero, `fine` is returned unchanged. -/
theorem facediv_face_interp_fill (ci cj ck nc nf idir : Int) (crse fine : Array4 K)
    (mask : Option (Array4 Int)) (ratio : IntVect) :
    ((mask = none ∨ ∃ m, mask = some m ∧ m.dat ci cj 0 nc ≠ 0) →
      (idir = 0 →
        (facediv_face_interp ci cj ck nc nf idir crse fine mask ratio).dat
            (ci * ratio.x) (cj * ratio.y) 0 nf =
          (8 * crse.dat ci cj 0 nc + crse.dat ci (cj - 1) 0 nc - crse.dat ci (cj + 1) 0 nc) / 8 ∧
        (facediv_face_interp ci cj ck nc nf idir crse fine mask ratio).dat
            (ci * ratio.x) (cj * ratio.y + 1) 0 nf =
          (8 * crse.dat ci cj 0 nc + crse.dat ci (cj + 1) 0 nc - crse.dat ci (cj - 1) 0 nc) / 8 ∧
        ∀ i j k m, ¬ (i = ci * ratio.x ∧ (j = cj * ratio.y ∨ j = cj * ratio.y + 1) ∧
            k = 0 ∧ m = nf) →
          (facediv_face_interp ci cj ck nc nf idir crse fine mask ratio).dat i j k m =
            fine.dat i j k m) ∧
      (idir = 1 →
        (facediv_face_interp ci cj ck nc nf idir crse fine mask ratio).dat
            (ci * ratio.x) (cj * ratio.y) 0 nf =
          (8 * crse.dat ci cj 0 nc + crse.dat (ci - 1) cj 0 nc - crse.dat (ci + 1) cj 0 nc) / 8 ∧
        (facediv_face_interp ci cj ck nc nf idir crse fine mask ratio).dat
            (ci * ratio.x + 1) (cj * ratio.y) 0 nf =
          (8 * crse.dat ci cj 0 nc + crse.dat (ci + 1) cj 0 nc - crse.dat (ci - 1) cj 0 nc) / 8 ∧
        ∀ i j k m, ¬ ((i = ci * ratio.x ∨ i = ci * ratio.x + 1) ∧ j = cj * ratio.y ∧
            k = 0 ∧ m = nf) →
          (facediv_face_interp ci cj ck nc nf idir crse fine mask ratio).dat i j k m =
            fine.dat i j k m)) ∧
    ((∃ m, mask = some m ∧ m.dat ci cj 0 nc = 0) →
      facediv_face_interp ci cj ck nc nf idir crse fine mask ratio = fine) := by
  constructor
  · intro hm
    have hb : maskBlocks mask ci cj nc = false := by
      rcases hm with rfl | ⟨m, rfl, hne⟩
      · rfl
      · simp [maskBlocks, hne]
    constructor
    · rintro rfl
      unfold facediv_face_interp
      simp only [hb, if_true, Bool.false_eq_true, if_false]
      refine ⟨?_, ?_, ?_⟩
      · simp (disch := omega) only [Array4.set_dat_eq, Array4.set_dat_other]
        ring
      · simp (disch := omega) only [Array4.set_dat_eq]
        ring
      · intro i j k m h
        rw [Array4.set_dat_other _ _ _ _ _ _ _ _ _ _ (by tauto),
          Array4.set_dat_other _ _ _ _ _ _ _ _ _ _ (by tauto)]
    · rintro rfl
      unfold facediv_face_interp
      simp only [hb, if_true, Bool.false_eq_true, if_false, one_ne_zero]
      refine ⟨?_, ?_, ?_⟩
      · simp (disch := omega) only [Array4.set_dat_eq, Array4.set_dat_other]
        ring
      · simp (disch := omega) only [Array4.set_dat_eq]
        ring
      · intro i j k m h
        rw [Array4.set_dat_other _ _ _ _ _ _ _ _ _ _ (by tauto),
          Array4.set_dat_other _ _ _ _ _ _ _ _ _ _ (by tauto)]
  · rintro ⟨m, rfl, h0⟩
    unfold facediv_face_interp
    simp [maskBlocks, h0]

/-- Witness for C20: coarse face `(1, 1)` of `faceSample`, ratio `(2, 2)`: the fill along
`idir = 0` with an absent mask, and the skip with a mask holding `0`. -/
theorem facediv_face_interp_fill_witness :
    ((facediv_face_interp 1 1 0 0 0 0 faceSample (zeroArray4 ⟨0, 0, 0⟩ ⟨4, 4, 0⟩) none
          ⟨2, 2⟩).dat (1 * (⟨2, 2⟩ : IntVect).x) (1 * (⟨2, 2⟩ : IntVect).y) 0 0 =
        (8 * faceSample.dat 1 1 0 0 + faceSample.dat 1 (1 - 1) 0 0
          - faceSample.dat 1 (1 + 1) 0 0) / 8 ∧
      (facediv_face_interp 1 1 0 0 0 0 faceSample (zeroArray4 ⟨0, 0, 0⟩ ⟨4, 4, 0⟩) none
          ⟨2, 2⟩).dat (1 * (⟨2, 2⟩ : IntVect).x) (1 * (⟨2, 2⟩ : IntVect).y + 1) 0 0 =
        (8 * faceSample.dat 1 1 0 0 + faceSample.dat 1 (1 + 1) 0 0
          - faceSample.dat 1 (1 - 1) 0 0) / 8 ∧
      ∀ i j k m, ¬ (i = 1 * (⟨2, 2⟩ : IntVect).x ∧
          (j = 1 * (⟨2, 2⟩ : IntVect).y ∨ j = 1 * (⟨2, 2⟩ : IntVect).y + 1) ∧ k = 0 ∧ m = 0) →
        (facediv_face_interp 1 1 0 0 0 0 faceSample (zeroArray4 ⟨0, 0, 0⟩ ⟨4, 4, 0⟩) none
          ⟨2, 2⟩).dat i j k m = (zeroArray4 ⟨0, 0, 0⟩ ⟨4, 4, 0⟩).dat i j k m) ∧
    facediv_face_interp 1 1 0 0 0 0 faceSample (zeroArray4 ⟨0, 0, 0⟩ ⟨4, 4, 0⟩)
      (some (constMask 0)) ⟨2, 2⟩ = zeroArray4 ⟨0, 0, 0⟩ ⟨4, 4, 0⟩ :=
  ⟨((facediv_face_interp_fill 1 1 0 0 0 0 faceSample (zeroArray4 ⟨0, 0, 0⟩ ⟨4, 4, 0⟩) none
      ⟨2, 2⟩).1 (Or.inl rfl)).1 rfl,
    (facediv_face_interp_fill 1 1 0 0 0 0 faceSample (zeroArray4 ⟨0, 0, 0⟩ ⟨4, 4, 0⟩)
      (some (constMask 0)) ⟨2, 2⟩).2 ⟨constMask 0, rfl, by decide⟩⟩

end FaceLinear

/-! ## Bilinear nodal interpolation: the slopes and the tensor form -/

section BilinearForm

variable {K : Type} [LinearOrderedField K]

/-- Claim C21. (as stated, refuted) The slopes stored by `nodebilin_slopes` are not central
differences: for node data `(I + 1/2)^2`, ratio `(2, 2)`, at the node `(0, 0)` the stored
x-slope is `1`, while the central difference `(u(1,0) - u(-1,0))/2` times `1/2` is `1/2`. -/
theorem nodebilin_slopes_not_central :
    ¬ ∀ (bx : Box) (slope u : Array4 ℚ) (icomp ncomp : Int) (ratio : IntVect) (n i j : Int),
      1 ≤ ratio.x → 1 ≤ ratio.y → 0 ≤ n → n < ncomp →
      bx.smallEnd.x ≤ i → i ≤ bx.bigEnd.x → bx.smallEnd.y ≤ j → j ≤ bx.bigEnd.y →
      (nodebilin_slopes bx slope u icomp ncomp ratio).dat i j 0 (n + ncomp * ix) =
          1 / (ratio.x : ℚ) *
            ((u.dat (i + 1) j 0 (n + icomp) - u.dat (i - 1) j 0 (n + icomp)) / 2) ∧
      (nodebilin_slopes bx slope u icomp ncomp ratio).dat i j 0 (n + ncomp * iy) =
          1 / (ratio.y : ℚ) *
            ((u.dat i (j + 1) 0 (n + icomp) - u.dat i (j - 1) 0 (n + icomp)) / 2) := by
  intro h
  have h1 := (h ⟨⟨0, 0⟩, ⟨0, 0⟩⟩ (zeroArray4 ⟨0, 0, 0⟩ ⟨0, 0, 0⟩) squareSample 0 1 ⟨2, 2⟩ 0 0 0
    (by decide) (by decide) (by decide) (by decide) (by decide) (by decide) (by decide)
    (by decide)).1
  rw [(nodebilin_slopes_values ⟨⟨0, 0⟩, ⟨0, 0⟩⟩ (zeroArray4 ⟨0, 0, 0⟩ ⟨0, 0, 0⟩) squareSample
    0 1 ⟨2, 2⟩ 0 (by decide) (by decide) 0 0 (by decide) (by decide) (by decide)
    (by decide)).1] at h1
  norm_num [squareSample] at h1

/-- Claim C21. (amended) For every node `(i, j)` of the box and every component, the x-slope
stored by `nodebilin_slopes` is the forward difference `u(i+1, j) - u(i, j)` multiplied by
`1/ratio_x`, and the y-slope is the forward difference `u(i, j+1) - u(i, j)` multiplied by
`1/ratio_y`. -/
theorem nodebilin_slopes_forward (bx : Box) (slope u : Array4 K) (icomp ncomp : Int)
    (ratio : IntVect) (n : Int) (hn0 : 0 ≤ n) (hn1 : n < ncomp) (i j : Int)
    (hi0 : bx.smallEnd.x ≤ i) (hi1 : i ≤ bx.bigEnd.x)
    (hj0 : bx.smallEnd.y ≤ j) (hj1 : j ≤ bx.bigEnd.y) :
    (nodebilin_slopes bx slope u icomp ncomp ratio).dat i j 0 (n + ncomp * ix) =
        1 / (ratio.x : K) * (u.dat (i + 1) j 0 (n + icomp) - u.dat i j 0 (n + icomp)) ∧
    (nodebilin_slopes bx slope u icomp ncomp ratio).dat i j 0 (n + ncomp * iy) =
        1 / (ratio.y : K) * (u.dat i (j + 1) 0 (n + icomp) - u.dat i j 0 (n + icomp)) :=
  ⟨(nodebilin_slopes_values bx slope u icomp ncomp ratio n hn0 hn1 i j hi0 hi1 hj0 hj1).1,
    (nodebilin_slopes_values bx slope u icomp ncomp ratio n hn0 hn1 i j hi0 hi1 hj0 hj1).2.1⟩

/-- Witness for the amended C21: node data `(I + 1/2)^2`, ratio `(2, 2)`, node `(0, 0)`. -/
theorem nodebilin_slopes_forward_witness :
    (nodebilin_slopes ⟨⟨0, 0⟩, ⟨0, 0⟩⟩ (zeroArray4 ⟨0, 0, 0⟩ ⟨0, 0, 0⟩) squareSample 0 1
        ⟨2, 2⟩).dat 0 0 0 (0 + 1 * ix) =
        1 / (((⟨2, 2⟩ : IntVect).x : Int) : ℚ) *
          (squareSample.dat (0 + 1) 0 0 (0 + 0) - squareSample.dat 0 0 0 (0 + 0)) ∧
    (nodebilin_slopes ⟨⟨0, 0⟩, ⟨0, 0⟩⟩ (zeroArray4 ⟨0, 0, 0⟩ ⟨0, 0, 0⟩) squareSample 0 1
        ⟨2, 2⟩).dat 0 0 0 (0 + 1 * iy) =
        1 / (((⟨2, 2⟩ : IntVect).y : Int) : ℚ) *
          (squareSample.dat 0 (0 + 1) 0 (0 + 0) - squareSample.dat 0 0 0 (0 + 0)) :=
  nodebilin_slopes_forward ⟨⟨0, 0⟩, ⟨0, 0⟩⟩ (zeroArray4 ⟨0, 0, 0⟩ ⟨0, 0, 0⟩) squareSample 0 1
    ⟨2, 2⟩ 0 (by decide) (by decide) 0 0 (by decide) (by decide) (by decide) (by decide)

/-- The anchor of the statements is the anchor the code computes. -/
theorem anchorIndex_eq (i r hi : Int) (hr : 0 < r) : anchorIndex i r hi = min (coarsen i r) hi := by
  unfold anchorIndex
  rw [coarsen_eq_floor i r hr]

/-- The tensor-bilinear form of the slope pass followed by the evaluation pass, at a fine
node whose anchor lies in the slope buffer. -/
theorem nodebilin_tensor_value (sbx bx : Box) (slope fine u : Array4 K)
    (icomp fcomp ncomp : Int) (ratio : IntVect) (hrx : 1 ≤ ratio.x) (hry : 1 ≤ ratio.y)
    (hsx0 : sbx.smallEnd.x = slope.lo.x) (hsy0 : sbx.smallEnd.y = slope.lo.y)
    (hsx1 : sbx.bigEnd.x = slope.hi.x) (hsy1 : sbx.bigEnd.y = slope.hi.y)
    (n : Int) (hn0 : 0 ≤ n) (hn1 : n < ncomp)
    (i j : Int) (hi0 : bx.smallEnd.x ≤ i) (hi1 : i ≤ bx.bigEnd.x)
    (hj0 : bx.smallEnd.y ≤ j) (hj1 : j ≤ bx.bigEnd.y)
    (hax : slope.lo.x ≤ anchorIndex i ratio.x slope.hi.x)
    (hay : slope.lo.y ≤ anchorIndex j ratio.y slope.hi.y) :
    (nodebilin_interp bx fine fcomp ncomp (nodebilin_slopes sbx slope u icomp ncomp ratio)
        u icomp ratio).dat i j 0 (n + fcomp) =
      (1 - anchorOffset i ratio.x (anchorIndex i ratio.x slope.hi.x))
          * (1 - anchorOffset j ratio.y (anchorIndex j ratio.y slope.hi.y))
          * u.dat (anchorIndex i ratio.x slope.hi.x) (anchorIndex j ratio.y slope.hi.y) 0
              (n + icomp)
        + anchorOffset i ratio.x (anchorIndex i ratio.x slope.hi.x)
          * (1 - anchorOffset j ratio.y (anchorIndex j ratio.y slope.hi.y))
          * u.dat (anchorIndex i ratio.x slope.hi.x + 1) (anchorIndex j ratio.y slope.hi.y) 0
              (n + icomp)
        + (1 - anchorOffset i ratio.x (anchorIndex i ratio.x slope.hi.x))
          * anchorOffset j ratio.y (anchorIndex j ratio.y slope.hi.y)
          * u.dat (anchorIndex i ratio.x slope.hi.x) (anchorIndex j ratio.y slope.hi.y + 1) 0
              (n + icomp)
        + anchorOffset i ratio.x (anchorIndex i ratio.x slope.hi.x)
          * anchorOffset j ratio.y (anchorIndex j ratio.y slope.hi.y)
          * u.dat (anchorIndex i ratio.x slope.hi.x + 1)
              (anchorIndex j ratio.y slope.hi.y + 1) 0 (n + icomp) := by
  rw [anchorIndex_eq i ratio.x _ (by omega)] at hax ⊢
  rw [anchorIndex_eq j ratio.y _ (by omega)] at hay ⊢
  rw [nodebilin_interp_value bx fine fcomp ncomp _ u icomp ratio n hn0 hn1 i j hi0 hi1 hj0 hj1,
    nodebilin_slopes_hi]
  obtain ⟨s1, s2, s3⟩ := nodebilin_slopes_values sbx slope u icomp ncomp ratio n hn0 hn1
    (min (coarsen i ratio.x) slope.hi.x) (min (coarsen j ratio.y) slope.hi.y)
    (by rw [hsx0]; exact hax) (by rw [hsx1]; exact min_le_right _ _)
    (by rw [hsy0]; exact hay) (by rw [hsy1]; exact min_le_right _ _)
  rw [s1, s2, s3]
  have hx : (ratio.x : K) ≠ 0 := by
    have : (0 : K) < (ratio.x : K) := by exact_mod_cast (by omega : (0 : Int) < ratio.x)
    exact this.ne'
  have hy : (ratio.y : K) ≠ 0 := by
    have : (0 : K) < (ratio.y : K) := by exact_mod_cast (by omega : (0 : Int) < ratio.y)
    exact this.ne'
  unfold anchorOffset
  push_cast
  field_simp
  ring

/-- At a fine node on the coarse node `I ≤ hi + 1` the anchor is `I` with offset `0`, or
`I - 1` with offset `1`. -/
theorem anchor_at_coarse_node (r I hi : Int) (hr : 1 ≤ r) (hI : I ≤ hi + 1) :
    (anchorIndex (r * I) r hi = I ∧ anchorOffset (r * I) r (anchorIndex (r * I) r hi) = (0 : K)) ∨
    (anchorIndex (r * I) r hi + 1 = I ∧
      anchorOffset (r * I) r (anchorIndex (r * I) r hi) = (1 : K)) := by
  have hc : coarsen (r * I) r = I := coarsen_footprint _ _ _ (by omega) le_rfl (by omega)
  have hrK : (r : K) ≠ 0 := by
    have : (0 : K) < (r : K) := by exact_mod_cast (by omega : (0 : Int) < r)
    exact this.ne'
  rw [anchorIndex_eq _ _ _ (by omega), hc]
  by_cases h : I ≤ hi
  · left
    rw [min_eq_left h]
    refine ⟨rfl, ?_⟩
    unfold anchorOffset
    simp
  · right
    have e : hi = I - 1 := by omega
    rw [min_eq_right (by omega), e]
    refine ⟨by ring, ?_⟩
    unfold anchorOffset
    push_cast
    field_simp
    ring

/-- Claim C29. The slope pass followed by the evaluation pass is tensor-bilinear
interpolation: for ratio entries `≥ 1`, running `nodebilin_slopes` on `u` over the slope
buffer's box and then `nodebilin_interp` with `crse = u` gives at every fine node `(i, j)`
of `bx` whose anchor lies in the slope buffer
`(1-s)(1-t)*u(ic,jc) + s(1-t)*u(ic+1,jc) + (1-s)t*u(ic,jc+1) + s*t*u(ic+1,jc+1)` with
`ic = min(⌊i/rx⌋, chi.x)`, `jc = min(⌊j/ry⌋, chi.y)`, `s = (i - rx*ic)/rx`,
`t = (j - ry*jc)/ry`; in particular a fine node on a coarse node `(I, J)` with
`I ≤ chi.x + 1`, `J ≤ chi.y + 1` receives exactly `u(I, J)`. -/
theorem nodebilin_tensor_bilinear (sbx bx : Box) (slope fine u : Array4 K)
    (icomp fcomp ncomp : Int) (ratio : IntVect) (hrx : 1 ≤ ratio.x) (hry : 1 ≤ ratio.y)
    (hsx0 : sbx.smallEnd.x = slope.lo.x) (hsy0 : sbx.smallEnd.y = slope.lo.y)
    (hsx1 : sbx.bigEnd.x = slope.hi.x) (hsy1 : sbx.bigEnd.y = slope.hi.y)
    (n : Int) (hn0 : 0 ≤ n) (hn1 : n < ncomp)
    (i j : Int) (hi0 : bx.smallEnd.x ≤ i) (hi1 : i ≤ bx.bigEnd.x)
    (hj0 : bx.smallEnd.y ≤ j) (hj1 : j ≤ bx.bigEnd.y)
    (hax : slope.lo.x ≤ anchorIndex i ratio.x slope.hi.x)
    (hay : slope.lo.y ≤ anchorIndex j ratio.y slope.hi.y) :
    (nodebilin_interp bx fine fcomp ncomp (nodebilin_slopes sbx slope u icomp ncomp ratio)
        u icomp ratio).dat i j 0 (n + fcomp) =
      (1 - anchorOffset i ratio.x (anchorIndex i ratio.x slope.hi.x))
          * (1 - anchorOffset j ratio.y (anchorIndex j ratio.y slope.hi.y))
          * u.dat (anchorIndex i ratio.x slope.hi.x) (anchorIndex j ratio.y slope.hi.y) 0
              (n + icomp)
        + anchorOffset i ratio.x (anchorIndex i ratio.x slope.hi.x)
          * (1 - anchorOffset j ratio.y (anchorIndex j ratio.y slope.hi.y))
          * u.dat (anchorIndex i ratio.x slope.hi.x + 1) (anchorIndex j ratio.y slope.hi.y) 0
              (n + icomp)
        + (1 - anchorOffset i ratio.x (anchorIndex i ratio.x slope.hi.x))
          * anchorOffset j ratio.y (anchorIndex j ratio.y slope.hi.y)
          * u.dat (anchorIndex i ratio.x slope.hi.x) (anchorIndex j ratio.y slope.hi.y + 1) 0
              (n + icomp)
        + anchorOffset i ratio.x (anchorIndex i ratio.x slope.hi.x)
          * anchorOffset j ratio.y (anchorIndex j ratio.y slope.hi.y)
          * u.dat (anchorIndex i ratio.x slope.hi.x + 1)
              (anchorIndex j ratio.y slope.hi.y + 1) 0 (n + icomp) ∧
    (∀ I J : Int, i = ratio.x * I → j = ratio.y * J → I ≤ slope.hi.x + 1 → J ≤ slope.hi.y + 1 →
      (nodebilin_interp bx fine fcomp ncomp (nodebilin_slopes sbx slope u icomp ncomp ratio)
        u icomp ratio).dat i j 0 (n + fcomp) = u.dat I J 0 (n + icomp)) := by
  have key := nodebilin_tensor_value sbx bx slope fine u icomp fcomp ncomp ratio hrx hry
    hsx0 hsy0 hsx1 hsy1 n hn0 hn1 i j hi0 hi1 hj0 hj1 hax hay
  refine ⟨key, ?_⟩
  rintro I J rfl rfl hI hJ
  rw [key]
  rcases anchor_at_coarse_node (K := K) ratio.x I slope.hi.x hrx hI with ⟨a1, a2⟩ | ⟨a1, a2⟩ <;>
  rcases anchor_at_coarse_node (K := K) ratio.y J slope.hi.y hry hJ with ⟨b1, b2⟩ | ⟨b1, b2⟩ <;>
  · rw [a2, b2, a1, b1]
    ring

/-- Witness for C29: node data `(I + 1/2)^2`, ratio `(2, 2)`, slope buffer `[0, 1] × [0, 1]`:
the tensor form at the fine node `(3, 1)`, and the fine node `(4, 2)` on the coarse node
`(2, 1)`, whose anchor is clamped along x. -/
theorem nodebilin_tensor_bilinear_witness :
    ((nodebilin_interp ⟨⟨0, 0⟩, ⟨4, 4⟩⟩ (zeroArray4 ⟨0, 0, 0⟩ ⟨4, 4, 0⟩) 0 1 (nodebilin_slopes ⟨⟨0, 0⟩, ⟨1, 1⟩⟩ (zeroArray4 ⟨0, 0, 0⟩ ⟨1, 1, 0⟩) squareSample 0 1 (⟨2, 2⟩ : IntVect))
        squareSample 0 (⟨2, 2⟩ : IntVect)).dat 3 1 0 (0 + 0) =
      (1 - anchorOffset 3 (⟨2, 2⟩ : IntVect).x (anchorIndex 3 (⟨2, 2⟩ : IntVect).x (zeroArray4 ⟨0, 0, 0⟩ ⟨1, 1, 0⟩).hi.x))
          * (1 - anchorOffset 1 (⟨2, 2⟩ : IntVect).y (anchorIndex 1 (⟨2, 2⟩ : IntVect).y (zeroArray4 ⟨0, 0, 0⟩ ⟨1, 1, 0⟩).hi.y))
          * squareSample.dat (anchorIndex 3 (⟨2, 2⟩ : IntVect).x (zeroArray4 ⟨0, 0, 0⟩ ⟨1, 1, 0⟩).hi.x) (anchorIndex 1 (⟨2, 2⟩ : IntVect).y (zeroArray4 ⟨0, 0, 0⟩ ⟨1, 1, 0⟩).hi.y) 0
              (0 + 0)
        + anchorOffset 3 (⟨2, 2⟩ : IntVect).x (anchorIndex 3 (⟨2, 2⟩ : IntVect).x (zeroArray4 ⟨0, 0, 0⟩ ⟨1, 1, 0⟩).hi.x)
          * (1 - anchorOffset 1 (⟨2, 2⟩ : IntVect).y (anchorIndex 1 (⟨2, 2⟩ : IntVect).y (zeroArray4 ⟨0, 0, 0⟩ ⟨1, 1, 0⟩).hi.y))
          * squareSample.dat (anchorIndex 3 (⟨2, 2⟩ : IntVect).x (zeroArray4 ⟨0, 0, 0⟩ ⟨1, 1, 0⟩).hi.x + 1) (anchorIndex 1 (⟨2, 2⟩ : IntVect).y (zeroArray4 ⟨0, 0, 0⟩ ⟨1, 1, 0⟩).hi.y) 0
              (0 + 0)
        + (1 - anchorOffset 3 (⟨2, 2⟩ : IntVect).x (anchorIndex 3 (⟨2, 2⟩ : IntVect).x (zeroArray4 ⟨0, 0, 0⟩ ⟨1, 1, 0⟩).hi.x))
          * anchorOffset 1 (⟨2, 2⟩ : IntVect).y (anchorIndex 1 (⟨2, 2⟩ : IntVect).y (zeroArray4 ⟨0, 0, 0⟩ ⟨1, 1, 0⟩).hi.y)
          * squareSample.dat (anchorIndex 3 (⟨2, 2⟩ : IntVect).x (zeroArray4 ⟨0, 0, 0⟩ ⟨1, 1, 0⟩).hi.x) (anchorIndex 1 (⟨2, 2⟩ : IntVect).y (zeroArray4 ⟨0, 0, 0⟩ ⟨1, 1, 0⟩).hi.y + 1) 0
              (0 + 0)
        + anchorOffset 3 (⟨2, 2⟩ : IntVect).x (anchorIndex 3 (⟨2, 2⟩ : IntVect).x (zeroArray4 ⟨0, 0, 0⟩ ⟨1, 1, 0⟩).hi.x)
          * anchorOffset 1 (⟨2, 2⟩ : IntVect).y (anchorIndex 1 (⟨2, 2⟩ : IntVect).y (zeroArray4 ⟨0, 0, 0⟩ ⟨1, 1, 0⟩).hi.y)
          * squareSample.dat (anchorIndex 3 (⟨2, 2⟩ : IntVect).x (zeroArray4 ⟨0, 0, 0⟩ ⟨1, 1, 0⟩).hi.x + 1)
              (anchorIndex 1 (⟨2, 2⟩ : IntVect).y (zeroArray4 ⟨0, 0, 0⟩ ⟨1, 1, 0⟩).hi.y + 1) 0 (0 + 0)) ∧
    (nodebilin_interp ⟨⟨0, 0⟩, ⟨4, 4⟩⟩ (zeroArray4 ⟨0, 0, 0⟩ ⟨4, 4, 0⟩) 0 1
        (nodebilin_slopes ⟨⟨0, 0⟩, ⟨1, 1⟩⟩ (zeroArray4 ⟨0, 0, 0⟩ ⟨1, 1, 0⟩) squareSample 0 1
          (⟨2, 2⟩ : IntVect)) squareSample 0 (⟨2, 2⟩ : IntVect)).dat 4 2 0 (0 + 0) =
      squareSample.dat 2 1 0 (0 + 0) :=
  ⟨(nodebilin_tensor_bilinear ⟨⟨0, 0⟩, ⟨1, 1⟩⟩ ⟨⟨0, 0⟩, ⟨4, 4⟩⟩
      (zeroArray4 ⟨0, 0, 0⟩ ⟨1, 1, 0⟩) (zeroArray4 ⟨0, 0, 0⟩ ⟨4, 4, 0⟩) squareSample 0 0 1 ⟨2, 2⟩
      (by decide) (by decide) rfl rfl rfl rfl 0 (by decide) (by decide)
      3 1 (by decide) (by decide) (by decide) (by decide)
      (by rw [anchorIndex_eq _ _ _ (by decide)]; decide)
      (by rw [anchorIndex_eq _ _ _ (by decide)]; decide)).1,
    (nodebilin_tensor_bilinear ⟨⟨0, 0⟩, ⟨1, 1⟩⟩ ⟨⟨0, 0⟩, ⟨4, 4⟩⟩
      (zeroArray4 ⟨0, 0, 0⟩ ⟨1, 1, 0⟩) (zeroArray4 ⟨0, 0, 0⟩ ⟨4, 4, 0⟩) squareSample 0 0 1 ⟨2, 2⟩
      (by decide) (by decide) rfl rfl rfl rfl 0 (by decide) (by decide)
      4 2 (by decide) (by decide) (by decide) (by decide)
      (by rw [anchorIndex_eq _ _ _ (by decide)]; decide)
      (by rw [anchorIndex_eq _ _ _ (by decide)]; decide)).2 2 1 (by decide) (by decide)
      (by decide) (by decide)⟩

end BilinearForm

/-! ## Divergence-preserving face interpolation: further properties -/

section FaceDivMore

variable {K : Type} [LinearOrderedField K]

/-- Claim C22. `facediv_int` equalises the divergence: for arbitrary exterior fine face
values and non-zero cell sizes `dx`, `dy` (ratio `(2, 2)`), after `facediv_int` the
discrete divergence of each of the four fine cells of the coarse cell equals
`((upm + upp) - (umm + ump))/(4 dx) + ((vpm + vpp) - (vmm + vmp))/(4 dy)`, hence is the same
on all four, and the eight exterior face values are not modified. -/
theorem facediv_int_divergence (ci cj ck nf : Int) (fine : Array4 K × Array4 K) (dx dy : K)
    (hdx : dx ≠ 0) (hdy : dy ≠ 0) (a b : Int) (ha : a = 0 ∨ a = 1) (hb : b = 0 ∨ b = 1) :
    fineDiv (facediv_int ci cj ck nf fine ⟨2, 2⟩ (dx, dy)) nf dx dy (2 * ci + a) (2 * cj + b) =
        ((fine.1.dat (2 * ci + 2) (2 * cj) 0 nf + fine.1.dat (2 * ci + 2) (2 * cj + 1) 0 nf)
          - (fine.1.dat (2 * ci) (2 * cj) 0 nf + fine.1.dat (2 * ci) (2 * cj + 1) 0 nf)) / (4 * dx)
        + ((fine.2.dat (2 * ci) (2 * cj + 2) 0 nf + fine.2.dat (2 * ci + 1) (2 * cj + 2) 0 nf)
          - (fine.2.dat (2 * ci) (2 * cj) 0 nf + fine.2.dat (2 * ci + 1) (2 * cj) 0 nf)) / (4 * dy) ∧
    ((facediv_int ci cj ck nf fine ⟨2, 2⟩ (dx, dy)).1.dat (2 * ci) (2 * cj) 0 nf =
        fine.1.dat (2 * ci) (2 * cj) 0 nf ∧
      (facediv_int ci cj ck nf fine ⟨2, 2⟩ (dx, dy)).1.dat (2 * ci) (2 * cj + 1) 0 nf =
        fine.1.dat (2 * ci) (2 * cj + 1) 0 nf ∧
      (facediv_int ci cj ck nf fine ⟨2, 2⟩ (dx, dy)).1.dat (2 * ci + 2) (2 * cj) 0 nf =
        fine.1.dat (2 * ci + 2) (2 * cj) 0 nf ∧
      (facediv_int ci cj ck nf fine ⟨2, 2⟩ (dx, dy)).1.dat (2 * ci + 2) (2 * cj + 1) 0 nf =
        fine.1.dat (2 * ci + 2) (2 * cj + 1) 0 nf ∧
      (facediv_int ci cj ck nf fine ⟨2, 2⟩ (dx, dy)).2.dat (2 * ci) (2 * cj) 0 nf =
        fine.2.dat (2 * ci) (2 * cj) 0 nf ∧
      (facediv_int ci cj ck nf fine ⟨2, 2⟩ (dx, dy)).2.dat (2 * ci + 1) (2 * cj) 0 nf =
        fine.2.dat (2 * ci + 1) (2 * cj) 0 nf ∧
      (facediv_int ci cj ck nf fine ⟨2, 2⟩ (dx, dy)).2.dat (2 * ci) (2 * cj + 2) 0 nf =
        fine.2.dat (2 * ci) (2 * cj + 2) 0 nf ∧
      (facediv_int ci cj ck nf fine ⟨2, 2⟩ (dx, dy)).2.dat (2 * ci + 1) (2 * cj + 2) 0 nf =
        fine.2.dat (2 * ci + 1) (2 * cj + 2) 0 nf) := by
  have e1 : ci * 2 = 2 * ci := mul_comm _ _
  have e2 : cj * 2 = 2 * cj := mul_comm _ _
  have e3 : ∀ x : Int, x + 1 + 1 = x + 2 := fun x => by ring
  constructor
  · unfold fineDiv facediv_int
    simp only [e1, e2]
    rcases ha with rfl | rfl <;> rcases hb with rfl | rfl <;>
    · simp only [add_zero, e3]
      simp (disch := omega) only [Array4.set_dat_eq, Array4.set_dat_other]
      field_simp
      ring
  · unfold facediv_int
    simp only [e1, e2]
    refine ⟨?_, ?_, ?_, ?_, ?_, ?_, ?_, ?_⟩ <;>
      simp (disch := omega) only [Array4.set_dat_other]

/-- Witness for C22: exterior values taken from `faceSample` and `quadFaceSample`, cell
sizes `1` and `1/2`, the fine cell `(1, 0)` of the coarse cell `(0, 0)`. -/
theorem facediv_int_divergence_witness :
    fineDiv (facediv_int 0 0 0 0 (faceSample, quadFaceSample) ⟨2, 2⟩ (1, 1 / 2)) 0 1 (1 / 2)
        (2 * 0 + 1) (2 * 0 + 0) =
        (((faceSample, quadFaceSample).1.dat (2 * 0 + 2) (2 * 0) 0 0
            + (faceSample, quadFaceSample).1.dat (2 * 0 + 2) (2 * 0 + 1) 0 0)
          - ((faceSample, quadFaceSample).1.dat (2 * 0) (2 * 0) 0 0
            + (faceSample, quadFaceSample).1.dat (2 * 0) (2 * 0 + 1) 0 0)) / (4 * 1)
        + (((faceSample, quadFaceSample).2.dat (2 * 0) (2 * 0 + 2) 0 0
            + (faceSample, quadFaceSample).2.dat (2 * 0 + 1) (2 * 0 + 2) 0 0)
          - ((faceSample, quadFaceSample).2.dat (2 * 0) (2 * 0) 0 0
            + (faceSample, quadFaceSample).2.dat (2 * 0 + 1) (2 * 0) 0 0)) / (4 * (1 / 2)) :=
  (facediv_int_divergence 0 0 0 0 (faceSample, quadFaceSample) 1 (1 / 2) (by norm_num)
    (by norm_num) 1 0 (Or.inr rfl) (Or.inl rfl)).1

/-- The two values written by `facediv_face_interp` when the write is performed. -/
theorem facediv_face_interp_written (ci cj ck nc nf idir : Int) (crse fine : Array4 K)
    (mask : Option (Array4 Int)) (ratio : IntVect)
    (hm : mask = none ∨ ∃ m, mask = some m ∧ m.dat ci cj 0 nc ≠ 0) :
    (idir = 0 →
      (facediv_face_interp ci cj ck nc nf idir crse fine mask ratio).dat
          (ci * ratio.x) (cj * ratio.y) 0 nf =
        0.125 * (8 * crse.dat ci cj 0 nc + crse.dat ci (cj - 1) 0 nc
          - crse.dat ci (cj + 1) 0 nc) ∧
      (facediv_face_interp ci cj ck nc nf idir crse fine mask ratio).dat
          (ci * ratio.x) (cj * ratio.y + 1) 0 nf =
        0.125 * (8 * crse.dat ci cj 0 nc + crse.dat ci (cj + 1) 0 nc
          - crse.dat ci (cj - 1) 0 nc)) ∧
    (idir = 1 →
      (facediv_face_interp ci cj ck nc nf idir crse fine mask ratio).dat
          (ci * ratio.x) (cj * ratio.y) 0 nf =
        0.125 * (8 * crse.dat ci cj 0 nc + crse.dat (ci - 1) cj 0 nc
          - crse.dat (ci + 1) cj 0 nc) ∧
      (facediv_face_interp ci cj ck nc nf idir crse fine mask ratio).dat
          (ci * ratio.x + 1) (cj * ratio.y) 0 nf =
        0.125 * (8 * crse.dat ci cj 0 nc + crse.dat (ci + 1) cj 0 nc
          - crse.dat (ci - 1) cj 0 nc)) := by
  have hb : maskBlocks mask ci cj nc = false := by
    rcases hm with rfl | ⟨m, rfl, hne⟩
    · rfl
    · simp [maskBlocks, hne]
  constructor
  · rintro rfl
    unfold facediv_face_interp
    simp only [hb, if_true, Bool.false_eq_true, if_false]
    constructor
    · simp (disch := omega) only [Array4.set_dat_eq, Array4.set_dat_other]
    · simp (disch := omega) only [Array4.set_dat_eq]
  · rintro rfl
    unfold facediv_face_interp
    simp only [hb, if_true, Bool.false_eq_true, if_false, one_ne_zero]
    constructor
    · simp (disch := omega) only [Array4.set_dat_eq, Array4.set_dat_other]
    · simp (disch := omega) only [Array4.set_dat_eq]

/-- Claim C26. `facediv_face_interp` conserves the coarse face value: whenever the write is
performed (mask absent or non-zero), the mean of the two fine boundary face values written
equals `crse(ci, cj, nc)`, for `idir = 0` and for `idir = 1`. -/
theorem facediv_face_interp_mean (ci cj ck nc nf idir : Int) (crse fine : Array4 K)
    (mask : Option (Array4 Int)) (ratio : IntVect)
    (hm : mask = none ∨ ∃ m, mask = some m ∧ m.dat ci cj 0 nc ≠ 0) :
    (idir = 0 →
      ((facediv_face_interp ci cj ck nc nf idir crse fine mask ratio).dat
          (ci * ratio.x) (cj * ratio.y) 0 nf
        + (facediv_face_interp ci cj ck nc nf idir crse fine mask ratio).dat
          (ci * ratio.x) (cj * ratio.y + 1) 0 nf) / 2 = crse.dat ci cj 0 nc) ∧
    (idir = 1 →
      ((facediv_face_interp ci cj ck nc nf idir crse fine mask ratio).dat
          (ci * ratio.x) (cj * ratio.y) 0 nf
        + (facediv_face_interp ci cj ck nc nf idir crse fine mask ratio).dat
          (ci * ratio.x + 1) (cj * ratio.y) 0 nf) / 2 = crse.dat ci cj 0 nc) := by
  obtain ⟨h0, h1⟩ := facediv_face_interp_written ci cj ck nc nf idir crse fine mask ratio hm
  constructor
  · intro h
    rw [(h0 h).1, (h0 h).2]
    ring
  · intro h
    rw [(h1 h).1, (h1 h).2]
    ring

/-- Witness for C26: coarse face `(1, 1)` of `quadFaceSample`, ratio `(2, 2)`, no mask,
`idir = 0`. -/
theorem facediv_face_interp_mean_witness :
    ((facediv_face_interp 1 1 0 0 0 0 quadFaceSample (zeroArray4 ⟨0, 0, 0⟩ ⟨4, 4, 0⟩) none
          ⟨2, 2⟩).dat (1 * (⟨2, 2⟩ : IntVect).x) (1 * (⟨2, 2⟩ : IntVect).y) 0 0
      + (facediv_face_interp 1 1 0 0 0 0 quadFaceSample (zeroArray4 ⟨0, 0, 0⟩ ⟨4, 4, 0⟩) none
          ⟨2, 2⟩).dat (1 * (⟨2, 2⟩ : IntVect).x) (1 * (⟨2, 2⟩ : IntVect).y + 1) 0 0) / 2
      = quadFaceSample.dat 1 1 0 0 :=
  (facediv_face_interp_mean 1 1 0 0 0 0 quadFaceSample (zeroArray4 ⟨0, 0, 0⟩ ⟨4, 4, 0⟩) none
    ⟨2, 2⟩ (Or.inl rfl)).1 rfl

/-- The stencil of `facediv_face_interp` maps the means of a quadratic over three
consecutive unit intervals to its means over the two halves of the middle interval. -/
theorem quadMean_halves (a b c x : K) :
    0.125 * (8 * quadMean a b c x (x + 1) + quadMean a b c (x - 1) x
        - quadMean a b c (x + 1) (x + 2)) = quadMean a b c x (x + 1 / 2) ∧
    0.125 * (8 * quadMean a b c x (x + 1) + quadMean a b c (x + 1) (x + 2)
        - quadMean a b c (x - 1) x) = quadMean a b c (x + 1 / 2) (x + 1) := by
  have e1 : x + 1 - x = 1 := by ring
  have e2 : x - (x - 1) = 1 := by ring
  have e3 : x + 2 - (x + 1) = 1 := by ring
  have e4 : x + 1 / 2 - x = 1 / 2 := by ring
  have e5 : x + 1 - (x + 1 / 2) = 1 / 2 := by ring
  constructor
  · simp only [quadMean, monoMean, e1, e2, e3, e4, e5]
    norm_num
    ring
  · simp only [quadMean, monoMean, e1, e2, e3, e4, e5]
    norm_num
    ring

/-- Claim C27. `facediv_face_interp` is exact for quadratic face averages (ratio 2, mask
absent or non-zero): for `idir = 0`, if `crse(ci, cj+m, nc)` is the mean of
`q(y) = a + b y + c y^2` over `[cj+m, cj+m+1]` for `m = -1, 0, 1`, then the two values
written, `fine(fi, fj, nf)` and `fine(fi, fj+1, nf)`, are the means of `q` over
`[cj, cj+1/2]` and `[cj+1/2, cj+1]`; symmetrically for `idir = 1` along x. -/
theorem facediv_face_interp_quadratic (ci cj ck nc nf idir : Int) (crse fine : Array4 K)
    (mask : Option (Array4 Int)) (a b c : K)
    (hm : mask = none ∨ ∃ m, mask = some m ∧ m.dat ci cj 0 nc ≠ 0) :
    (idir = 0 →
      crse.dat ci (cj - 1) 0 nc = quadMean a b c ((cj : K) - 1) (cj : K) →
      crse.dat ci cj 0 nc = quadMean a b c (cj : K) ((cj : K) + 1) →
      crse.dat ci (cj + 1) 0 nc = quadMean a b c ((cj : K) + 1) ((cj : K) + 2) →
      (facediv_face_interp ci cj ck nc nf idir crse fine mask ⟨2, 2⟩).dat
          (ci * 2) (cj * 2) 0 nf = quadMean a b c (cj : K) ((cj : K) + 1 / 2) ∧
      (facediv_face_interp ci cj ck nc nf idir crse fine mask ⟨2, 2⟩).dat
          (ci * 2) (cj * 2 + 1) 0 nf = quadMean a b c ((cj : K) + 1 / 2) ((cj : K) + 1)) ∧
    (idir = 1 →
      crse.dat (ci - 1) cj 0 nc = quadMean a b c ((ci : K) - 1) (ci : K) →
      crse.dat ci cj 0 nc = quadMean a b c (ci : K) ((ci : K) + 1) →
      crse.dat (ci + 1) cj 0 nc = quadMean a b c ((ci : K) + 1) ((ci : K) + 2) →
      (facediv_face_interp ci cj ck nc nf idir crse fine mask ⟨2, 2⟩).dat
          (ci * 2) (cj * 2) 0 nf = quadMean a b c (ci : K) ((ci : K) + 1 / 2) ∧
      (facediv_face_interp ci cj ck nc nf idir crse fine mask ⟨2, 2⟩).dat
          (ci * 2 + 1) (cj * 2) 0 nf = quadMean a b c ((ci : K) + 1 / 2) ((ci : K) + 1)) := by
  obtain ⟨h0, h1⟩ := facediv_face_interp_written ci cj ck nc nf idir crse fine mask ⟨2, 2⟩ hm
  constructor
  · intro h hn hc hp
    rw [(h0 h).1, (h0 h).2, hn, hc, hp]
    exact quadMean_halves a b c (cj : K)
  · intro h hn hc hp
    rw [(h1 h).1, (h1 h).2, hn, hc, hp]
    exact quadMean_halves a b c (ci : K)

/-- Witness for C27: the face means `quadFaceSample` of `1 + 2 y + 3 y^2`, coarse face
`(1, 1)`, no mask, `idir = 0`. -/
theorem facediv_face_interp_quadratic_witness :
    (facediv_face_interp 1 1 0 0 0 0 quadFaceSample (zeroArray4 ⟨0, 0, 0⟩ ⟨4, 4, 0⟩) none
        ⟨2, 2⟩).dat (1 * 2) (1 * 2) 0 0 =
      quadMean 1 2 3 (((1 : Int) : ℚ)) (((1 : Int) : ℚ) + 1 / 2) ∧
    (facediv_face_interp 1 1 0 0 0 0 quadFaceSample (zeroArray4 ⟨0, 0, 0⟩ ⟨4, 4, 0⟩) none
        ⟨2, 2⟩).dat (1 * 2) (1 * 2 + 1) 0 0 =
      quadMean 1 2 3 (((1 : Int) : ℚ) + 1 / 2) (((1 : Int) : ℚ) + 1) :=
  (facediv_face_interp_quadratic 1 1 0 0 0 0 quadFaceSample (zeroArray4 ⟨0, 0, 0⟩ ⟨4, 4, 0⟩)
    none 1 2 3 (Or.inl rfl)).1 rfl
    (by norm_num [quadFaceSample]) (by norm_num [quadFaceSample])
    (by norm_num [quadFaceSample])

end FaceDivMore

/-! ## Quartic cell interpolation: conservation -/

section QuarticMore

variable {K : Type} [LinearOrderedField K]

/-- Claim C28. `ccquartic_interp` is conservative: for arbitrary coarse data and every
coarse cell `(ic, jc)` (negative indices included), the four fine values the operator
writes at `(2*ic + a, 2*jc + b)`, `a, b ∈ {0, 1}`, have mean exactly `crse(ic, jc, n)`,
whatever the fine arrays it is applied to. -/
theorem ccquartic_interp_conservative (ic jc k n : Int) (crse : Array4 K)
    (f00 f10 f01 f11 : Array4 K) :
    ((ccquartic_interp (2 * ic) (2 * jc) k n crse f00).dat (2 * ic) (2 * jc) 0 n
      + (ccquartic_interp (2 * ic + 1) (2 * jc) k n crse f10).dat (2 * ic + 1) (2 * jc) 0 n
      + (ccquartic_interp (2 * ic) (2 * jc + 1) k n crse f01).dat (2 * ic) (2 * jc + 1) 0 n
      + (ccquartic_interp (2 * ic + 1) (2 * jc + 1) k n crse f11).dat
          (2 * ic + 1) (2 * jc + 1) 0 n) / 4 = crse.dat ic jc 0 n := by
  have ei0 : coarsen (2 * ic) 2 = ic := coarsen_footprint _ _ _ (by decide) le_rfl (by omega)
  have ei1 : coarsen (2 * ic + 1) 2 = ic :=
    coarsen_footprint _ _ _ (by decide) (by omega) (by omega)
  have ej0 : coarsen (2 * jc) 2 = jc := coarsen_footprint _ _ _ (by decide) le_rfl (by omega)
  have ej1 : coarsen (2 * jc + 1) 2 = jc :=
    coarsen_footprint _ _ _ (by decide) (by omega) (by omega)
  have pi0 : (2 * ic - 2 * ic ≠ 0) = False := by simp
  have pi1 : (2 * ic + 1 - 2 * ic ≠ 0) = True := by simp
  have pj0 : (2 * jc - 2 * jc ≠ 0) = False := by simp
  have pj1 : (2 * jc + 1 - 2 * jc ≠ 0) = True := by simp
  rw [ccquartic_interp_eq, ccquartic_interp_eq, ccquartic_interp_eq, ccquartic_interp_eq]
  simp only [ei0, ei1, ej0, ej1, pi0, pi1, pj0, pj1]
  unfold quarticLine
  simp only [if_true, if_false, cL]
  norm_num
  ring

end QuarticMore

/-! ## Independence of the units of `facediv_int` -/

section Commute

variable {K : Type} [LinearOrderedField K]

/-- Two views with the same entries and the same bounds are equal. -/
theorem Array4.eq_of_dat {T : Type} (a b : Array4 T) (hd : a.dat = b.dat) (hl : a.lo = b.lo)
    (hh : a.hi = b.hi) : a = b := by
  cases a
  cases b
  simp only [Array4.mk.injEq]
  exact ⟨hd, hl, hh⟩

/-- Claim C30. Independent units commute: for ratio `(2, 2)` and two distinct coarse cells
`(ci, cj)` and `(ci', cj')`, applying `facediv_int` to one and then to the other yields the
same pair of fine face arrays as the opposite order, for every initial content of the
arrays; the eight entries the call for `(ci, cj)` reads are left unchanged by the call for
`(ci', cj')`, and the four entries the call for `(ci, cj)` writes are not overwritten by
the call for `(ci', cj')`. -/
theorem facediv_int_commute (ci cj ci' cj' ck nf : Int) (fine : Array4 K × Array4 K)
    (cellSize : K × K) (h : ci ≠ ci' ∨ cj ≠ cj') :
    facediv_int ci cj ck nf (facediv_int ci' cj' ck nf fine ⟨2, 2⟩ cellSize) ⟨2, 2⟩ cellSize =
      facediv_int ci' cj' ck nf (facediv_int ci cj ck nf fine ⟨2, 2⟩ cellSize) ⟨2, 2⟩ cellSize ∧
    (∀ a b : Int, (a = 0 ∨ a = 2) → (b = 0 ∨ b = 1) →
      (facediv_int ci' cj' ck nf fine ⟨2, 2⟩ cellSize).1.dat (ci * 2 + a) (cj * 2 + b) 0 nf =
        fine.1.dat (ci * 2 + a) (cj * 2 + b) 0 nf) ∧
    (∀ a b : Int, (a = 0 ∨ a = 1) → (b = 0 ∨ b = 2) →
      (facediv_int ci' cj' ck nf fine ⟨2, 2⟩ cellSize).2.dat (ci * 2 + a) (cj * 2 + b) 0 nf =
        fine.2.dat (ci * 2 + a) (cj * 2 + b) 0 nf) ∧
    (∀ b : Int, (b = 0 ∨ b = 1) →
      (facediv_int ci' cj' ck nf (facediv_int ci cj ck nf fine ⟨2, 2⟩ cellSize) ⟨2, 2⟩
          cellSize).1.dat (ci * 2 + 1) (cj * 2 + b) 0 nf =
        (facediv_int ci cj ck nf fine ⟨2, 2⟩ cellSize).1.dat (ci * 2 + 1) (cj * 2 + b) 0 nf) ∧
    (∀ a : Int, (a = 0 ∨ a = 1) →
      (facediv_int ci' cj' ck nf (facediv_int ci cj ck nf fine ⟨2, 2⟩ cellSize) ⟨2, 2⟩
          cellSize).2.dat (ci * 2 + a) (cj * 2 + 1) 0 nf =
        (facediv_int ci cj ck nf fine ⟨2, 2⟩ cellSize).2.dat (ci * 2 + a) (cj * 2 + 1) 0 nf) := by
  refine ⟨?_, ?_, ?_, ?_, ?_⟩
  · unfold facediv_int
    simp only []
    simp (disch := omega) only [Array4.set_dat_other]
    refine Prod.ext ?_ ?_
    · refine Array4.eq_of_dat _ _ ?_ rfl rfl
      funext i j k n
      simp only [Array4.set_dat]
      split_ifs <;> first | rfl | (exfalso; omega)
    · refine Array4.eq_of_dat _ _ ?_ rfl rfl
      funext i j k n
      simp only [Array4.set_dat]
      split_ifs <;> first | rfl | (exfalso; omega)
  · intro a b ha hb
    unfold facediv_int
    simp only []
    rw [Array4.set_dat_other _ _ _ _ _ _ _ _ _ _ (by omega),
      Array4.set_dat_other _ _ _ _ _ _ _ _ _ _ (by omega)]
  · intro a b ha hb
    unfold facediv_int
    simp only []
    rw [Array4.set_dat_other _ _ _ _ _ _ _ _ _ _ (by omega),
      Array4.set_dat_other _ _ _ _ _ _ _ _ _ _ (by omega)]
  · intro b hb
    generalize facediv_int ci cj ck nf fine ⟨2, 2⟩ cellSize = g
    unfold facediv_int
    simp only []
    rw [Array4.set_dat_other _ _ _ _ _ _ _ _ _ _ (by omega),
      Array4.set_dat_other _ _ _ _ _ _ _ _ _ _ (by omega)]
  · intro a ha
    generalize facediv_int ci cj ck nf fine ⟨2, 2⟩ cellSize = g
    unfold facediv_int
    simp only []
    rw [Array4.set_dat_other _ _ _ _ _ _ _ _ _ _ (by omega),
      Array4.set_dat_other _ _ _ _ _ _ _ _ _ _ (by omega)]

/-- Witness for C30: the coarse cells `(0, 0)` and `(1, 0)` on the face data `faceSample`
with unit cell sizes. -/
theorem facediv_int_commute_witness :
    facediv_int 0 0 0 0 (facediv_int 1 0 0 0 (faceSample, faceSample) ⟨2, 2⟩ ((1 : ℚ), 1))
        ⟨2, 2⟩ ((1 : ℚ), 1) =
      facediv_int 1 0 0 0 (facediv_int 0 0 0 0 (faceSample, faceSample) ⟨2, 2⟩ ((1 : ℚ), 1))
        ⟨2, 2⟩ ((1 : ℚ), 1) :=
  (facediv_int_commute 0 0 1 0 0 0 (faceSample, faceSample) ((1 : ℚ), 1)
    (Or.inl (by decide))).1

end Commute

/-! ## Conservative positivity correction: conservation -/

section Conservation

variable {K : Type} [LinearOrderedField K]

/-- A footprint sum of a cell-wise linear combination of three fields is the linear
combination of their footprint sums. -/
theorem footprintSum_lin (ic jc : Int) (fine_bx : Box) (ratio : IntVect) (α β γ : K)
    (g p q r : Int → Int → K)
    (hg : ∀ i j, inFootprint ic jc fine_bx ratio i j →
      g i j = α * p i j + β * q i j + γ * r i j) :
    footprintSum ic jc fine_bx ratio g =
      α * footprintSum ic jc fine_bx ratio p + β * footprintSum ic jc fine_bx ratio q
        + γ * footprintSum ic jc fine_bx ratio r := by
  unfold footprintSum
  rw [Finset.mul_sum, Finset.mul_sum, Finset.mul_sum, ← Finset.sum_add_distrib,
    ← Finset.sum_add_distrib]
  refine Finset.sum_congr rfl (fun j hj => ?_)
  rw [Finset.mul_sum, Finset.mul_sum, Finset.mul_sum, ← Finset.sum_add_distrib,
    ← Finset.sum_add_distrib]
  refine Finset.sum_congr rfl (fun i hi => ?_)
  rw [Finset.mem_Icc] at hj hi
  exact hg i j ((inFootprint_iff ic jc fine_bx ratio i j).2 ⟨hi, hj⟩)

/-- The aggregate `crseTot` as a footprint sum. -/
theorem ccprotect_aggregates_crseTot (ic jc : Int) (fine_bx : Box) (ratio : IntVect)
    (fn_geomdata : GeometryData K) (n : Int) (fine fine_state : Array4 K) :
    (ccprotect_aggregates ic jc fine_bx ratio fn_geomdata n fine fine_state).crseTot =
      footprintSum ic jc fine_bx ratio (fun i j =>
        ccprotect_fvol fn_geomdata i * fine.dat i j 0 n) :=
  ccprotect_sums_crseTot _ _ _ _ _ _ _ _

/-- The aggregate `SumN` as a footprint sum. -/
theorem ccprotect_aggregates_SumN (ic jc : Int) (fine_bx : Box) (ratio : IntVect)
    (fn_geomdata : GeometryData K) (n : Int) (fine fine_state : Array4 K) :
    (ccprotect_aggregates ic jc fine_bx ratio fn_geomdata n fine fine_state).SumN =
      footprintSum ic jc fine_bx ratio (fun i j =>
        if fine_state.dat i j 0 n ≤ 0 then ccprotect_fvol fn_geomdata i * fine_state.dat i j 0 n
        else 0) :=
  ccprotect_sums_SumN _ _ _ _ _ _ _ _

/-- The aggregate `SumP` as a footprint sum. -/
theorem ccprotect_aggregates_SumP (ic jc : Int) (fine_bx : Box) (ratio : IntVect)
    (fn_geomdata : GeometryData K) (n : Int) (fine fine_state : Array4 K) :
    (ccprotect_aggregates ic jc fine_bx ratio fn_geomdata n fine fine_state).SumP =
      footprintSum ic jc fine_bx ratio (fun i j =>
        if fine_state.dat i j 0 n ≤ 0 then 0
        else ccprotect_fvol fn_geomdata i * fine_state.dat i j 0 n) :=
  ccprotect_sums_SumP _ _ _ _ _ _ _ _

/-- The volume-weighted footprint sum of a repaired correction that is, cell by cell,
`α` times the positive-state term plus `β` times the non-positive-state term plus `γ`
times the cell volume. -/
theorem ccprotect_repaired_sum (ic jc kc nvar : Int) (fine_bx : Box) (ratio : IntVect)
    (cs_geomdata fn_geomdata : GeometryData K) (fine fine_state : Array4 K)
    (n : Int) (hn1 : 1 ≤ n) (hn2 : n ≤ nvar - 2)
    (hredo : ccprotect_detects ic jc fine_bx ratio n fine fine_state = true)
    (α β γ : K)
    (hv : ∀ st x : K, ccprotect_newval (ccprotect_aggregates ic jc fine_bx ratio fn_geomdata n fine fine_state).crseTot (ccprotect_aggregates ic jc fine_bx ratio fn_geomdata n fine fine_state).SumN (ccprotect_aggregates ic jc fine_bx ratio fn_geomdata n fine fine_state).SumP
        (ccprotect_cvol cs_geomdata ic) st x =
      α * (if st ≤ 0 then 0 else st) + β * (if st ≤ 0 then st else 0) + γ) :
    footprintSum ic jc fine_bx ratio (fun i j => ccprotect_fvol fn_geomdata i *
        (ccprotect_2d ic jc kc nvar fine_bx ratio cs_geomdata fn_geomdata fine fine_state).dat i j 0 n) =
      α * (ccprotect_aggregates ic jc fine_bx ratio fn_geomdata n fine fine_state).SumP + β * (ccprotect_aggregates ic jc fine_bx ratio fn_geomdata n fine fine_state).SumN
        + γ * footprintSum ic jc fine_bx ratio (fun i _ => ccprotect_fvol fn_geomdata i) := by
  rw [ccprotect_aggregates_SumP, ccprotect_aggregates_SumN]
  refine footprintSum_lin ic jc fine_bx ratio α β γ _ _ _ _ (fun i j hf => ?_)
  rw [ccprotect_2d_repaired ic jc kc nvar fine_bx ratio cs_geomdata fn_geomdata fine fine_state
    n hn1 hn2 hredo i j hf, hv]
  split_ifs <;> ring

/-- Claim C23. Conservation of `ccprotect_2d` in Cases B, D and E: for a component `n` in
`1 .. nvar-2` and a footprint (clipped or not, Cartesian or cylindrical) with positive
fine cell volumes for which detection triggers and the Case B condition
(`crseTot > 0`, `crseTot < |SumN|`), the Case D condition (`crseTot < 0`,
`|crseTot| < SumP`, `SumP + SumN + crseTot > 0`) or the Case E condition (`crseTot < 0`,
`|crseTot| < SumP`, `SumP + SumN + crseTot < 0`) holds, the volume-weighted sum over the
footprint of the repaired correction equals `crseTot`, which is the volume-weighted sum
of the original correction. -/
theorem ccprotect_2d_caseBDE_conservation (ic jc kc nvar : Int) (fine_bx : Box)
    (ratio : IntVect) (cs_geomdata fn_geomdata : GeometryData K) (fine fine_state : Array4 K)
    (n : Int) (hn1 : 1 ≤ n) (hn2 : n ≤ nvar - 2)
    (hvol : ∀ i j, inFootprint ic jc fine_bx ratio i j → 0 < ccprotect_fvol fn_geomdata i)
    (hredo : ccprotect_detects ic jc fine_bx ratio n fine fine_state = true)
    (hcase : ccprotect_condB (ccprotect_aggregates ic jc fine_bx ratio fn_geomdata n fine fine_state).crseTot (ccprotect_aggregates ic jc fine_bx ratio fn_geomdata n fine fine_state).SumN ∨
      ccprotect_condD (ccprotect_aggregates ic jc fine_bx ratio fn_geomdata n fine fine_state).crseTot (ccprotect_aggregates ic jc fine_bx ratio fn_geomdata n fine fine_state).SumN (ccprotect_aggregates ic jc fine_bx ratio fn_geomdata n fine fine_state).SumP ∨
      ccprotect_condE (ccprotect_aggregates ic jc fine_bx ratio fn_geomdata n fine fine_state).crseTot (ccprotect_aggregates ic jc fine_bx ratio fn_geomdata n fine fine_state).SumN (ccprotect_aggregates ic jc fine_bx ratio fn_geomdata n fine fine_state).SumP) :
    footprintSum ic jc fine_bx ratio (fun i j => ccprotect_fvol fn_geomdata i *
        (ccprotect_2d ic jc kc nvar fine_bx ratio cs_geomdata fn_geomdata fine fine_state).dat i j 0 n) = (ccprotect_aggregates ic jc fine_bx ratio fn_geomdata n fine fine_state).crseTot ∧
    (ccprotect_aggregates ic jc fine_bx ratio fn_geomdata n fine fine_state).crseTot = footprintSum ic jc fine_bx ratio (fun i j =>
        ccprotect_fvol fn_geomdata i * fine.dat i j 0 n) := by
  refine ⟨?_, ccprotect_aggregates_crseTot ic jc fine_bx ratio fn_geomdata n fine fine_state⟩
  have hN := ccprotect_SumN_nonpos ic jc fine_bx ratio fn_geomdata n fine fine_state
    (fun i j h => (hvol i j h).le)
  rcases hcase with ⟨h1, h2⟩ | ⟨h1, h2, h3⟩ | ⟨h1, h2, h3⟩
  · -- Case B
    have hNne : (ccprotect_aggregates ic jc fine_bx ratio fn_geomdata n fine fine_state).SumN ≠ 0 := by
      intro h0
      rw [h0, abs_zero] at h2
      exact lt_asymm h1 h2
    rw [ccprotect_repaired_sum ic jc kc nvar fine_bx ratio cs_geomdata fn_geomdata fine
      fine_state n hn1 hn2 hredo 0 (-((ccprotect_aggregates ic jc fine_bx ratio fn_geomdata n fine fine_state).crseTot / |(ccprotect_aggregates ic jc fine_bx ratio fn_geomdata n fine fine_state).SumN|)) 0]
    · rw [abs_of_nonpos hN]
      field_simp
    · intro st x
      rw [ccprotect_newval_dispatch, if_neg (fun h => lt_asymm h2 h.2), if_pos ⟨h1, h2⟩]
      rcases lt_trichotomy st 0 with h | h | h
      · rw [if_pos h, if_pos h.le, if_pos h.le, abs_of_neg h]; ring
      · subst h; simp
      · rw [if_neg (not_lt.2 h.le), if_neg (not_le.2 h), if_neg (not_le.2 h)]; ring
  · -- Case D
    have hP : 0 < (ccprotect_aggregates ic jc fine_bx ratio fn_geomdata n fine fine_state).SumP := lt_of_le_of_lt (abs_nonneg _) h2
    rw [ccprotect_repaired_sum ic jc kc nvar fine_bx ratio cs_geomdata fn_geomdata fine
      fine_state n hn1 hn2 hredo (((ccprotect_aggregates ic jc fine_bx ratio fn_geomdata n fine fine_state).crseTot + (ccprotect_aggregates ic jc fine_bx ratio fn_geomdata n fine fine_state).SumN) / (ccprotect_aggregates ic jc fine_bx ratio fn_geomdata n fine fine_state).SumP) (-1) 0]
    · field_simp
    · intro st x
      rw [ccprotect_newval_dispatch, if_neg (fun h => lt_asymm h1 h.1),
        if_neg (fun h => lt_asymm h1 h.1), if_neg (fun h => lt_asymm h2 h.2),
        if_pos ⟨h1, h2, h3⟩]
      rcases lt_trichotomy st 0 with h | h | h
      · rw [if_pos h, if_pos h.le, if_pos h.le]; ring
      · subst h; simp
      · rw [if_neg (not_lt.2 h.le), if_neg (not_le.2 h), if_neg (not_le.2 h)]; ring
  · -- Case E
    have hNne : (ccprotect_aggregates ic jc fine_bx ratio fn_geomdata n fine fine_state).SumN ≠ 0 := by
      have h2c := h2
      rw [abs_of_neg h1] at h2c
      have : (ccprotect_aggregates ic jc fine_bx ratio fn_geomdata n fine fine_state).SumN < 0 := by linarith
      exact this.ne
    rw [ccprotect_repaired_sum ic jc kc nvar fine_bx ratio cs_geomdata fn_geomdata fine
      fine_state n hn1 hn2 hredo (-1) (((ccprotect_aggregates ic jc fine_bx ratio fn_geomdata n fine fine_state).crseTot + (ccprotect_aggregates ic jc fine_bx ratio fn_geomdata n fine fine_state).SumP) / (ccprotect_aggregates ic jc fine_bx ratio fn_geomdata n fine fine_state).SumN) 0]
    · field_simp
    · intro st x
      rw [ccprotect_newval_dispatch, if_neg (fun h => lt_asymm h1 h.1),
        if_neg (fun h => lt_asymm h1 h.1), if_neg (fun h => lt_asymm h2 h.2),
        if_neg (fun h => lt_asymm h3 h.2.2), if_pos ⟨h1, h2, h3⟩]
      by_cases h : st ≤ 0
      · rw [if_neg (not_lt.2 h), if_pos h, if_pos h]; ring
      · rw [if_pos (not_le.1 h), if_neg h, if_neg h]; ring

/-- The sample footprint `fine_state = (-10, 2, 2, 2)`, correction `(3, 0, 0, 0)` with unit
volumes: detection triggers, `crseTot = 3`, `SumN = -10`, `SumP = 6`. -/
theorem caseB_sample :
    ccprotect_detects 0 0 unitBlock ⟨2, 2⟩ 1 (cellData 3 0) (cellData (-10) 2) = true ∧
    (ccprotect_aggregates 0 0 unitBlock ⟨2, 2⟩ unitGeom 1 (cellData 3 0)
      (cellData (-10) 2)).crseTot = 3 ∧
    (ccprotect_aggregates 0 0 unitBlock ⟨2, 2⟩ unitGeom 1 (cellData 3 0)
      (cellData (-10) 2)).SumN = -10 ∧
    (ccprotect_aggregates 0 0 unitBlock ⟨2, 2⟩ unitGeom 1 (cellData 3 0)
      (cellData (-10) 2)).SumP = 6 := by
  have hb : ccprotect_ilo 0 unitBlock ⟨2, 2⟩ = 0 ∧ ccprotect_ihi 0 unitBlock ⟨2, 2⟩ = 1 ∧
      ccprotect_jlo 0 unitBlock ⟨2, 2⟩ = 0 ∧ ccprotect_jhi 0 unitBlock ⟨2, 2⟩ = 1 := by decide
  refine ⟨?_, ?_, ?_, ?_⟩
  · simp only [ccprotect_detects, hb, ccprotect_redo_me, forLe]
    norm_num [loopFrom, cellData]
  · simp only [ccprotect_aggregates, hb, ccprotect_sums, forLe]
    norm_num [loopFrom, cellData, ccprotect_fvol, unitGeom]
  · simp only [ccprotect_aggregates, hb, ccprotect_sums, forLe]
    norm_num [loopFrom, cellData, ccprotect_fvol, unitGeom]
  · simp only [ccprotect_aggregates, hb, ccprotect_sums, forLe]
    norm_num [loopFrom, cellData, ccprotect_fvol, unitGeom]

/-- Witness for C23: the Case B sample footprint `fine_state = (-10, 2, 2, 2)`, correction
`(3, 0, 0, 0)`, unit fine volumes. -/
theorem ccprotect_2d_caseBDE_conservation_witness :
    footprintSum 0 0 unitBlock ⟨2, 2⟩ (fun i j => ccprotect_fvol unitGeom i *
        (ccprotect_2d 0 0 0 3 unitBlock ⟨2, 2⟩ coarseGeom unitGeom (cellData 3 0)
          (cellData (-10) 2)).dat i j 0 1) =
      (ccprotect_aggregates 0 0 unitBlock ⟨2, 2⟩ unitGeom 1 (cellData 3 0)
        (cellData (-10) 2)).crseTot ∧
    (ccprotect_aggregates 0 0 unitBlock ⟨2, 2⟩ unitGeom 1 (cellData 3 0)
        (cellData (-10) 2)).crseTot =
      footprintSum 0 0 unitBlock ⟨2, 2⟩ (fun i j =>
        ccprotect_fvol unitGeom i * (cellData 3 0).dat i j 0 1) :=
  ccprotect_2d_caseBDE_conservation 0 0 0 3 unitBlock ⟨2, 2⟩ coarseGeom unitGeom (cellData 3 0)
    (cellData (-10) 2) 1 (by decide) (by decide)
    (fun _ _ _ => by norm_num [ccprotect_fvol, unitGeom])
    caseB_sample.1
    (Or.inl ⟨by rw [caseB_sample.2.1]; norm_num,
      by rw [caseB_sample.2.1, caseB_sample.2.2.1]; norm_num⟩)

/-- The number of indices of a full footprint along one axis is the ratio. -/
theorem footprint_card (r c : Int) (hr : 0 < r) :
    ((Finset.Icc (r * c) (r * c + (r - 1))).card : K) = (r : K) := by
  rw [Int.card_Icc]
  have e : r * c + (r - 1) + 1 - r * c = r := by ring
  rw [e, ← Int.cast_natCast, Int.toNat_of_nonneg hr.le]

/-- With both levels Cartesian, coarse cell sizes `ratio` times the fine ones and the whole
footprint inside `fine_bx`, the fine cell volumes of the footprint add up to the coarse
cell volume. -/
theorem ccprotect_cartesian_volumes (ic jc : Int) (fine_bx : Box) (ratio : IntVect)
    (cs_geomdata fn_geomdata : GeometryData K)
    (hcs : cs_geomdata.coord = CoordSys.cartesian)
    (hfn : fn_geomdata.coord = CoordSys.cartesian)
    (hrpx : 0 < ratio.x) (hrpy : 0 < ratio.y)
    (hrx : cs_geomdata.CellSize.1 = (ratio.x : K) * fn_geomdata.CellSize.1)
    (hry : cs_geomdata.CellSize.2 = (ratio.y : K) * fn_geomdata.CellSize.2)
    (hbx : fine_bx.smallEnd.x ≤ ratio.x * ic ∧ ratio.x * ic + (ratio.x - 1) ≤ fine_bx.bigEnd.x)
    (hby : fine_bx.smallEnd.y ≤ ratio.y * jc ∧ ratio.y * jc + (ratio.y - 1) ≤ fine_bx.bigEnd.y) :
    footprintSum ic jc fine_bx ratio (fun i _ => ccprotect_fvol fn_geomdata i) =
      ccprotect_cvol cs_geomdata ic := by
  have eilo : ccprotect_ilo ic fine_bx ratio = ratio.x * ic := max_eq_left hbx.1
  have eihi : ccprotect_ihi ic fine_bx ratio = ratio.x * ic + (ratio.x - 1) :=
    min_eq_left hbx.2
  have ejlo : ccprotect_jlo jc fine_bx ratio = ratio.y * jc := max_eq_left hby.1
  have ejhi : ccprotect_jhi jc fine_bx ratio = ratio.y * jc + (ratio.y - 1) :=
    min_eq_left hby.2
  unfold footprintSum ccprotect_fvol ccprotect_cvol
  simp only [if_pos hcs, if_pos hfn, eilo, eihi, ejlo, ejhi, Finset.sum_const, nsmul_eq_mul]
  rw [footprint_card ratio.x ic hrpx, footprint_card ratio.y jc hrpy, hrx, hry]
  ring

/-- Claim C24. Conservation of `ccprotect_2d` in Case C under Cartesian geometry: for a
component `n` in `1 .. nvar-2`, if both levels are Cartesian with positive cell sizes, the
coarse cell size equals `ratio` times the fine cell size on each axis, `fine_bx` contains
the whole `rx`-by-`ry` footprint, detection triggers and `crseTot < 0` with
`|crseTot| > SumP`, then the volume-weighted sum over the footprint of the repaired
correction equals `crseTot`. -/
theorem ccprotect_2d_caseC_conservation (ic jc kc nvar : Int) (fine_bx : Box)
    (ratio : IntVect) (cs_geomdata fn_geomdata : GeometryData K) (fine fine_state : Array4 K)
    (n : Int) (hn1 : 1 ≤ n) (hn2 : n ≤ nvar - 2)
    (hcs : cs_geomdata.coord = CoordSys.cartesian)
    (hfn : fn_geomdata.coord = CoordSys.cartesian)
    (hfx : 0 < fn_geomdata.CellSize.1) (hfy : 0 < fn_geomdata.CellSize.2)
    (hcx : 0 < cs_geomdata.CellSize.1) (hcy : 0 < cs_geomdata.CellSize.2)
    (hrx : cs_geomdata.CellSize.1 = (ratio.x : K) * fn_geomdata.CellSize.1)
    (hry : cs_geomdata.CellSize.2 = (ratio.y : K) * fn_geomdata.CellSize.2)
    (hbx : fine_bx.smallEnd.x ≤ ratio.x * ic ∧ ratio.x * ic + (ratio.x - 1) ≤ fine_bx.bigEnd.x)
    (hby : fine_bx.smallEnd.y ≤ ratio.y * jc ∧ ratio.y * jc + (ratio.y - 1) ≤ fine_bx.bigEnd.y)
    (hredo : ccprotect_detects ic jc fine_bx ratio n fine fine_state = true)
    (h1 : (ccprotect_aggregates ic jc fine_bx ratio fn_geomdata n fine fine_state).crseTot < 0) (h2 : |(ccprotect_aggregates ic jc fine_bx ratio fn_geomdata n fine fine_state).crseTot| > (ccprotect_aggregates ic jc fine_bx ratio fn_geomdata n fine fine_state).SumP) :
    footprintSum ic jc fine_bx ratio (fun i j => ccprotect_fvol fn_geomdata i *
        (ccprotect_2d ic jc kc nvar fine_bx ratio cs_geomdata fn_geomdata fine fine_state).dat i j 0 n) = (ccprotect_aggregates ic jc fine_bx ratio fn_geomdata n fine fine_state).crseTot := by
  have hpos : ∀ r : Int, ∀ c f : K, 0 < f → 0 < c → c = (r : K) * f → 0 < r := by
    intro r c f hf hc he
    have hr : (0 : K) < (r : K) := by
      by_contra hneg
      have hle := mul_nonpos_of_nonpos_of_nonneg (not_lt.1 hneg) hf.le
      rw [← he] at hle
      exact absurd hc (not_lt.2 hle)
    exact_mod_cast hr
  have hrpx := hpos _ _ _ hfx hcx hrx
  have hrpy := hpos _ _ _ hfy hcy hry
  have hcvol : ccprotect_cvol cs_geomdata ic ≠ 0 := by
    unfold ccprotect_cvol
    simp only [if_pos hcs]
    exact (mul_pos hcx hcy).ne'
  rw [ccprotect_repaired_sum ic jc kc nvar fine_bx ratio cs_geomdata fn_geomdata fine
    fine_state n hn1 hn2 hredo (-1) (-1)
    (((ccprotect_aggregates ic jc fine_bx ratio fn_geomdata n fine fine_state).SumP + (ccprotect_aggregates ic jc fine_bx ratio fn_geomdata n fine fine_state).SumN + (ccprotect_aggregates ic jc fine_bx ratio fn_geomdata n fine fine_state).crseTot) / ccprotect_cvol cs_geomdata ic),
    ccprotect_cartesian_volumes ic jc fine_bx ratio cs_geomdata fn_geomdata hcs hfn hrpx hrpy
      hrx hry hbx hby]
  · field_simp
    ring
  · intro st x
    rw [ccprotect_newval_dispatch, if_neg (fun h => lt_asymm h1 h.1),
      if_neg (fun h => lt_asymm h1 h.1), if_pos ⟨h1, h2⟩]
    split_ifs <;> ring

/-- Witness for C24: the Case C sample footprint `fine_state = (-2, 1, 1, 1)`, correction
`(-5, 0, 0, 0)`, fine cell sizes `(1, 1)`, coarse cell sizes `(2, 2)`, ratio `(2, 2)`. -/
theorem ccprotect_2d_caseC_conservation_witness :
    footprintSum 0 0 unitBlock ⟨2, 2⟩ (fun i j => ccprotect_fvol unitGeom i *
        (ccprotect_2d 0 0 0 3 unitBlock ⟨2, 2⟩ coarseGeom unitGeom (cellData (-5) 0)
          (cellData (-2) 1)).dat i j 0 1) =
      (ccprotect_aggregates 0 0 unitBlock ⟨2, 2⟩ unitGeom 1 (cellData (-5) 0)
        (cellData (-2) 1)).crseTot :=
  ccprotect_2d_caseC_conservation 0 0 0 3 unitBlock ⟨2, 2⟩ coarseGeom unitGeom (cellData (-5) 0)
    (cellData (-2) 1) 1 (by decide) (by decide) rfl rfl
    (by norm_num [unitGeom]) (by norm_num [unitGeom])
    (by norm_num [coarseGeom]) (by norm_num [coarseGeom])
    (by norm_num [coarseGeom, unitGeom]) (by norm_num [coarseGeom, unitGeom])
    (by decide) (by decide) caseC_sample.1
    (by rw [caseC_sample.2.1]; norm_num)
    (by rw [caseC_sample.2.1, caseC_sample.2.2.2]; norm_num)

/-- Claim C25. (the code at the failing input) Both levels cylindrical with lower corner
`(0, 0)`, fine cell sizes `(1, 1)`, coarse cell sizes `(2, 2)`, ratio `(2, 2)`, coarse cell
`(1, 0)` with its whole footprint `[2, 3] × [0, 1]` in `fine_bx`: the fine cell volumes the
operator computes are `4` (column 2) and `6` (column 3) and add up to `20` over the
footprint, whereas the coarse cell volume it computes is `16`. For the constant correction
`-2` on `fine_state = 1`, detection triggers and `crseTot = -40`, not `cvol * (-2) = -32`;
special case 3 then leaves the correction `-9/4` in every footprint cell, whose
volume-weighted sum is `-45`, not `crseTot`. -/
theorem ccprotect_2d_rz_volume_mismatch :
    (rzCoarseGeom.coord = CoordSys.RZ ∧ rzFineGeom.coord = CoordSys.RZ ∧
      rzCoarseGeom.ProbLo = rzFineGeom.ProbLo ∧
      rzCoarseGeom.CellSize.1 = 2 * rzFineGeom.CellSize.1 ∧
      rzCoarseGeom.CellSize.2 = 2 * rzFineGeom.CellSize.2) ∧
    (ccprotect_ilo 1 rzBlock ⟨2, 2⟩ = 2 * 1 ∧ ccprotect_ihi 1 rzBlock ⟨2, 2⟩ = 2 * 1 + (2 - 1) ∧
      ccprotect_jlo 0 rzBlock ⟨2, 2⟩ = 2 * 0 ∧ ccprotect_jhi 0 rzBlock ⟨2, 2⟩ = 2 * 0 + (2 - 1)) ∧
    (ccprotect_fvol rzFineGeom 2 = 4 ∧ ccprotect_fvol rzFineGeom 3 = 6) ∧
    footprintSum 1 0 rzBlock ⟨2, 2⟩ (fun i _ => ccprotect_fvol rzFineGeom i) = 20 ∧
    ccprotect_cvol rzCoarseGeom 1 = 16 ∧
    ccprotect_detects 1 0 rzBlock ⟨2, 2⟩ 1 (constData (-2)) (constData 1) = true ∧
    (ccprotect_aggregates 1 0 rzBlock ⟨2, 2⟩ rzFineGeom 1 (constData (-2))
      (constData 1)).crseTot = -40 ∧
    ccprotect_cvol rzCoarseGeom 1 * (-2) = -32 ∧
    (∀ i j, inFootprint 1 0 rzBlock ⟨2, 2⟩ i j →
      (ccprotect_2d 1 0 0 3 rzBlock ⟨2, 2⟩ rzCoarseGeom rzFineGeom (constData (-2))
        (constData 1)).dat i j 0 1 = -9 / 4) ∧
    footprintSum 1 0 rzBlock ⟨2, 2⟩ (fun i j => ccprotect_fvol rzFineGeom i *
      (ccprotect_2d 1 0 0 3 rzBlock ⟨2, 2⟩ rzCoarseGeom rzFineGeom (constData (-2))
        (constData 1)).dat i j 0 1) = -45 := by
  have hb : ccprotect_ilo 1 rzBlock ⟨2, 2⟩ = 2 ∧ ccprotect_ihi 1 rzBlock ⟨2, 2⟩ = 3 ∧
      ccprotect_jlo 0 rzBlock ⟨2, 2⟩ = 0 ∧ ccprotect_jhi 0 rzBlock ⟨2, 2⟩ = 1 := by decide
  have hI : Finset.Icc (2 : Int) 3 = {2, 3} := by decide
  have hJ : Finset.Icc (0 : Int) 1 = {0, 1} := by decide
  have h23 : (2 : Int) ≠ 3 := by decide
  have h01 : (0 : Int) ≠ 1 := by decide
  have hrz : (CoordSys.RZ = CoordSys.cartesian) = False := eq_false (by decide)
  have hv2 : ccprotect_fvol rzFineGeom 2 = 4 := by norm_num [ccprotect_fvol, rzFineGeom, hrz]
  have hv3 : ccprotect_fvol rzFineGeom 3 = 6 := by norm_num [ccprotect_fvol, rzFineGeom, hrz]
  have hcv : ccprotect_cvol rzCoarseGeom 1 = 16 := by norm_num [ccprotect_cvol, rzCoarseGeom, hrz]
  have hd : ccprotect_detects 1 0 rzBlock ⟨2, 2⟩ 1 (constData (-2)) (constData 1) = true := by
    simp only [ccprotect_detects, hb, ccprotect_redo_me, forLe]
    norm_num [loopFrom, constData]
  have hT : (ccprotect_aggregates 1 0 rzBlock ⟨2, 2⟩ rzFineGeom 1 (constData (-2))
      (constData 1)).crseTot = -40 := by
    simp only [ccprotect_aggregates, hb, ccprotect_sums, forLe]
    norm_num [loopFrom, constData, ccprotect_fvol, rzFineGeom, hrz]
  have hN : (ccprotect_aggregates 1 0 rzBlock ⟨2, 2⟩ rzFineGeom 1 (constData (-2))
      (constData 1)).SumN = 0 := by
    simp only [ccprotect_aggregates, hb, ccprotect_sums, forLe]
    norm_num [loopFrom, constData, ccprotect_fvol, rzFineGeom, hrz]
  have hP : (ccprotect_aggregates 1 0 rzBlock ⟨2, 2⟩ rzFineGeom 1 (constData (-2))
      (constData 1)).SumP = 20 := by
    simp only [ccprotect_aggregates, hb, ccprotect_sums, forLe]
    norm_num [loopFrom, constData, ccprotect_fvol, rzFineGeom, hrz]
  have hcell : ∀ i j, inFootprint 1 0 rzBlock ⟨2, 2⟩ i j →
      (ccprotect_2d 1 0 0 3 rzBlock ⟨2, 2⟩ rzCoarseGeom rzFineGeom (constData (-2))
        (constData 1)).dat i j 0 1 = -9 / 4 := by
    intro i j hf
    rw [ccprotect_2d_repaired 1 0 0 3 rzBlock ⟨2, 2⟩ rzCoarseGeom rzFineGeom (constData (-2))
      (constData 1) 1 (by decide) (by decide) hd i j hf, hT, hN, hP, hcv]
    norm_num [ccprotect_newval, constData]
  refine ⟨⟨rfl, rfl, rfl, by norm_num [rzCoarseGeom, rzFineGeom],
    by norm_num [rzCoarseGeom, rzFineGeom]⟩, by decide, ⟨hv2, hv3⟩, ?_, hcv, hd, hT, ?_, hcell, ?_⟩
  · simp only [footprintSum, hb, hI, hJ, Finset.sum_pair h23, Finset.sum_pair h01, hv2, hv3]
    norm_num
  · rw [hcv]
    norm_num
  · simp only [footprintSum, hb, hI, hJ, Finset.sum_pair h23, Finset.sum_pair h01, hv2, hv3]
    rw [hcell 2 0 (by unfold inFootprint rzBlock; decide),
      hcell 3 0 (by unfold inFootprint rzBlock; decide),
      hcell 2 1 (by unfold inFootprint rzBlock; decide),
      hcell 3 1 (by unfold inFootprint rzBlock; decide)]
    norm_num

end Conservation

/-! ## Quartic cell interpolation: separability -/

section Separable

variable {K : Type} [LinearOrderedField K]

/-- Claim C31. `ccquartic_interp` is separable: for arbitrary coarse data and every fine
index `(i, j)`, the value written (stencil with odd-parity reflection applied first along
y to the five columns `ic-2 .. ic+2`, then along x) equals the value obtained by applying
the same 5-point stencil with odd-parity reflection first along x to the five rows
`jc-2 .. jc+2` and then along y. -/
theorem ccquartic_interp_separable (i j k n : Int) (crse fine : Array4 K) :
    (ccquartic_interp i j k n crse fine).dat i j 0 n = ccquartic_xfirst i j n crse := by
  have e : ∀ x : Int, x + 0 = x := fun x => add_zero x
  have em2 : ∀ x : Int, x + -2 = x - 2 := fun x => by ring
  have em1 : ∀ x : Int, x + -1 = x - 1 := fun x => by ring
  rw [ccquartic_interp_eq]
  unfold ccquartic_xfirst quarticLine
  simp only [e, em2, em1]
  split_ifs <;> ring

end Separable

end amrex
